import Mathlib

/-!
Shallow embedding of the rlox bytecode interpreter (YGXXD/rlox) and proofs
about the claims of its specification.

Conventions used throughout:
* Rust `f64` numbers are modelled as `ℚ`.  Every number appearing in a claim
  or a concrete program below is a small integer, which `f64` represents
  exactly, so no rounding behaviour is relevant to any statement proved here.
* Rust `Vec<T>` is modelled as `List T` with the same index order
  (index 0 = first element pushed; `push` appends at the end).
* Rust `usize` arithmetic is modelled on `Nat` with explicit checks: a
  subtraction that would overflow (`a - b` with `a < b`) is modelled as a
  panic, mirroring the arithmetic-overflow panic of a debug build, which is
  the default `cargo` profile.
* Fallible Rust code returning `Result<T, &str>` is modelled as
  `Except String T` with the source's message strings.
* Out-of-bounds indexing and `unwrap` on `None`/empty collections are
  modelled as explicit panic outcomes.
-/

set_option maxRecDepth 40000

/- Core `Rat` arithmetic is `@[irreducible]` by default (it has C
implementations); re-enable definitional unfolding so that concrete runs of
the embedded interpreter compute inside the kernel. -/
attribute [local semireducible] Rat.add Rat.sub Rat.mul Rat.inv

namespace RLox

mutual
/-- Bytecode chunk (src/chunk.rs `Chunk`): instruction bytes (as `Nat`,
always < 256 where written by the compiler), four constant pools and the
parallel line array.  The source field `variables` is called `varSlots`
here (`variables` is reserved in Lean). -/
inductive Chunk : Type where
  | mk : (code : List Nat) → (numbers : List ℚ) → (strings : List String) →
      (functions : List Function) → (varSlots : List Nat) →
      (lines : List Nat) → Chunk

/-- Function object (src/function.rs `Function`): a named,
parameter-counted chunk. -/
inductive Function : Type where
  | mk : (name : String) → (paramsNum : Nat) → (chunk : Chunk) → Function
end

def Chunk.code : Chunk → List Nat
  | .mk c _ _ _ _ _ => c

def Chunk.numbers : Chunk → List ℚ
  | .mk _ n _ _ _ _ => n

def Chunk.strings : Chunk → List String
  | .mk _ _ s _ _ _ => s

def Chunk.functions : Chunk → List Function
  | .mk _ _ _ f _ _ => f

def Chunk.varSlots : Chunk → List Nat
  | .mk _ _ _ _ v _ => v

def Chunk.lines : Chunk → List Nat
  | .mk _ _ _ _ _ l => l

def Function.name : Function → String
  | .mk n _ _ => n

def Function.paramsNum : Function → Nat
  | .mk _ p _ => p

def Function.chunk : Function → Chunk
  | .mk _ _ c => c

/-- Runtime values (src/value.rs `Value`).  The `Function` variant does not
appear in the committed src/value.rs, but src/vm.rs constructs
`Value::Function(Rc<Function>)` and the spec's data model (§3) lists it, so
the variant is included here; the value-layer operations reach it only
through their catch-all error arms, except `not`, whose `Function` arm is
modelled from the spec (§3 truthiness: all values other than `false` and
`Nil` are truthy). -/
inductive Value : Type where
  | VBool (b : Bool)
  | VNil
  | VNumber (n : ℚ)
  | VString (s : String)
  | VFunction (f : Function)

/-- src/value.rs `impl Neg for Value`. -/
def Value.neg : Value → Except String Value
  | .VNumber n => .ok (.VNumber (-n))
  | _ => .error "Neg operation error"

/-- src/value.rs `impl Add for Value`. -/
def Value.add : Value → Value → Except String Value
  | .VNumber x, .VNumber y => .ok (.VNumber (x + y))
  | .VString x, .VString y => .ok (.VString (x ++ y))
  | _, _ => .error "Add operation error"

/-- src/value.rs `impl Sub for Value`. -/
def Value.sub : Value → Value → Except String Value
  | .VNumber x, .VNumber y => .ok (.VNumber (x - y))
  | _, _ => .error "Sub operation error"

/-- src/value.rs `impl Mul for Value`. -/
def Value.mul : Value → Value → Except String Value
  | .VNumber x, .VNumber y => .ok (.VNumber (x * y))
  | _, _ => .error "Mul operation error"

/-- src/value.rs `impl Div for Value`.  Note there is no zero test: the
source computes `x / y` unconditionally for two numbers (IEEE division on
`f64`; `ℚ` division here). -/
def Value.div : Value → Value → Except String Value
  | .VNumber x, .VNumber y => .ok (.VNumber (x / y))
  | _, _ => .error "Div operation error"

/-- src/value.rs `impl Not for Value`.  The source matches the four
committed variants (`n == 0.0` for numbers, `s.len() == 0` for strings); the
`Function` arm is modelled from the spec (§3: all values other than `false`
and `Nil` are truthy, hence `!function` is `false`). -/
def Value.not : Value → Except String Value
  | .VBool b => .ok (.VBool (!b))
  | .VNil => .ok (.VBool true)
  | .VNumber n => .ok (.VBool (decide (n = 0)))
  | .VString s => .ok (.VBool (decide (s.length = 0)))
  | .VFunction _ => .ok (.VBool false)

/-- src/value.rs `Value::equal`. -/
def Value.equal : Value → Value → Except String Value
  | .VNumber x, .VNumber y => .ok (.VBool (decide (x = y)))
  | .VBool x, .VBool y => .ok (.VBool (x == y))
  | .VNil, .VNil => .ok (.VBool (decide ((0 : Nat) = 0)))
  | .VString x, .VString y => .ok (.VBool (x == y))
  | _, _ => .error "Equal operation error"

/-- src/value.rs `Value::not_equal`. -/
def Value.not_equal : Value → Value → Except String Value
  | .VNumber x, .VNumber y => .ok (.VBool (decide (x ≠ y)))
  | .VBool x, .VBool y => .ok (.VBool (x != y))
  | .VNil, .VNil => .ok (.VBool (decide ((0 : Nat) ≠ 0)))
  | .VString x, .VString y => .ok (.VBool (x != y))
  | _, _ => .error "Not Equal operation error"

/-- src/value.rs `Value::less`.  Rust orders `bool` with `false < true`;
strings lexicographically. -/
def Value.less : Value → Value → Except String Value
  | .VNumber x, .VNumber y => .ok (.VBool (decide (x < y)))
  | .VBool x, .VBool y => .ok (.VBool (!x && y))
  | .VNil, .VNil => .ok (.VBool (decide ((0 : Nat) < 0)))
  | .VString x, .VString y => .ok (.VBool (decide (x < y)))
  | _, _ => .error "Less operation error"

/-- src/value.rs `Value::less_equal`. -/
def Value.less_equal : Value → Value → Except String Value
  | .VNumber x, .VNumber y => .ok (.VBool (decide (x ≤ y)))
  | .VBool x, .VBool y => .ok (.VBool (!x || y))
  | .VNil, .VNil => .ok (.VBool (decide ((0 : Nat) ≤ 0)))
  | .VString x, .VString y => .ok (.VBool (decide (x ≤ y)))
  | _, _ => .error "Less Equal operation error"

/-- src/value.rs `Value::greater`. -/
def Value.greater : Value → Value → Except String Value
  | .VNumber x, .VNumber y => .ok (.VBool (decide (y < x)))
  | .VBool x, .VBool y => .ok (.VBool (x && !y))
  | .VNil, .VNil => .ok (.VBool (decide ((0 : Nat) < 0)))
  | .VString x, .VString y => .ok (.VBool (decide (y < x)))
  | _, _ => .error "Greater operation error"

/-- src/value.rs `Value::greater_equal`. -/
def Value.greater_equal : Value → Value → Except String Value
  | .VNumber x, .VNumber y => .ok (.VBool (decide (y ≤ x)))
  | .VBool x, .VBool y => .ok (.VBool (x || !y))
  | .VNil, .VNil => .ok (.VBool (decide ((0 : Nat) ≤ 0)))
  | .VString x, .VString y => .ok (.VBool (decide (y ≤ x)))
  | _, _ => .error "Greater Equal operation error"

/-- Helper: an `Except` computation succeeded. -/
def isOk {ε α : Type} : Except ε α → Bool
  | .ok _ => true
  | .error _ => false

/-- The pairs of values on which the ordering operations of src/value.rs
succeed: same-variant `Number`, `Bool`, `Nil` or `String` pairs. -/
def orderablePair : Value → Value → Bool
  | .VNumber _, .VNumber _ => true
  | .VBool _, .VBool _ => true
  | .VNil, .VNil => true
  | .VString _, .VString _ => true
  | _, _ => false

/-- VM opcodes (src/chunk.rs `OpCode`), discriminants 0–26 in declaration
order. -/
inductive OpCode where
  | Return | Nil | True | False | Number | String | Function
  | Not | Negate | Addition | Subtract | Multiply | Divide
  | Equal | Greater | Less | Print | Pop
  | DefineGlobal | GetGlobal | SetGlobal | GetLocal | SetLocal
  | JumpFalse | Jump | JumpBack | Call
deriving DecidableEq

/-- src/chunk.rs `impl From<OpCode> for u8`. -/
def OpCode.toByte : OpCode → Nat
  | .Return => 0 | .Nil => 1 | .True => 2 | .False => 3
  | .Number => 4 | .String => 5 | .Function => 6
  | .Not => 7 | .Negate => 8 | .Addition => 9 | .Subtract => 10
  | .Multiply => 11 | .Divide => 12 | .Equal => 13 | .Greater => 14
  | .Less => 15 | .Print => 16 | .Pop => 17 | .DefineGlobal => 18
  | .GetGlobal => 19 | .SetGlobal => 20 | .GetLocal => 21 | .SetLocal => 22
  | .JumpFalse => 23 | .Jump => 24 | .JumpBack => 25 | .Call => 26

/-- src/chunk.rs `impl From<u8> for OpCode`; a byte above 26 hits
`unimplemented!` (a panic), modelled as `none`. -/
def OpCode.ofByte : Nat → Option OpCode
  | 0 => some .Return | 1 => some .Nil | 2 => some .True | 3 => some .False
  | 4 => some .Number | 5 => some .String | 6 => some .Function
  | 7 => some .Not | 8 => some .Negate | 9 => some .Addition
  | 10 => some .Subtract | 11 => some .Multiply | 12 => some .Divide
  | 13 => some .Equal | 14 => some .Greater | 15 => some .Less
  | 16 => some .Print | 17 => some .Pop | 18 => some .DefineGlobal
  | 19 => some .GetGlobal | 20 => some .SetGlobal | 21 => some .GetLocal
  | 22 => some .SetLocal | 23 => some .JumpFalse | 24 => some .Jump
  | 25 => some .JumpBack | 26 => some .Call
  | _ => none

/-- Modelled from the spec: `Value::bool_value`, called by the VM's
`JumpFalse` arm (src/vm.rs line 249) but absent from the committed
src/value.rs.  Spec §3/§9: only `false` and `Nil` are falsey here. -/
def Value.bool_value : Value → Bool
  | .VBool b => b
  | .VNil => false
  | _ => true

/-- Rust's `f64::to_string` prints integral values without a decimal point;
only integral numbers are ever printed in the claims below, so `ℚ` values
with denominator 1 print as their integer part. -/
def numberToString (q : ℚ) : String :=
  if q.den = 1 then toString q.num else toString q

/-- src/value.rs `impl ToString for Value`.  Note the `String` arm wraps the
text in double quotes (`format!("\"{}\"", s)`).  The `Function` arm is
modelled from src/function.rs `impl ToString for Function` (the committed
value.rs lacks the variant). -/
def Value.toText : Value → String
  | .VBool b => cond b "true" "false"
  | .VNil => "nil"
  | .VNumber n => numberToString n
  | .VString s => "\"" ++ s ++ "\""
  | .VFunction f => cond (f.name.length == 0) "<script>" ("<fn " ++ f.name ++ ">")

/-- src/vm.rs `InterpretResult`. -/
inductive InterpretResult where
  | Success | CompileError | RuntimeError
deriving DecidableEq

/-- src/vm.rs `CallFrame`: instruction pointer, function being executed and
`slot` (the operand-stack index at which the frame's locals begin). -/
structure CallFrame where
  ip : Nat
  function : Function
  slot : Nat

/-- src/vm.rs `VM` minus the diagnostics: call-frame stack, operand stack
(index 0 = bottom, matching `Vec`), global slots.  Stdout produced by
`Print` is returned alongside each step rather than stored, since `println!`
is an effect, not VM state. -/
structure VMState where
  frames : List CallFrame
  stack : List Value
  globals : List (Option Value)

/-- src/vm.rs `VM::new`. -/
def VM.new : VMState := { frames := [], stack := [], globals := [] }

/-- Result of one iteration of the `run` dispatch loop: continue with a new
state (emitting any printed lines), break with an `InterpretResult`, or hit
a Rust panic (`unwrap` failure, out-of-bounds index, `unimplemented!`). -/
inductive StepRes where
  | next (s : VMState) (out : List String)
  | halt (r : InterpretResult) (s : VMState) (out : List String)
  | vmPanic (msg : String)

/-- src/vm.rs `VM::runtime_error`: prints the diagnostic using
`chunk.lines[curr_ip − 1]` (panicking when that index is out of bounds) and
resets the operand stack; the calling arm then breaks `RuntimeError`.  The
stderr text itself is not modelled.  `newIp` is the instruction pointer
after the arm's reads, already committed to the current frame. -/
def runtimeErrorStep (s : VMState) (fr : CallFrame) (newIp : Nat) : StepRes :=
  if 1 ≤ newIp ∧ newIp - 1 < fr.function.chunk.lines.length then
    .halt .RuntimeError
      { s with frames := s.frames.dropLast ++ [{ fr with ip := newIp }],
               stack := [] } []
  else .vmPanic "read_line index out of bounds"

/-- src/vm.rs `unary_op!` macro body: pop the top, apply the value
operation, push on success; on failure report a runtime error (which resets
the stack) and break `RuntimeError`. -/
def unArm (s : VMState) (fr : CallFrame) (op : Value → Except String Value) : StepRes :=
  match s.stack.getLast? with
  | none => .vmPanic "stack pop unwrap"
  | some top =>
    match op top with
    | .ok v =>
      .next { s with frames := s.frames.dropLast ++ [{ fr with ip := fr.ip + 1 }],
                     stack := s.stack.dropLast ++ [v] } []
    | .error _ => runtimeErrorStep s fr (fr.ip + 1)

/-- src/vm.rs `binary_op!` macro body: pop `b` then `a`, apply the value
operation, push on success; on failure report a runtime error and break
`RuntimeError`. -/
def binArm (s : VMState) (fr : CallFrame)
    (op : Value → Value → Except String Value) : StepRes :=
  match s.stack.getLast? with
  | none => .vmPanic "stack pop unwrap"
  | some b =>
    match s.stack.dropLast.getLast? with
    | none => .vmPanic "stack pop unwrap"
    | some a =>
      match op a b with
      | .ok v =>
        .next { s with frames := s.frames.dropLast ++ [{ fr with ip := fr.ip + 1 }],
                       stack := s.stack.dropLast.dropLast ++ [v] } []
      | .error _ => runtimeErrorStep s fr (fr.ip + 1)

/-- One iteration of src/vm.rs `VM::run`: read the opcode byte at the
current frame's `ip` and execute the matching arm.  Reads advance `ip` as in
`read_byte`/`read_short`; stack pushes append at the end of the list, pops
remove the last element, mirroring `Vec`. -/
def step (s : VMState) : StepRes :=
  match s.frames.getLast? with
  | none => .vmPanic "frames last unwrap"
  | some fr =>
    match fr.function.chunk.code.get? fr.ip with
    | none => .vmPanic "read_code index out of bounds"
    | some byte =>
      match OpCode.ofByte byte with
      | none => .vmPanic "Invalid OpCode"
      | some op =>
        match op with
        | .Return =>
          match s.stack.getLast? with
          | none => .vmPanic "stack pop unwrap"
          | some result =>
            let frames' := s.frames.dropLast
            if frames'.length = 0 then
              .halt .Success { s with frames := frames', stack := s.stack.dropLast } []
            else if 1 ≤ fr.slot then
              .next { s with frames := frames',
                             stack := (s.stack.dropLast.take (fr.slot - 1)) ++ [result] } []
            else .vmPanic "usize underflow in frame slot - 1"
        | .Nil => .next { s with frames := (s.frames.dropLast ++ [{ fr with ip := fr.ip + 1 }]), stack := s.stack ++ [.VNil] } []
        | .True => .next { s with frames := (s.frames.dropLast ++ [{ fr with ip := fr.ip + 1 }]), stack := s.stack ++ [.VBool true] } []
        | .False => .next { s with frames := (s.frames.dropLast ++ [{ fr with ip := fr.ip + 1 }]), stack := s.stack ++ [.VBool false] } []
        | .Number =>
          match fr.function.chunk.code.get? (fr.ip + 1) with
          | none => .vmPanic "read_code index out of bounds"
          | some idx =>
            match fr.function.chunk.numbers.get? idx with
            | none => .vmPanic "read_number index out of bounds"
            | some n =>
              .next { s with frames := (s.frames.dropLast ++ [{ fr with ip := fr.ip + 2 }]), stack := s.stack ++ [.VNumber n] } []
        | .String =>
          match fr.function.chunk.code.get? (fr.ip + 1) with
          | none => .vmPanic "read_code index out of bounds"
          | some idx =>
            match fr.function.chunk.strings.get? idx with
            | none => .vmPanic "read_string index out of bounds"
            | some t =>
              .next { s with frames := (s.frames.dropLast ++ [{ fr with ip := fr.ip + 2 }]), stack := s.stack ++ [.VString t] } []
        | .Function =>
          match fr.function.chunk.code.get? (fr.ip + 1) with
          | none => .vmPanic "read_code index out of bounds"
          | some idx =>
            match fr.function.chunk.functions.get? idx with
            | none => .vmPanic "read_function index out of bounds"
            | some f =>
              .next { s with frames := (s.frames.dropLast ++ [{ fr with ip := fr.ip + 2 }]), stack := s.stack ++ [.VFunction f] } []
        | .Equal => binArm s fr (fun a b => Value.equal a b)
        | .Greater => binArm s fr (fun a b => Value.greater a b)
        | .Less => binArm s fr (fun a b => Value.less a b)
        | .Not => unArm s fr Value.not
        | .Negate => unArm s fr Value.neg
        | .Addition => binArm s fr Value.add
        | .Subtract => binArm s fr Value.sub
        | .Multiply => binArm s fr Value.mul
        | .Divide => binArm s fr Value.div
        | .Print =>
          match s.stack.getLast? with
          | none => .vmPanic "stack pop unwrap"
          | some v =>
            .next { s with frames := (s.frames.dropLast ++ [{ fr with ip := fr.ip + 1 }]), stack := s.stack.dropLast }
              [v.toText]
        | .Pop =>
          match s.stack.getLast? with
          | none => .vmPanic "stack pop unwrap"
          | some _ =>
            .next { s with frames := (s.frames.dropLast ++ [{ fr with ip := fr.ip + 1 }]), stack := s.stack.dropLast } []
        | .DefineGlobal =>
          match fr.function.chunk.code.get? (fr.ip + 1) with
          | none => .vmPanic "read_code index out of bounds"
          | some idx =>
            match fr.function.chunk.varSlots.get? idx with
            | none => .vmPanic "read_variable index out of bounds"
            | some slot =>
              match s.stack.getLast? with
              | none => .vmPanic "stack pop unwrap"
              | some value =>
                if slot ≥ s.globals.length then
                  runtimeErrorStep s fr (fr.ip + 2)
                else match s.globals.get? slot with
                  | some (some _) => runtimeErrorStep s fr (fr.ip + 2)
                  | some none =>
                    .next { s with frames := (s.frames.dropLast ++ [{ fr with ip := fr.ip + 2 }]),
                                   stack := s.stack.dropLast,
                                   globals := s.globals.set slot (some value) } []
                  | none => .vmPanic "globals index out of bounds"
        | .GetGlobal =>
          match fr.function.chunk.code.get? (fr.ip + 1) with
          | none => .vmPanic "read_code index out of bounds"
          | some idx =>
            match fr.function.chunk.varSlots.get? idx with
            | none => .vmPanic "read_variable index out of bounds"
            | some slot =>
              match s.globals.get? slot with
              | none => .vmPanic "globals index out of bounds"
              | some (some v) =>
                .next { s with frames := (s.frames.dropLast ++ [{ fr with ip := fr.ip + 2 }]), stack := s.stack ++ [v] } []
              | some none =>
                runtimeErrorStep s fr (fr.ip + 2)
        | .SetGlobal =>
          match fr.function.chunk.code.get? (fr.ip + 1) with
          | none => .vmPanic "read_code index out of bounds"
          | some idx =>
            match fr.function.chunk.varSlots.get? idx with
            | none => .vmPanic "read_variable index out of bounds"
            | some slot =>
              match s.globals.get? slot with
              | none => .vmPanic "globals index out of bounds"
              | some (some _) =>
                match s.stack.getLast? with
                | none => .vmPanic "stack last unwrap"
                | some value =>
                  .next { s with frames := (s.frames.dropLast ++ [{ fr with ip := fr.ip + 2 }]),
                                 globals := s.globals.set slot (some value) } []
              | some none =>
                runtimeErrorStep s fr (fr.ip + 2)
        | .GetLocal =>
          match fr.function.chunk.code.get? (fr.ip + 1) with
          | none => .vmPanic "read_code index out of bounds"
          | some idx =>
            match fr.function.chunk.varSlots.get? idx with
            | none => .vmPanic "read_variable index out of bounds"
            | some localSlot =>
              match s.stack.get? (localSlot + fr.slot) with
              | some v =>
                .next { s with frames := (s.frames.dropLast ++ [{ fr with ip := fr.ip + 2 }]), stack := s.stack ++ [v] } []
              | none =>
                runtimeErrorStep s fr (fr.ip + 2)
        | .SetLocal =>
          match fr.function.chunk.code.get? (fr.ip + 1) with
          | none => .vmPanic "read_code index out of bounds"
          | some idx =>
            match fr.function.chunk.varSlots.get? idx with
            | none => .vmPanic "read_variable index out of bounds"
            | some localSlot =>
              match s.stack.get? (localSlot + fr.slot) with
              | some _ =>
                match s.stack.getLast? with
                | none => .vmPanic "stack last unwrap"
                | some value =>
                  .next { s with frames := (s.frames.dropLast ++ [{ fr with ip := fr.ip + 2 }]),
                                 stack := s.stack.set (localSlot + fr.slot) value } []
              | none =>
                runtimeErrorStep s fr (fr.ip + 2)
        | .JumpFalse =>
          match fr.function.chunk.code.get? (fr.ip + 1), fr.function.chunk.code.get? (fr.ip + 2) with
          | some low, some high =>
            let offset := low + high * 256
            match s.stack.getLast? with
            | none => .vmPanic "stack last unwrap"
            | some v =>
              if !v.bool_value then
                .next { s with frames := (s.frames.dropLast ++ [{ fr with ip := fr.ip + 3 + offset }]) } []
              else .next { s with frames := (s.frames.dropLast ++ [{ fr with ip := fr.ip + 3 }]) } []
          | _, _ => .vmPanic "read_code index out of bounds"
        | .Jump =>
          match fr.function.chunk.code.get? (fr.ip + 1), fr.function.chunk.code.get? (fr.ip + 2) with
          | some low, some high =>
            .next { s with frames := (s.frames.dropLast ++ [{ fr with ip := fr.ip + 3 + (low + high * 256) }]) } []
          | _, _ => .vmPanic "read_code index out of bounds"
        | .JumpBack =>
          match fr.function.chunk.code.get? (fr.ip + 1), fr.function.chunk.code.get? (fr.ip + 2) with
          | some low, some high =>
            let offset := low + high * 256
            if offset ≤ fr.ip + 3 then
              .next { s with frames := (s.frames.dropLast ++ [{ fr with ip := fr.ip + 3 - offset }]) } []
            else .vmPanic "usize underflow in curr_ip_dec"
          | _, _ => .vmPanic "read_code index out of bounds"
        | .Call =>
          match fr.function.chunk.code.get? (fr.ip + 1) with
          | none => .vmPanic "read_code index out of bounds"
          | some argCount =>
            if argCount + 1 ≤ s.stack.length then
              match s.stack.get? (s.stack.length - 1 - argCount) with
              | none => .vmPanic "stack get unwrap"
              | some calleeValue =>
                match calleeValue with
                | .VFunction f =>
                  .next { s with frames := (s.frames.dropLast ++ [{ fr with ip := fr.ip + 2 }]) ++
                      [{ ip := 0, function := f, slot := s.stack.length - argCount }] } []
                | _ => .halt .RuntimeError { s with frames := (s.frames.dropLast ++ [{ fr with ip := fr.ip + 2 }]) } []
            else .vmPanic "usize underflow in stack len - 1 - arg count"

/-- Outcome of a whole `VM::run` loop: a break value with the final state
and the stdout lines printed, a Rust panic, or fuel exhaustion (the Rust
loop has no bound; every concrete run below gets ample fuel). -/
inductive RunRes where
  | result (r : InterpretResult) (s : VMState) (out : List String)
  | panicked (msg : String)
  | fuelOut

/-- src/vm.rs `VM::run`: iterate `step` until an arm breaks out of the
loop, concatenating printed output. -/
def runLoop : Nat → VMState → RunRes
  | 0, _ => .fuelOut
  | fuel + 1, s =>
    match step s with
    | .next s' out =>
      match runLoop fuel s' with
      | .result r s2 out2 => .result r s2 (out ++ out2)
      | other => other
    | .halt r s' out => .result r s' out
    | .vmPanic m => .panicked m

/-- Helper: does a step outcome break the run with `RuntimeError`? -/
def isRuntimeErrorHalt : StepRes → Bool
  | .halt .RuntimeError _ _ => true
  | _ => false

/-! Concrete states used by counterexamples and witnesses below. -/

/-- A chunk holding a single `Divide` opcode. -/
def c8Chunk : Chunk := .mk [12] [] [] [] [] [1]

/-- Top-level function for the divide-by-zero state. -/
def c8Fun : Function := .mk "" 0 c8Chunk

/-- Frame executing `c8Chunk` from the start. -/
def c8Frame : CallFrame := { ip := 0, function := c8Fun, slot := 1 }

/-- State about to execute `Divide` with operands `1` and `0`. -/
def c8State : VMState :=
  { frames := [c8Frame], stack := [.VNumber 1, .VNumber 0], globals := [] }

/-- A callee function that declares one parameter. -/
def c1Callee : Function := .mk "f" 1 (.mk [] [] [] [] [] [])

/-- A chunk holding `Call 0`: call with zero arguments. -/
def c1Chunk : Chunk := .mk [26, 0] [] [] [] [] [1, 1]

/-- Top-level function for the arity-mismatch state. -/
def c1Fun : Function := .mk "" 0 c1Chunk

/-- Frame executing `c1Chunk` from the start. -/
def c1Frame : CallFrame := { ip := 0, function := c1Fun, slot := 1 }

/-- State about to execute `Call 0` with a one-parameter callee on the
stack. -/
def c1State : VMState :=
  { frames := [c1Frame], stack := [.VFunction c1Callee], globals := [] }

/-- A chunk holding `SetGlobal 0` whose variable pool maps index 0 to
global slot 0. -/
def c9Chunk : Chunk := .mk [20, 0] [] [] [] [0] [1, 1]

/-- Top-level function for the `SetGlobal` state. -/
def c9Fun : Function := .mk "" 0 c9Chunk

/-- Frame executing `c9Chunk` from the start. -/
def c9Frame : CallFrame := { ip := 0, function := c9Fun, slot := 1 }

/-- State about to execute `SetGlobal 0` with slot 0 occupied by `3` and
`7` on top of the stack. -/
def c9State : VMState :=
  { frames := [c9Frame], stack := [.VNumber 7], globals := [some (.VNumber 3)] }

/-! Scanner layer (src/token.rs, src/scanner.rs).  The compiler imports
`TokenType` from src/token.rs (dense discriminants 0–39); the duplicate enum
inside scanner.rs is dead code. -/

/-- Token kinds (src/token.rs `TokenType`). -/
inductive TokenType where
  | LeftParen | RightParen | LeftBrace | RightBrace | Comma | Dot
  | Minus | Plus | Semicolon | Slash | Star
  | Bang | BangEqual | Equal | EqualEqual
  | Greater | GreaterEqual | Less | LessEqual
  | Identifier | TString | TNumber
  | And | Class | Else | False | For | Fun | If | Nil | Or
  | Print | Return | Super | This | True | Var | While
  | Eof | Error
deriving DecidableEq

/-- A scanned token (src/token.rs `Token`): kind, lexeme and source line.
The source field `r#type` is called `kind` here. -/
structure Token where
  kind : TokenType
  lexeme : String
  line : Nat
deriving DecidableEq

/-- src/token.rs `impl Default for TokenType` returns `Error`; `Token`'s
derived `Default` uses it with an empty lexeme and line 0. -/
def Token.default : Token := { kind := .Error, lexeme := "", line := 0 }

/-- Scanner state (src/scanner.rs `Scanner`): source characters and the
`start`/`current`/`line` cursors. -/
structure Scanner where
  source : List Char
  start : Nat
  current : Nat
  line : Nat

/-- Modelled from the spec: `Compiler::compile` begins with
`self.scanner.reset(source)`, a method absent from the committed
src/scanner.rs, whose constructor performs exactly this initialisation
(cursors to 0, line to 1) from a source string (spec §4.1). -/
def Scanner.reset (source : String) : Scanner :=
  { source := source.data, start := 0, current := 0, line := 1 }

/-- src/scanner.rs `Scanner::peek`. -/
def Scanner.peek (sc : Scanner) : Option Char :=
  sc.source.get? sc.current

/-- src/scanner.rs `Scanner::peek_next`. -/
def Scanner.peek_next (sc : Scanner) : Option Char :=
  sc.source.get? (sc.current + 1)

/-- src/scanner.rs `Scanner::advance`. -/
def Scanner.advance (sc : Scanner) : Scanner :=
  { sc with current := sc.current + 1 }

/-- src/scanner.rs `Scanner::make_token`: lexeme is
`source[start..current]`. -/
def Scanner.make_token (sc : Scanner) (t : TokenType) : Token :=
  { kind := t,
    lexeme := String.mk ((sc.source.drop sc.start).take (sc.current - sc.start)),
    line := sc.line }

/-- src/scanner.rs `Scanner::error_token`. -/
def Scanner.error_token (sc : Scanner) (info : String) : Token :=
  { kind := .Error, lexeme := info, line := sc.line }

/-- The inner loop of `skip_white_space`'s `//` arm: advance until a
newline or the end of source. -/
def skipLineComment : Nat → Scanner → Option Scanner
  | 0, _ => none
  | fuel + 1, sc =>
    match sc.peek with
    | some c => if c ≠ '\n' then skipLineComment fuel sc.advance else some sc
    | none => some sc

/-- src/scanner.rs `Scanner::skip_white_space`: spaces, tabs, carriage
returns, newlines (counting lines) and `//` comments. -/
def skipWhiteSpace : Nat → Scanner → Option Scanner
  | 0, _ => none
  | fuel + 1, sc =>
    match sc.peek with
    | some ' ' => skipWhiteSpace fuel sc.advance
    | some '\t' => skipWhiteSpace fuel sc.advance
    | some '\r' => skipWhiteSpace fuel sc.advance
    | some '\n' => skipWhiteSpace fuel { sc.advance with line := sc.line + 1 }
    | some '/' =>
      match sc.peek_next with
      | some '/' =>
        match skipLineComment fuel sc with
        | some sc' => skipWhiteSpace fuel sc'
        | none => none
      | some _ => some sc
      | none => some sc
    | some _ => some sc
    | none => some sc

/-- src/scanner.rs `Scanner::string_token`'s scan loop: advance (counting
lines) until a closing quote or the end of source. -/
def stringBody : Nat → Scanner → Option Scanner
  | 0, _ => none
  | fuel + 1, sc =>
    match sc.peek with
    | some '\"' => some sc
    | some '\n' => stringBody fuel { sc.advance with line := sc.line + 1 }
    | some _ => stringBody fuel sc.advance
    | none => some sc

/-- src/scanner.rs `Scanner::string_token`: after the loop, the end of
source means an unterminated string; otherwise consume the closing quote
and produce a `String` token (quotes included in the lexeme). -/
def Scanner.string_token (fuel : Nat) (sc : Scanner) : Option (Token × Scanner) :=
  match stringBody fuel sc with
  | none => none
  | some sc' =>
    match sc'.peek with
    | none => some (sc'.error_token "unterminated string", sc')
    | some _ => some ((sc'.advance).make_token .TString, sc'.advance)

/-- Digit-run loop used by `number_token`. -/
def digitRun : Nat → Scanner → Option Scanner
  | 0, _ => none
  | fuel + 1, sc =>
    match sc.peek with
    | some c => if c.isDigit then digitRun fuel sc.advance else some sc
    | none => some sc

/-- src/scanner.rs `Scanner::number_token`: integer digits, then an
optional `.` followed by at least one digit. -/
def Scanner.number_token (fuel : Nat) (sc : Scanner) : Option (Token × Scanner) :=
  match digitRun fuel sc with
  | none => none
  | some sc1 =>
    let fractional : Bool :=
      match sc1.peek, sc1.peek_next with
      | some '.', some d => d.isDigit
      | _, _ => false
    if fractional then
      match digitRun fuel { sc1 with current := sc1.current + 2 } with
      | none => none
      | some sc2 => some (sc2.make_token .TNumber, sc2)
    else some (sc1.make_token .TNumber, sc1)

/-- Identifier-run loop: ASCII alphanumerics and `_`. -/
def identRun : Nat → Scanner → Option Scanner
  | 0, _ => none
  | fuel + 1, sc =>
    match sc.peek with
    | some c => if c.isAlphanum || c = '_' then identRun fuel sc.advance else some sc
    | none => some sc

/-- src/scanner.rs keyword table at the end of `identifier_token`. -/
def keywordKind : String → TokenType
  | "var" => .Var
  | "nil" => .Nil
  | "true" => .True
  | "false" => .False
  | "and" => .And
  | "or" => .Or
  | "if" => .If
  | "else" => .Else
  | "while" => .While
  | "for" => .For
  | "fun" => .Fun
  | "print" => .Print
  | "return" => .Return
  | "class" => .Class
  | "this" => .This
  | "super" => .Super
  | _ => .Identifier

/-- src/scanner.rs `Scanner::identifier_token`. -/
def Scanner.identifier_token (fuel : Nat) (sc : Scanner) : Option (Token × Scanner) :=
  match identRun fuel sc with
  | none => none
  | some sc' =>
    let keyword : String :=
      String.mk ((sc'.source.drop sc'.start).take (sc'.current - sc'.start))
    some (sc'.make_token (keywordKind keyword), sc')

/-- src/scanner.rs `Scanner::r#match`: conditionally consume an expected
character. -/
def Scanner.matchChar (sc : Scanner) (c : Char) : Bool × Scanner :=
  match sc.peek with
  | some c' => if c' = c then (true, sc.advance) else (false, sc)
  | none => (false, sc)

/-- src/scanner.rs `Scanner::scan_token`: skip whitespace, reset `start`
and classify the next character.  `none` means the fuel ran out (the Rust
loops are bounded by the source length; all concrete runs get ample
fuel). -/
def scanToken (fuel : Nat) (sc0 : Scanner) : Option (Token × Scanner) :=
  match skipWhiteSpace fuel sc0 with
  | none => none
  | some scw =>
    let sc := { scw with start := scw.current }
    match sc.peek with
    | none => some (sc.make_token .Eof, sc)
    | some c =>
      let sc1 := sc.advance
      match c with
      | '(' => some (sc1.make_token .LeftParen, sc1)
      | ')' => some (sc1.make_token .RightParen, sc1)
      | '\x7b' => some (sc1.make_token .LeftBrace, sc1)
      | '\x7d' => some (sc1.make_token .RightBrace, sc1)
      | ';' => some (sc1.make_token .Semicolon, sc1)
      | ',' => some (sc1.make_token .Comma, sc1)
      | '.' => some (sc1.make_token .Dot, sc1)
      | '+' => some (sc1.make_token .Plus, sc1)
      | '-' => some (sc1.make_token .Minus, sc1)
      | '*' => some (sc1.make_token .Star, sc1)
      | '/' => some (sc1.make_token .Slash, sc1)
      | '!' =>
        match sc1.matchChar '=' with
        | (true, sc2) => some (sc2.make_token .BangEqual, sc2)
        | (false, sc2) => some (sc2.make_token .Bang, sc2)
      | '=' =>
        match sc1.matchChar '=' with
        | (true, sc2) => some (sc2.make_token .EqualEqual, sc2)
        | (false, sc2) => some (sc2.make_token .Equal, sc2)
      | '<' =>
        match sc1.matchChar '=' with
        | (true, sc2) => some (sc2.make_token .LessEqual, sc2)
        | (false, sc2) => some (sc2.make_token .Less, sc2)
      | '>' =>
        match sc1.matchChar '=' with
        | (true, sc2) => some (sc2.make_token .GreaterEqual, sc2)
        | (false, sc2) => some (sc2.make_token .Greater, sc2)
      | '\"' => sc1.string_token fuel
      | c' =>
        if c'.isDigit then sc1.number_token fuel
        else if ('a' ≤ c' ∧ c' ≤ 'z') ∨ ('A' ≤ c' ∧ c' ≤ 'Z') ∨ c' = '_' then
          sc1.identifier_token fuel
        else some (sc1.error_token "unexpected character", sc1)

/-! Compiler layer (src/compiler.rs, chunk-building ops from
src/chunk.rs). -/

/-- A Rust panic inside the compiler, or fuel exhaustion of the model's
bounded recursion.  Debug builds (the default `cargo` profile) panic on
`usize` overflow, which is what `underflowPanic`/`overflowPanic` model. -/
inductive CompPanic where
  | ofFuel
  | unwrapPanic (site : String)
  | underflowPanic (site : String)
  | overflowPanic (site : String)
  | updatePanic (site : String)
deriving DecidableEq

/-- src/chunk.rs `Chunk::new`. -/
def Chunk.empty : Chunk := .mk [] [] [] [] [] []

/-- src/chunk.rs `Chunk::write_code`: append an instruction byte and its
line. -/
def Chunk.write_code : Chunk → Nat → Nat → Chunk
  | .mk code nums strs fns vars lines, b, ln =>
    .mk (code ++ [b]) nums strs fns vars (lines ++ [ln])

/-- src/chunk.rs `Chunk::update_code`: `self.code[offset] = byte`, which
panics out of bounds (hence `Option`). -/
def Chunk.update_code : Chunk → Nat → Nat → Option Chunk
  | .mk code nums strs fns vars lines, offset, b =>
    if offset < code.length then some (.mk (code.set offset b) nums strs fns vars lines)
    else none

/-- src/chunk.rs `Chunk::code_size`. -/
def Chunk.code_size (c : Chunk) : Nat := c.code.length

/-- src/chunk.rs `Chunk::add_number`: push into the pool (capped at 256)
and return the new entry's index. -/
def Chunk.add_number : Chunk → ℚ → Except String (Nat × Chunk)
  | .mk code nums strs fns vars lines, q =>
    if nums.length < 256 then
      .ok (nums.length, .mk code (nums ++ [q]) strs fns vars lines)
    else .error "Too many numbers in one chunk"

/-- src/chunk.rs `Chunk::add_string`. -/
def Chunk.add_string : Chunk → String → Except String (Nat × Chunk)
  | .mk code nums strs fns vars lines, t =>
    if strs.length < 256 then
      .ok (strs.length, .mk code nums (strs ++ [t]) fns vars lines)
    else .error "Too many strings in one chunk"

/-- src/chunk.rs `Chunk::add_variable`. -/
def Chunk.add_variable : Chunk → Nat → Except String (Nat × Chunk)
  | .mk code nums strs fns vars lines, v =>
    if vars.length < 256 then
      .ok (vars.length, .mk code nums strs fns (vars ++ [v]) lines)
    else .error "Too many variable slots in one chunk"

/-- src/chunk.rs `Chunk::add_function`. -/
def Chunk.add_function : Chunk → Function → Except String (Nat × Chunk)
  | .mk code nums strs fns vars lines, f =>
    if fns.length < 256 then
      .ok (fns.length, .mk code nums strs (fns ++ [f]) vars lines)
    else .error "Too many function in one chunk"

/-- Association-list model of the depth-indexed `HashMap` in
`CompileContext::variables`; only `get`, `insert` (replacing) and `remove`
are ever used, so the representation is observationally equivalent. -/
def dmGet (m : List (Nat × List (String × Nat))) (k : Nat) :
    Option (List (String × Nat)) :=
  (m.find? (fun p => p.1 == k)).map (fun p => p.2)

/-- `HashMap::insert` for the depth map (replaces any existing entry). -/
def dmInsert (m : List (Nat × List (String × Nat))) (k : Nat)
    (v : List (String × Nat)) : List (Nat × List (String × Nat)) :=
  (k, v) :: m.filter (fun p => p.1 != k)

/-- `HashMap::remove` for the depth map. -/
def dmRemove (m : List (Nat × List (String × Nat))) (k : Nat) :
    List (Nat × List (String × Nat)) :=
  m.filter (fun p => p.1 != k)

/-- `HashMap::contains_key` for an identifier → slot map. -/
def imContains (m : List (String × Nat)) (k : String) : Bool :=
  m.any (fun p => p.1 == k)

/-- `HashMap::get` for an identifier → slot map. -/
def imGet (m : List (String × Nat)) (k : String) : Option Nat :=
  (m.find? (fun p => p.1 == k)).map (fun p => p.2)

/-- `HashMap::insert` for an identifier → slot map; the source only inserts
keys checked to be absent, so appending keeps `len()` equal to the entry
count. -/
def imInsert (m : List (String × Nat)) (k : String) (v : Nat) :
    List (String × Nat) :=
  m ++ [(k, v)]

/-- One compile context (src/compiler.rs `CompileContext`): depth-indexed
scope maps, running local count, current depth, and the chunk/function
metadata under construction. -/
structure Ctx where
  vars : List (Nat × List (String × Nat))
  localCount : Nat
  depth : Nat
  chunk : Chunk
  functionName : String
  paramsNum : Nat

/-- src/compiler.rs `CompileContext::new`. -/
def Ctx.new : Ctx :=
  { vars := [], localCount := 0, depth := 0, chunk := Chunk.empty,
    functionName := "", paramsNum := 0 }

/-- Compiler state (src/compiler.rs `Compiler`): scanner, token window,
panic/error flags and the stack of compile contexts (index 0 = root,
last = current, matching the `Vec`).  The stderr text of diagnostics is
not modelled; only the flag effects of `throw_error` are. -/
structure CompSt where
  scanner : Scanner
  current : Token
  previous : Token
  is_panic : Bool
  had_error : Bool
  contexts : List Ctx

/-- src/compiler.rs `Compiler::throw_error`: when not already panicking,
print the diagnostic (not modelled) and raise both flags. -/
def throw_error (st : CompSt) (_tok : Token) (_msg : String) : CompSt :=
  if st.is_panic then st
  else { st with is_panic := true, had_error := true }

/-- `curr_context()` = `compile_context_stack.last().unwrap()`. -/
def currCtxE (st : CompSt) : Except CompPanic Ctx :=
  match st.contexts.getLast? with
  | some c => .ok c
  | none => .error (.unwrapPanic "curr_context")

/-- Replace the current (= last) compile context. -/
def setCurr (st : CompSt) (c : Ctx) : CompSt :=
  { st with contexts := st.contexts.dropLast ++ [c] }

/-- Write one byte to the current context's chunk. -/
def emitByte (st : CompSt) (b line : Nat) : Except CompPanic CompSt := do
  let ctx ← currCtxE st
  .ok (setCurr st { ctx with chunk := ctx.chunk.write_code b line })

/-- The scan loop inside src/compiler.rs `Compiler::advance`: keep
scanning past `Error` tokens (reporting each) until a non-error token. -/
def advanceLoop : Nat → CompSt → Except CompPanic CompSt
  | 0, _ => .error .ofFuel
  | fuel + 1, st =>
    match scanToken fuel st.scanner with
    | none => .error .ofFuel
    | some (tok, sc') =>
      let st' := { st with scanner := sc', current := tok }
      match tok.kind with
      | .Error => advanceLoop fuel (throw_error st' tok "Scan Lex error")
      | _ => .ok st'

/-- src/compiler.rs `Compiler::advance`. -/
def advanceTok (fuel : Nat) (st : CompSt) : Except CompPanic CompSt :=
  advanceLoop fuel { st with previous := st.current }

/-- src/compiler.rs `Compiler::r#match`. -/
def matchTok (fuel : Nat) (tt : TokenType) (st : CompSt) :
    Except CompPanic (Bool × CompSt) :=
  if st.current.kind = tt then do
    let st' ← advanceTok fuel st
    .ok (true, st')
  else .ok (false, st)

/-- src/compiler.rs `Compiler::consume`. -/
def consume (fuel : Nat) (tt : TokenType) (msg : String) (st : CompSt) :
    Except CompPanic CompSt := do
  let (m, st') ← matchTok fuel tt st
  if m then .ok st' else .ok (throw_error st' st'.current msg)

/-- The skip loop of src/compiler.rs `Compiler::error_synchronize`. -/
def errorSyncLoop : Nat → CompSt → Except CompPanic CompSt
  | 0, _ => .error .ofFuel
  | fuel + 1, st =>
    match st.current.kind with
    | .Eof => .ok st
    | .Semicolon => advanceTok fuel st
    | _ => do
      let st' ← advanceTok fuel st
      errorSyncLoop fuel st'

/-- src/compiler.rs `Compiler::error_synchronize`: when panicking, clear
the panic flag and skip to a statement boundary. -/
def error_synchronize (fuel : Nat) (st : CompSt) : Except CompPanic CompSt :=
  if st.is_panic then errorSyncLoop fuel { st with is_panic := false }
  else .ok st

/-- Digit-string value accumulator for the number-literal parser. -/
def digitsValAux : List Char → Nat → Option Nat
  | [], acc => some acc
  | c :: rest, acc =>
    if c.isDigit then digitsValAux rest (acc * 10 + (c.toNat - '0'.toNat))
    else none

/-- Value of a non-empty all-digit string. -/
def digitsVal (l : List Char) : Option Nat :=
  match l with
  | [] => none
  | _ => digitsValAux l 0

/-- `str::parse::<f64>` on the lexeme shapes the scanner produces (digits,
optionally a dot and more digits), evaluated exactly over `ℚ`. -/
def parseNumberLit (s : String) : Option ℚ :=
  match s.data.splitOn '.' with
  | [ipart] => (digitsVal ipart).map (fun n => (n : ℚ))
  | [ipart, fpart] =>
    match digitsVal ipart, digitsVal fpart with
    | some i, some fv => some ((i : ℚ) + (fv : ℚ) / ((10 : ℚ) ^ fpart.length))
    | _, _ => none
  | _ => none

/-- src/compiler.rs `Compiler::parse_number`: emit the `Number` opcode,
parse the literal, then pool it and emit the index (or report). -/
def parse_number (st : CompSt) : Except CompPanic CompSt := do
  let st ← emitByte st (OpCode.toByte .Number) st.previous.line
  match parseNumberLit st.previous.lexeme with
  | some q =>
    let ctx ← currCtxE st
    match ctx.chunk.add_number q with
    | .ok (idx, chunk') =>
      .ok (setCurr st { ctx with chunk := chunk'.write_code (idx % 256) st.previous.line })
    | .error e => .ok (throw_error st st.previous e)
  | none => .ok (throw_error st st.previous "Expect number Error")

/-- src/compiler.rs `Compiler::parse_string`: emit the `String` opcode and
pool the lexeme with its surrounding quotes stripped. -/
def parse_string (st : CompSt) : Except CompPanic CompSt := do
  let st ← emitByte st (OpCode.toByte .String) st.previous.line
  let len := st.previous.lexeme.length
  if len ≥ 2 then
    let content : String :=
      if len > 2 then String.mk ((st.previous.lexeme.data.drop 1).take (len - 2))
      else ""
    let ctx ← currCtxE st
    match ctx.chunk.add_string content with
    | .ok (idx, chunk') =>
      .ok (setCurr st { ctx with chunk := chunk'.write_code (idx % 256) st.previous.line })
    | .error e => .ok (throw_error st st.previous e)
  else .ok (throw_error st st.previous "Expect string Error")

/-- src/compiler.rs `Compiler::parse_literal`. -/
def parse_literal (st : CompSt) : Except CompPanic CompSt :=
  match st.previous.kind with
  | .Nil => emitByte st (OpCode.toByte .Nil) st.previous.line
  | .True => emitByte st (OpCode.toByte .True) st.previous.line
  | .False => emitByte st (OpCode.toByte .False) st.previous.line
  | _ => .ok (throw_error st st.previous "Expect literal Error")

/-- src/compiler.rs `Compiler::patch_forward_begin`: emit the jump opcode
with a `0xFF 0xFF` placeholder and return its offset. -/
def patch_forward_begin (st : CompSt) (op : OpCode) :
    Except CompPanic (Nat × CompSt) := do
  let ctx ← currCtxE st
  let off := ctx.chunk.code_size
  let ln := st.previous.line
  let chunk' := ((ctx.chunk.write_code op.toByte ln).write_code 0xff ln).write_code 0xff ln
  .ok (off, setCurr st { ctx with chunk := chunk' })

/-- src/compiler.rs `Compiler::patch_forward_end`: compute
`code_size − offset − 3` (usize; underflow panics), report when it exceeds
`u16::MAX`, and patch the two operand bytes little-endian (the truncated
bytes are written even in the error case, as in the source). -/
def patch_forward_end (st : CompSt) (off : Nat) : Except CompPanic CompSt := do
  let ctx ← currCtxE st
  let size := ctx.chunk.code_size
  if size < off + 3 then .error (.underflowPanic "patch_forward_end jump count")
  else
    let jc := size - off - 3
    let st := if jc > 65535 then throw_error st st.previous "Too much code to jump over" else st
    let ctx ← currCtxE st
    match ctx.chunk.update_code (off + 1) (jc % 256) with
    | none => .error (.updatePanic "patch_forward_end update_code")
    | some c1 =>
      match c1.update_code (off + 2) ((jc / 256) % 256) with
      | none => .error (.updatePanic "patch_forward_end update_code")
      | some c2 => .ok (setCurr st { ctx with chunk := c2 })

/-- src/compiler.rs `Compiler::patch_back`: compute
`code_size − start_code_offset + 2` (usize; underflow panics), report when
it exceeds `u16::MAX`, and emit the jump opcode with the offset bytes. -/
def patch_back (st : CompSt) (op : OpCode) (startOff : Nat) :
    Except CompPanic CompSt := do
  let ctx ← currCtxE st
  let size := ctx.chunk.code_size
  if size < startOff then .error (.underflowPanic "patch_back jump count")
  else
    let jc := size - startOff + 2
    let st := if jc > 65535 then throw_error st st.previous "Too much code to jump over" else st
    let ctx ← currCtxE st
    let ln := st.previous.line
    let chunk' :=
      ((ctx.chunk.write_code op.toByte ln).write_code (jc % 256) ln).write_code
        ((jc / 256) % 256) ln
    .ok (setCurr st { ctx with chunk := chunk' })

/-- src/compiler.rs `Compiler::scoop_begin`: deepen the scope and seed its
map. -/
def scoop_begin (st : CompSt) : Except CompPanic CompSt := do
  let ctx ← currCtxE st
  let depth' := ctx.depth + 1
  .ok (setCurr st { ctx with depth := depth', vars := dmInsert ctx.vars depth' [] })

/-- `n` `Pop` instructions, as emitted by `scoop_end`'s loop. -/
def emitPops (c : Chunk) (n : Nat) (ln : Nat) : Chunk :=
  match n with
  | 0 => c
  | n + 1 => (emitPops c n ln).write_code (OpCode.toByte .Pop) ln

/-- src/compiler.rs `Compiler::scoop_end`: emit one `Pop` per local of the
closing scope, subtract them from `local_count` (usize; modelled
checked), drop the scope map and shallow the depth. -/
def scoop_end (st : CompSt) : Except CompPanic CompSt := do
  let ctx ← currCtxE st
  let depth := ctx.depth
  match dmGet ctx.vars depth with
  | none => .error (.unwrapPanic "scoop_end variables get")
  | some m =>
    let blockLen := m.length
    if ctx.localCount < blockLen then .error (.underflowPanic "scoop_end local_count")
    else if depth < 1 then .error (.underflowPanic "scoop_end depth")
    else .ok (setCurr st
      { ctx with chunk := emitPops ctx.chunk blockLen st.previous.line,
                 localCount := ctx.localCount - blockLen,
                 vars := dmRemove ctx.vars depth,
                 depth := depth - 1 })

/-- src/compiler.rs `Compiler::compile_end`: append the implicit
`Nil; Return`, pop the context and build its `Function`. -/
def compile_end (st : CompSt) : Except CompPanic (Function × CompSt) := do
  let st ← emitByte st (OpCode.toByte .Nil) st.previous.line
  let st ← emitByte st (OpCode.toByte .Return) st.previous.line
  match st.contexts.getLast? with
  | none => .error (.unwrapPanic "pop_context")
  | some ctx =>
    .ok (Function.mk ctx.functionName ctx.paramsNum ctx.chunk,
         { st with contexts := st.contexts.dropLast })

/-- Tags for the prefix parse functions of the `PARSE_RULES` table. -/
inductive PfxFn where
  | grouping | unary | number | literal | stringLit | varRef
deriving DecidableEq

/-- Tags for the infix parse functions of the `PARSE_RULES` table. -/
inductive InfxFn where
  | binary | call | andOp | orOp
deriving DecidableEq

/-- One entry of the `PARSE_RULES` table (src/compiler.rs `ParseRule`);
fields `prefix`/`infix` are called `pfx`/`infx` here. -/
structure ParseRule where
  pfx : Option PfxFn
  infx : Option InfxFn
  precedence : Nat

/-- src/compiler.rs `PARSE_RULES`, with precedences as their `Precedence`
discriminants (None = 0, Assignment = 1, Or = 2, And = 3, Equality = 4,
Comparison = 5, Term = 6, Factor = 7, Unary = 8, Call = 9, Primary = 10). -/
def parseRules : TokenType → ParseRule
  | .LeftParen => ⟨some .grouping, some .call, 9⟩
  | .Plus => ⟨none, some .binary, 6⟩
  | .Minus => ⟨some .unary, some .binary, 6⟩
  | .Star => ⟨none, some .binary, 7⟩
  | .Slash => ⟨none, some .binary, 7⟩
  | .TNumber => ⟨some .number, none, 0⟩
  | .Nil => ⟨some .literal, none, 0⟩
  | .True => ⟨some .literal, none, 0⟩
  | .False => ⟨some .literal, none, 0⟩
  | .Bang => ⟨some .unary, none, 0⟩
  | .BangEqual => ⟨none, some .binary, 4⟩
  | .EqualEqual => ⟨none, some .binary, 4⟩
  | .Greater => ⟨none, some .binary, 5⟩
  | .GreaterEqual => ⟨none, some .binary, 5⟩
  | .Less => ⟨none, some .binary, 5⟩
  | .LessEqual => ⟨none, some .binary, 5⟩
  | .TString => ⟨some .stringLit, none, 0⟩
  | .Identifier => ⟨some .varRef, none, 0⟩
  | .And => ⟨none, some .andOp, 3⟩
  | .Or => ⟨none, some .orOp, 2⟩
  | _ => ⟨none, none, 0⟩

/-- The scope walk at the start of src/compiler.rs `Compiler::parse_variable`:
search depth `d` down to 1 for the identifier; `get(&depth).unwrap()`
panics when a depth key is missing. -/
def resolveLocal (vars : List (Nat × List (String × Nat))) (name : String) :
    Nat → Except CompPanic (Option Nat)
  | 0 => .ok none
  | d + 1 =>
    match dmGet vars (d + 1) with
    | none => .error (.unwrapPanic "parse_variable variables get")
    | some m =>
      match imGet m name with
      | some v => .ok (some v)
      | none => resolveLocal vars name d

/-- Emit a `Get`/`Set` variable instruction plus its pooled slot index, the
shared tail of both branches of `parse_variable`. -/
def emitVarAccess (st : CompSt) (opByte : Nat) (slot : Nat) (varTok : Token) :
    Except CompPanic CompSt := do
  let st ← emitByte st opByte varTok.line
  let ctx ← currCtxE st
  match ctx.chunk.add_variable slot with
  | .ok (idx, chunk') =>
    .ok (setCurr st { ctx with chunk := chunk'.write_code (idx % 256) varTok.line })
  | .error e => .ok (throw_error st varTok e)

/-- The mutually recursive statement/expression parsing functions of
src/compiler.rs, deep-embedded as command tags so that the whole family is
a single structurally recursive function on fuel (and therefore computes by
kernel reduction).  Loop commands carry their loop state; `paramsLoop`
carries the function-name token used by its error reports, and
`functionBody` is the part of `function_statement` after the parameter
list. -/
inductive Cmd where
  | declaration | statement
  | printStatement | expressionStatement | variableStatement
  | blockStatement | blockLoop
  | ifStatement | whileStatement | forStatement
  | functionStatement | paramsLoop (identTok : Token) | functionBody (identTok : Token)
  | returnStatement | topLoop
  | parseExpression | parsePrecedence (prec : Nat) | ifxLoop (prec : Nat)
  | parseGrouping | parseUnary | parseBinary | parseAnd | parseOr
  | parseCall | argsLoop (argCount : Nat)
  | parseVariable

/-- The tail of src/compiler.rs `Compiler::parse_call` after its argument
loop: consume `)` and emit `Call` with the 8-bit argument count. -/
def finishCall (fuel : Nat) (argCount : Nat) (st : CompSt) :
    Except CompPanic CompSt := do
  let st ← consume fuel .RightParen "Expect ')' after arguments." st
  let st ← emitByte st (OpCode.toByte .Call) st.previous.line
  emitByte st (argCount % 256) st.previous.line

/-- The mutually recursive body of the compiler (src/compiler.rs
`declaration`/`statement`/`parse_precedence` and the functions they reach),
as one fuel-indexed structural recursion dispatching on `Cmd`.  Fuel
exhaustion yields `CompPanic.ofFuel`; every Rust panic site (usize
underflow/overflow, `unwrap`, slice index) maps to the matching
`CompPanic`. -/
def comp : Nat → Cmd → CompSt → Except CompPanic CompSt
  | 0, _, _ => .error .ofFuel
  | fuel + 1, c, st =>
    match c with
    | .declaration => do
      let st ← comp fuel .statement st
      error_synchronize fuel st
    | .statement =>
      match st.current.kind with
      | .Var => do
        let st ← advanceTok fuel st
        comp fuel .variableStatement st
      | .Print => do
        let st ← advanceTok fuel st
        comp fuel .printStatement st
      | .LeftBrace => do
        let st ← advanceTok fuel st
        comp fuel .blockStatement st
      | .If => do
        let st ← advanceTok fuel st
        comp fuel .ifStatement st
      | .While => do
        let st ← advanceTok fuel st
        comp fuel .whileStatement st
      | .For => do
        let st ← advanceTok fuel st
        comp fuel .forStatement st
      | .Fun => do
        let st ← advanceTok fuel st
        comp fuel .functionStatement st
      | .Return => do
        let st ← advanceTok fuel st
        comp fuel .returnStatement st
      | _ => comp fuel .expressionStatement st
    | .printStatement => do
      let st ← comp fuel .parseExpression st
      let st ← consume fuel .Semicolon "Expect ';' after print value" st
      emitByte st (OpCode.toByte .Print) st.previous.line
    | .expressionStatement => do
      let st ← comp fuel .parseExpression st
      let st ← consume fuel .Semicolon "Expect ';' after expression" st
      emitByte st (OpCode.toByte .Pop) st.previous.line
    | .variableStatement => do
      let (m, st) ← matchTok fuel .Identifier st
      if !m then .ok (throw_error st st.current "Expect variable error")
      else
        let identTok := st.previous
        let ctx ← currCtxE st
        let curDepth := ctx.depth
        match dmGet ctx.vars curDepth with
        | none => .error (.unwrapPanic "variable_statement variables get")
        | some m0 =>
          if imContains m0 identTok.lexeme then
            .ok (throw_error st identTok "Redefined identifier in curr space")
          else do
            let (eqM, st) ← matchTok fuel .Equal st
            let st ←
              if eqM then comp fuel .parseExpression st
              else emitByte st (OpCode.toByte .Nil) identTok.line
            let st ← consume fuel .Semicolon "Expect ';' after variable statement" st
            let ctx ← currCtxE st
            match dmGet ctx.vars curDepth with
            | none => .error (.unwrapPanic "variable_statement variables get")
            | some m1 =>
              match curDepth with
              | 0 =>
                let gslot := m1.length
                match ctx.chunk.add_variable gslot with
                | .ok (idx, chunk') =>
                  let chunk'' := (chunk'.write_code (OpCode.toByte .DefineGlobal)
                    identTok.line).write_code (idx % 256) identTok.line
                  .ok (setCurr st { ctx with
                    vars := dmInsert ctx.vars 0 (imInsert m1 identTok.lexeme gslot),
                    chunk := chunk'' })
                | .error e => .ok (throw_error st identTok e)
              | _ =>
                .ok (setCurr st { ctx with
                  vars := dmInsert ctx.vars curDepth
                    (imInsert m1 identTok.lexeme ctx.localCount),
                  localCount := ctx.localCount + 1 })
    | .blockStatement => do
      let st ← scoop_begin st
      let st ← comp fuel .blockLoop st
      let st ← consume fuel .RightBrace "Expect '\x7d' after block" st
      scoop_end st
    | .blockLoop =>
      if st.current.kind ≠ .RightBrace ∧ st.current.kind ≠ .Eof then do
        let st ← comp fuel .declaration st
        comp fuel .blockLoop st
      else .ok st
    | .ifStatement => do
      let st ← consume fuel .LeftParen "Expect '(' after 'if'" st
      let st ← comp fuel .parseExpression st
      let st ← consume fuel .RightParen "Expect ')' after condition" st
      let (jf, st) ← patch_forward_begin st .JumpFalse
      let st ← emitByte st (OpCode.toByte .Pop) st.previous.line
      let st ← comp fuel .statement st
      let (j, st) ← patch_forward_begin st .Jump
      let st ← patch_forward_end st jf
      let st ← emitByte st (OpCode.toByte .Pop) st.previous.line
      let (em, st) ← matchTok fuel .Else st
      let st ← if em then comp fuel .statement st else .ok st
      patch_forward_end st j
    | .whileStatement => do
      let ctx ← currCtxE st
      if ctx.chunk.code_size = 0 then
        .error (.underflowPanic "while_statement code_size - 1")
      else
        let startOff := ctx.chunk.code_size - 1
        let st ← consume fuel .LeftParen "Expect '(' after 'while'" st
        let st ← comp fuel .parseExpression st
        let st ← consume fuel .RightParen "Expect ')' after condition" st
        let (jf, st) ← patch_forward_begin st .JumpFalse
        let st ← emitByte st (OpCode.toByte .Pop) st.previous.line
        let st ← comp fuel .statement st
        let st ← patch_back st .JumpBack startOff
        let st ← patch_forward_end st jf
        emitByte st (OpCode.toByte .Pop) st.previous.line
    | .forStatement => do
      let st ← scoop_begin st
      let st ← consume fuel .LeftParen "Expect '(' after 'for'" st
      let st ← (match st.current.kind with
        | .Semicolon => advanceTok fuel st
        | .Var => advanceTok fuel st >>= fun st => comp fuel .variableStatement st
        | _ => comp fuel .expressionStatement st : Except CompPanic CompSt)
      let ctx ← currCtxE st
      if ctx.chunk.code_size = 0 then
        .error (.underflowPanic "for_statement code_size - 1")
      else
        let startOff := ctx.chunk.code_size - 1
        let (semiM, st) ← matchTok fuel .Semicolon st
        let (jfOpt, st) ← (if semiM then .ok (none, st)
          else do
            let st ← comp fuel .parseExpression st
            let st ← consume fuel .Semicolon "Expect ';'" st
            let (jf, st) ← patch_forward_begin st .JumpFalse
            let st ← emitByte st (OpCode.toByte .Pop) st.previous.line
            .ok (some jf, st) : Except CompPanic (Option Nat × CompSt))
        let (rpM, st) ← matchTok fuel .RightParen st
        let (startOff2, st) ← (if rpM then .ok (startOff, st)
          else do
            let (j, st) ← patch_forward_begin st .Jump
            let ctx ← currCtxE st
            if ctx.chunk.code_size = 0 then
              .error (.underflowPanic "for_statement increment code_size - 1")
            else
              let incrOff := ctx.chunk.code_size - 1
              let st ← comp fuel .parseExpression st
              let st ← emitByte st (OpCode.toByte .Pop) st.previous.line
              let st ← consume fuel .RightParen "Expect ')' after for clauses" st
              let st ← patch_back st .JumpBack startOff
              let st ← patch_forward_end st j
              .ok (incrOff, st) : Except CompPanic (Nat × CompSt))
        let st ← comp fuel .statement st
        let st ← patch_back st .JumpBack startOff2
        let st ← (match jfOpt with
          | some off =>
            patch_forward_end st off >>= fun st =>
              emitByte st (OpCode.toByte .Pop) st.previous.line
          | none => .ok st : Except CompPanic CompSt)
        scoop_end st
    | .functionStatement => do
      let ctx ← currCtxE st
      let st :=
        if ctx.functionName.length ≠ 0 then
          throw_error st st.previous "function define only in top-level code"
        else st
      let (m, st) ← matchTok fuel .Identifier st
      if !m then .ok (throw_error st st.current "Expect function error")
      else
        let identTok := st.previous
        let ctx ← currCtxE st
        let curDepth := ctx.depth
        match dmGet ctx.vars curDepth with
        | none => .error (.unwrapPanic "function_statement variables get")
        | some m0 =>
          if imContains m0 identTok.lexeme then
            .ok (throw_error st identTok "Redefined identifier in curr space")
          else do
            let ctx' :=
              match curDepth with
              | 0 => { ctx with
                  vars := dmInsert ctx.vars 0 (imInsert m0 identTok.lexeme m0.length) }
              | _ => { ctx with
                  vars := dmInsert ctx.vars curDepth
                    (imInsert m0 identTok.lexeme ctx.localCount),
                  localCount := ctx.localCount + 1 }
            let st := setCurr st ctx'
            let st := { st with contexts := st.contexts ++ [Ctx.new] }
            let st ← scoop_begin st
            let ctx ← currCtxE st
            let st := setCurr st { ctx with functionName := identTok.lexeme }
            let st ← consume fuel .LeftParen "Expect '(' after function name" st
            if st.current.kind ≠ .RightParen then
              comp fuel (.paramsLoop identTok) st
            else comp fuel (.functionBody identTok) st
    | .paramsLoop identTok => do
      let ctx ← currCtxE st
      let st := setCurr st { ctx with paramsNum := ctx.paramsNum + 1 }
      let (m, st) ← matchTok fuel .Identifier st
      if m then
        let ctx ← currCtxE st
        match dmGet ctx.vars ctx.depth with
        | none => .error (.unwrapPanic "paramsLoop variables get")
        | some pm =>
          if imContains pm st.previous.lexeme then
            comp fuel (.functionBody identTok)
              (throw_error st identTok "Redefined param in curr function")
          else do
            let st := setCurr st { ctx with
              vars := dmInsert ctx.vars ctx.depth
                (imInsert pm st.previous.lexeme ctx.localCount),
              localCount := ctx.localCount + 1 }
            let (cm, st) ← matchTok fuel .Comma st
            if cm then comp fuel (.paramsLoop identTok) st
            else comp fuel (.functionBody identTok) st
      else
        comp fuel (.functionBody identTok)
          (throw_error st st.current "Expect function param error")
    | .functionBody identTok => do
      let st ← consume fuel .RightParen "Expect ')' after parameters" st
      let st ← consume fuel .LeftBrace "Expect '\x7b' before function body" st
      let st ← comp fuel .blockStatement st
      let (fn, st) ← compile_end st
      let ctx ← currCtxE st
      let curDepth := ctx.depth
      let st ← emitByte st (OpCode.toByte .Function) identTok.line
      let ctx ← currCtxE st
      let st ← (match ctx.chunk.add_function fn with
        | .ok (idx, chunk') =>
          .ok (setCurr st { ctx with chunk := chunk'.write_code (idx % 256) identTok.line })
        | .error e => .ok (throw_error st identTok e) : Except CompPanic CompSt)
      if curDepth == 0 then
        match st.contexts.head? with
        | none => .error (.unwrapPanic "root_context")
        | some root =>
          match dmGet root.vars 0 with
          | none => .error (.unwrapPanic "functionBody root variables get")
          | some rm =>
            match imGet rm identTok.lexeme with
            | none => .error (.unwrapPanic "functionBody global slot get")
            | some gslot =>
              let ctx ← currCtxE st
              match ctx.chunk.add_variable gslot with
              | .ok (idx, chunk') =>
                let chunk'' := (chunk'.write_code (OpCode.toByte .DefineGlobal)
                  identTok.line).write_code (idx % 256) identTok.line
                .ok (setCurr st { ctx with chunk := chunk'' })
              | .error e => .ok (throw_error st identTok e)
      else .ok st
    | .returnStatement => do
      let ctx ← currCtxE st
      let st :=
        if ctx.functionName.length == 0 then
          throw_error st st.previous "Can't return from top-level code"
        else st
      let (m, st) ← matchTok fuel .Semicolon st
      if m then do
        let st ← emitByte st (OpCode.toByte .Nil) st.previous.line
        emitByte st (OpCode.toByte .Return) st.previous.line
      else do
        let st ← comp fuel .parseExpression st
        let st ← consume fuel .Semicolon "Expect ';' after return value." st
        emitByte st (OpCode.toByte .Return) st.previous.line
    | .topLoop => do
      let (m, st) ← matchTok fuel .Eof st
      if m then .ok st
      else do
        let st ← comp fuel .declaration st
        comp fuel .topLoop st
    | .parseExpression =>
      if st.current.kind ≠ .Eof then comp fuel (.parsePrecedence 1) st
      else .ok st
    | .parsePrecedence prec => do
      let st ← advanceTok fuel st
      let st ←
        match (parseRules st.previous.kind).pfx with
        | some pf =>
          match pf with
          | .grouping => comp fuel .parseGrouping st
          | .unary => comp fuel .parseUnary st
          | .number => parse_number st
          | .literal => parse_literal st
          | .stringLit => parse_string st
          | .varRef => comp fuel .parseVariable st
        | none => pure (throw_error st st.previous "Expect prefix error")
      comp fuel (.ifxLoop prec) st
    | .ifxLoop prec =>
      if prec ≤ (parseRules st.current.kind).precedence then do
        let st ← advanceTok fuel st
        let st ←
          match (parseRules st.previous.kind).infx with
          | some f =>
            match f with
            | .binary => comp fuel .parseBinary st
            | .call => comp fuel .parseCall st
            | .andOp => comp fuel .parseAnd st
            | .orOp => comp fuel .parseOr st
          | none => pure st
        comp fuel (.ifxLoop prec) st
      else .ok st
    | .parseGrouping => do
      let st ← comp fuel .parseExpression st
      consume fuel .RightParen "Expect ')' after expression" st
    | .parseUnary => do
      let unaryTok := st.previous
      let st ← comp fuel (.parsePrecedence 8) st
      match unaryTok.kind with
      | .Minus => emitByte st (OpCode.toByte .Negate) unaryTok.line
      | .Bang => emitByte st (OpCode.toByte .Not) unaryTok.line
      | _ => .ok (throw_error st unaryTok "Expect unary Error")
    | .parseBinary => do
      let binTok := st.previous
      let st ← comp fuel (.parsePrecedence ((parseRules binTok.kind).precedence + 1)) st
      match binTok.kind with
      | .Plus => emitByte st (OpCode.toByte .Addition) binTok.line
      | .Minus => emitByte st (OpCode.toByte .Subtract) binTok.line
      | .Star => emitByte st (OpCode.toByte .Multiply) binTok.line
      | .Slash => emitByte st (OpCode.toByte .Divide) binTok.line
      | .BangEqual => do
        let st ← emitByte st (OpCode.toByte .Equal) binTok.line
        emitByte st (OpCode.toByte .Not) binTok.line
      | .EqualEqual => emitByte st (OpCode.toByte .Equal) binTok.line
      | .Greater => emitByte st (OpCode.toByte .Greater) binTok.line
      | .GreaterEqual => do
        let st ← emitByte st (OpCode.toByte .Less) binTok.line
        emitByte st (OpCode.toByte .Not) binTok.line
      | .Less => emitByte st (OpCode.toByte .Less) binTok.line
      | .LessEqual => do
        let st ← emitByte st (OpCode.toByte .Greater) binTok.line
        emitByte st (OpCode.toByte .Not) binTok.line
      | _ => .ok (throw_error st binTok "Expect binary Error")
    | .parseAnd => do
      let (jf, st) ← patch_forward_begin st .JumpFalse
      let st ← emitByte st (OpCode.toByte .Pop) st.previous.line
      let st ← comp fuel (.parsePrecedence 3) st
      patch_forward_end st jf
    | .parseOr => do
      let (jf, st) ← patch_forward_begin st .JumpFalse
      let (je, st) ← patch_forward_begin st .Jump
      let st ← patch_forward_end st jf
      let st ← emitByte st (OpCode.toByte .Pop) st.previous.line
      let st ← comp fuel (.parsePrecedence 2) st
      patch_forward_end st je
    | .parseCall =>
      if st.current.kind ≠ .RightParen then comp fuel (.argsLoop 0) st
      else finishCall fuel 0 st
    | .argsLoop argCount => do
      let st ← comp fuel .parseExpression st
      let st :=
        if argCount == 255 then
          throw_error st st.previous "Can't have more than 255 params"
        else st
      if argCount == 255 then .error (.overflowPanic "parse_call arg_cout + 1")
      else do
        let (cm, st) ← matchTok fuel .Comma st
        if cm then comp fuel (.argsLoop (argCount + 1)) st
        else finishCall fuel (argCount + 1) st
    | .parseVariable => do
      let varTok := st.previous
      let ctx ← currCtxE st
      match st.contexts.head? with
      | none => .error (.unwrapPanic "root_context")
      | some rootC => do
        let localSlot? ← resolveLocal ctx.vars varTok.lexeme ctx.depth
        match localSlot? with
        | some lslot => do
          let (eqM, st) ← matchTok fuel .Equal st
          if eqM then do
            let st ← comp fuel .parseExpression st
            emitVarAccess st (OpCode.toByte .SetLocal) lslot varTok
          else emitVarAccess st (OpCode.toByte .GetLocal) lslot varTok
        | none =>
          match dmGet rootC.vars 0 with
          | none => .error (.unwrapPanic "parse_variable root variables get")
          | some rm =>
            match imGet rm varTok.lexeme with
            | some gslot => do
              let (eqM, st) ← matchTok fuel .Equal st
              if eqM then do
                let st ← comp fuel .parseExpression st
                emitVarAccess st (OpCode.toByte .SetGlobal) gslot varTok
              else emitVarAccess st (OpCode.toByte .GetGlobal) gslot varTok
            | none => .ok (throw_error st varTok "Undefined variable Error")

/-- src/compiler.rs `Compiler::compile`: reset the scanner, push the root
context and seed depth 0 of its scope map, prime the token window, compile
declarations to `Eof`, finalise the top-level function and report
`Err("Compile error")` when any diagnostic fired. -/
def compile (fuel : Nat) (source : String) : Except CompPanic (Except String Function) := do
  let st0 : CompSt :=
    { scanner := Scanner.reset source,
      current := Token.default, previous := Token.default,
      is_panic := false, had_error := false,
      contexts := [{ Ctx.new with vars := dmInsert [] 0 [] }] }
  let st1 ← advanceTok fuel st0
  let st2 ← comp fuel .topLoop st1
  let (fn, st3) ← compile_end st2
  let st4 ← consume fuel .Eof "Expect end of expression" st3
  .ok (if st4.had_error then .error "Compile error" else .ok fn)

/-- Overall outcome of src/vm.rs `VM::interpret_source`: an
`InterpretResult` with the final VM state and printed lines, or a Rust
panic / fuel exhaustion of the model. -/
inductive InterpOutcome where
  | done (r : InterpretResult) (vm : VMState) (out : List String)
  | compPanicked (p : CompPanic)
  | vmPanicked (msg : String)
  | fuelOut

/-- src/vm.rs `VM::interpret_source`: compile with a fresh `Compiler`; on
success clear the stack, clear and resize the globals to 256 empty slots,
push the top-level function value and a frame with
`slot = stack.len()` (= 1), then run.  The `frames` vector is NOT cleared:
a frame left over from an earlier run survives into the new one. -/
def interpret_source (fuel : Nat) (vm : VMState) (source : String) : InterpOutcome :=
  match compile fuel source with
  | .error .ofFuel => .fuelOut
  | .error p => .compPanicked p
  | .ok (.error _) => .done .CompileError vm []
  | .ok (.ok fn) =>
    let vm1 : VMState := { vm with stack := [], globals := List.replicate 256 none }
    let vm2 : VMState := { vm1 with stack := vm1.stack ++ [Value.VFunction fn] }
    let newFrame : CallFrame := { ip := 0, function := fn, slot := vm2.stack.length }
    let vm3 : VMState := { vm2 with frames := vm2.frames ++ [newFrame] }
    match runLoop fuel vm3 with
    | .result r s out => .done r s out
    | .panicked m => .vmPanicked m
    | .fuelOut => .fuelOut


/-- Observable result of an interpretation: the `InterpretResult` and the
stdout lines, which is all `interpret_source`'s caller sees (the VM state
is internal). -/
def obs : InterpOutcome → Option (InterpretResult × List String)
  | .done r _ o => some (r, o)
  | _ => none

/-- The stdout lines of a completed interpretation. -/
def outOf : InterpOutcome → Option (List String)
  | .done _ _ o => some o
  | _ => none

/-- The `InterpretResult` of a completed interpretation. -/
def resOf : InterpOutcome → Option InterpretResult
  | .done r _ _ => some r
  | _ => none

/-- The VM state left by a completed interpretation (fresh VM otherwise). -/
def vmOf : InterpOutcome → VMState
  | .done _ vm _ => vm
  | _ => VM.new

/-- The VM state after interpreting `print -nil;` (a runtime error:
negating `nil`) on a fresh VM. -/
def c5DirtyVM : VMState := vmOf (interpret_source 600 VM.new "print -nil;")

/-- The VM state after interpreting `print 1;` (a success) on a fresh
VM. -/
def c5CleanVM : VMState := vmOf (interpret_source 600 VM.new "print 1;")

/-! Instruction-level view of chunk code, used to state and prove jump
correctness (claim C7).  A chunk's byte stream decomposes into instructions
(opcode byte plus operand bytes); jump validity is stated against the list
of instruction start offsets of that decomposition. -/

/-- Width of each instruction in bytes, matching the VM's reads and the
disassembler's `one/two/three_instruction` classification. -/
def opLen : OpCode → Nat
  | .Return | .Nil | .True | .False | .Not | .Negate
  | .Addition | .Subtract | .Multiply | .Divide
  | .Equal | .Greater | .Less | .Print | .Pop => 1
  | .Number | .String | .Function
  | .DefineGlobal | .GetGlobal | .SetGlobal
  | .GetLocal | .SetLocal | .Call => 2
  | .JumpFalse | .Jump | .JumpBack => 3

/-- One decoded instruction: opcode and operand bytes. -/
structure Instr where
  op : OpCode
  args : List Nat

/-- Byte encoding of one instruction. -/
def Instr.bytes (i : Instr) : List Nat := i.op.toByte :: i.args

/-- Operand count matches the opcode's width. -/
def Instr.wf (i : Instr) : Prop := i.args.length = opLen i.op - 1

/-- Byte encoding of an instruction sequence. -/
def instrsBytes (l : List Instr) : List Nat := (l.map Instr.bytes).flatten

/-- Start offsets of the instructions of `l`, beginning at `p`. -/
def startsAux : List Instr → Nat → List Nat
  | [], _ => []
  | i :: rest, p => p :: startsAux rest (p + i.bytes.length)

/-- Start offsets of the instructions of `l`. -/
def startsOf (l : List Instr) : List Nat := startsAux l 0

/-- The instructions of `l` paired with their start offsets. -/
def withPos (l : List Instr) : List (Nat × Instr) := (startsOf l).zip l

/-- Validity of one (possibly jump) instruction at start offset `p`:
after the VM reads the opcode and the two offset bytes, `ip` is `p + 3`;
a forward jump adds the operand, a backward jump subtracts it (without
underflow), and the resulting `ip` must be an instruction start in `S` —
or, during compilation, the current end of code `T` (the start of the next
instruction once it is emitted). -/
def instrJumpOk (S : List Nat) (T : Nat) (p : Nat) (i : Instr) : Prop :=
  (i.op = .Jump ∨ i.op = .JumpFalse →
    ∃ lo hi, i.args = [lo, hi]
      ∧ ((p + 3 + (lo + 256 * hi)) ∈ S ∨ p + 3 + (lo + 256 * hi) = T))
  ∧ (i.op = .JumpBack →
    ∃ lo hi, i.args = [lo, hi]
      ∧ lo + 256 * hi ≤ p + 3 ∧ (p + 3 - (lo + 256 * hi)) ∈ S)

/-- Strict validity (no end-of-code escape): the post-jump `ip` is the
first byte of an instruction of the same chunk. -/
def instrJumpOkStrict (S : List Nat) (p : Nat) (i : Instr) : Prop :=
  (i.op = .Jump ∨ i.op = .JumpFalse →
    ∃ lo hi, i.args = [lo, hi] ∧ (p + 3 + (lo + 256 * hi)) ∈ S)
  ∧ (i.op = .JumpBack →
    ∃ lo hi, i.args = [lo, hi]
      ∧ lo + 256 * hi ≤ p + 3 ∧ (p + 3 - (lo + 256 * hi)) ∈ S)

/-- Every jump of `l`, except those at the pending (not yet back-patched)
offsets `P`, is valid with the end-of-code escape. -/
def jumpsOkExcept (l : List Instr) (P : Nat → Prop) : Prop :=
  ∀ pr ∈ withPos l, ¬ P pr.1 →
    instrJumpOk (startsOf l) (instrsBytes l).length pr.1 pr.2

/-- Every jump of `l` is strictly valid. -/
def jumpsOkStrict (l : List Instr) : Prop :=
  ∀ pr ∈ withPos l, instrJumpOkStrict (startsOf l) pr.1 pr.2

/-- Jump correctness of a compiled function: its chunk's code decomposes
into well-formed instructions whose every `Jump`/`JumpFalse`/`JumpBack`
lands on an instruction start of the same chunk, and the same holds
recursively for every function in its pool. -/
inductive FunOk : Function → Prop where
  | intro (f : Function) (l : List Instr)
      (hcode : f.chunk.code = instrsBytes l)
      (hwf : ∀ i ∈ l, i.wf)
      (hjumps : jumpsOkStrict l)
      (hpool : ∀ g ∈ f.chunk.functions, FunOk g) : FunOk f

/-- Compilation invariant on one chunk under construction: the code is the
encoding of `l`, whose instructions are well-formed; every pending offset
in `P` is the start of a forward-jump instruction; every jump not pending
is valid with the end-of-code escape; and every pooled function is already
fully jump-correct. -/
def Good (c : Chunk) (l : List Instr) (P : Nat → Prop) : Prop :=
  c.code = instrsBytes l
  ∧ (∀ i ∈ l, i.wf)
  ∧ jumpsOkExcept l P
  ∧ (∀ p, P p → ∃ pr ∈ withPos l, pr.1 = p ∧ (pr.2.op = .Jump ∨ pr.2.op = .JumpFalse))
  ∧ (∀ g ∈ c.functions, FunOk g)

/-- Chunk evolution during compilation: any good decomposition extends,
keeping the same pending set. -/
def GoodExt (c c' : Chunk) : Prop :=
  ∀ l P, Good c l P → ∃ d, Good c' (l ++ d) P

/-- Whether an opcode is one of the three jump instructions. -/
def isJump : OpCode → Bool
  | .Jump | .JumpFalse | .JumpBack => true
  | _ => false

/-- Flag invariant of the compiler: panic mode implies the error flag
(`throw_error` raises both together and nothing separates them). -/
def PanicInv (st : CompSt) : Prop := st.is_panic = true → st.had_error = true

/-- Extension of one compile context during compilation: the chunk's code
only grows, and every good decomposition extends with its pending set
unchanged. -/
def CtxExt (c c' : Ctx) : Prop :=
  c.chunk.code.length ≤ c'.chunk.code.length ∧ GoodExt c.chunk c'.chunk

/-- An instruction boundary of a decomposition: the start of one of its
instructions, or the end of the code (where the next instruction will
begin).  `JumpBack` targets are recorded as boundaries when a loop starts
compiling and must still be boundaries when the jump is emitted. -/
def Boundary (l : List Instr) (t : Nat) : Prop :=
  t ∈ startsOf l ∨ t = (instrsBytes l).length

/-- Contract of a context-neutral compiler step (every `comp` command
except `paramsLoop`/`functionBody`): the error flag is monotone, the flag
invariant is preserved, and — when no diagnostic ever fired — the outer
contexts are untouched while the current context only extends. -/
def NeutralSpec (st st' : CompSt) : Prop :=
  (st.had_error = true → st'.had_error = true)
  ∧ (PanicInv st → PanicInv st')
  ∧ (PanicInv st → st'.had_error = false →
      ∀ c l P, st.contexts.getLast? = some c → Good c.chunk l P →
        ∃ c' l', st'.contexts = st.contexts.dropLast ++ [c']
          ∧ c.chunk.code.length ≤ c'.chunk.code.length
          ∧ Good c'.chunk l' P
          ∧ (∀ t, Boundary l t → Boundary l' t))

/-- Contract of the context-popping tail of `function_statement`
(`paramsLoop`/`functionBody`): on a clean run the freshly pushed (current)
context is finalised and popped, and its parent only extends, receiving
the compiled function and the constants referring to it. -/
def PopSpec (st st' : CompSt) : Prop :=
  (st.had_error = true → st'.had_error = true)
  ∧ (PanicInv st → PanicInv st')
  ∧ (PanicInv st → st'.had_error = false →
      ∀ pre parent cl, st.contexts = pre ++ [parent, cl] →
        (∃ l0, Good cl.chunk l0 (fun _ => False)) →
        ∀ l P, Good parent.chunk l P →
          ∃ parent' l', st'.contexts = pre ++ [parent']
            ∧ parent.chunk.code.length ≤ parent'.chunk.code.length
            ∧ Good parent'.chunk l' P
            ∧ (∀ t, Boundary l t → Boundary l' t))

/-- Contract of the scanner-facing helpers (`advance`, `match`, `consume`,
`error_synchronize` and `throw_error`): they never touch the context stack,
the error flag is monotone and the flag invariant is preserved. -/
def ScanSpec (st st' : CompSt) : Prop :=
  st'.contexts = st.contexts
  ∧ (st.had_error = true → st'.had_error = true)
  ∧ (PanicInv st → PanicInv st')

/-- The contract of each `comp` command: `paramsLoop`/`functionBody` pop
the current context, every other command is context-neutral. -/
def cmdSpec : Cmd → CompSt → CompSt → Prop
  | .paramsLoop _, st, st' => PopSpec st st'
  | .functionBody _, st, st' => PopSpec st st'
  | _, st, st' => NeutralSpec st st'

/-- The function produced by an accepted compilation, if any. -/
def compiledFn (fuel : Nat) (source : String) : Option Function :=
  match compile fuel source with
  | .ok (.ok fn) => some fn
  | _ => none

/-- Jump correctness of an optional compilation result (used to state jump
correctness of a concrete accepted program). -/
def FunOkOpt : Option Function → Prop
  | some fn => FunOk fn
  | none => False

/-- Helper: a string has length zero exactly when it is empty. -/
theorem string_length_eq_zero_iff (s : String) : s.length = 0 ↔ s = "" := by
  cases s with
  | mk data =>
    simp only [String.length, String.ext_iff]
    exact List.length_eq_zero

/-- Helper: the last element of a list extended by two elements. -/
theorem getLast?_append_two {α : Type} (l : List α) (a b : α) :
    (l ++ [a, b]).getLast? = some b := by
  rw [show l ++ [a, b] = (l ++ [a]) ++ [b] by simp]
  exact List.getLast?_concat _

/-- Helper: dropping the last of a list extended by two elements. -/
theorem dropLast_append_two {α : Type} (l : List α) (a b : α) :
    (l ++ [a, b]).dropLast = l ++ [a] := by
  rw [show l ++ [a, b] = (l ++ [a]) ++ [b] by simp]
  exact List.dropLast_concat

/-- C2 counterexample: the claim says `Number(0)` is truthy so `Not` maps it
to `Bool(false)`; the code's `Not` maps `Number(0)` to `Bool(true)`
(src/value.rs line 83 tests `n == 0.0`), and `Number(0)` is neither
`Bool(false)` nor `Nil`. -/
theorem C2_not_number_zero_cex :
    Value.not (.VNumber 0) = .ok (.VBool true)
    ∧ Value.VNumber 0 ≠ .VBool false ∧ Value.VNumber 0 ≠ .VNil :=
  ⟨rfl, by simp, by simp⟩

/-- C2 (amended): `Not` succeeds on every value and returns `Bool(true)`
exactly when the value is `Bool(false)`, `Nil`, `Number(0)` or the empty
string; it returns `Bool(false)` for every other value. -/
theorem C2_not_truthiness (v : Value) :
    ∃ b : Bool, Value.not v = .ok (.VBool b)
      ∧ (b = true ↔
          (v = .VBool false ∨ v = .VNil ∨ v = .VNumber 0 ∨ v = .VString "")) := by
  cases v with
  | VBool b => exact ⟨!b, rfl, by cases b <;> simp⟩
  | VNil => exact ⟨true, rfl, by simp⟩
  | VNumber n => exact ⟨decide (n = 0), rfl, by simp⟩
  | VString s =>
    exact ⟨decide (s.length = 0), rfl, by simp [string_length_eq_zero_iff]⟩
  | VFunction f => exact ⟨false, rfl, by simp⟩

/-- C4 counterexample: the claim says ordering between two `Bool`s fails
with a type error, but src/value.rs line 129 makes `less` succeed on two
booleans, returning their Rust ordering. -/
theorem C4_less_bool_cex :
    Value.less (.VBool false) (.VBool true) = .ok (.VBool true) := rfl

/-- C4 (amended): the ordering operations `less`, `less_equal`, `greater`
and `greater_equal` succeed exactly when the operands are a same-variant
pair of `Number`s, `String`s, `Bool`s or `Nil`s; every mixed or `Function`
combination fails with a type error. -/
theorem C4_ordering_domain (a b : Value) :
    isOk (Value.less a b) = orderablePair a b
    ∧ isOk (Value.less_equal a b) = orderablePair a b
    ∧ isOk (Value.greater a b) = orderablePair a b
    ∧ isOk (Value.greater_equal a b) = orderablePair a b := by
  cases a <;> cases b <;> exact ⟨rfl, rfl, rfl, rfl⟩

/-- C10: `not_equal` is the pointwise boolean negation of `equal`: it
returns `Ok(Bool(!r))` exactly when `equal` returns `Ok(Bool(r))`, and the
two operations fail on exactly the same pairs of values. -/
theorem C10_not_equal_negates_equal (a b : Value) :
    (∀ r : Bool,
      Value.equal a b = .ok (.VBool r) ↔ Value.not_equal a b = .ok (.VBool (!r)))
    ∧ isOk (Value.equal a b) = isOk (Value.not_equal a b) := by
  cases a <;> cases b <;>
    simp [Value.equal, Value.not_equal, isOk, decide_not]

/-- C10 witness: the equivalence applied at the concrete pair
`(Number 1, Number 1)`. -/
theorem C10_witness :
    Value.not_equal (.VNumber 1) (.VNumber 1) = .ok (.VBool (!true)) :=
  ((C10_not_equal_negates_equal (.VNumber 1) (.VNumber 1)).1 true).mp (by rfl)

/-! Lemmas about the instruction-decomposition view (claim C7). -/

theorem instrsBytes_nil : instrsBytes [] = [] := rfl

theorem instrsBytes_cons (i : Instr) (l : List Instr) :
    instrsBytes (i :: l) = i.bytes ++ instrsBytes l := by
  simp [instrsBytes]

theorem instrsBytes_append (l d : List Instr) :
    instrsBytes (l ++ d) = instrsBytes l ++ instrsBytes d := by
  simp [instrsBytes]

theorem startsAux_length (l : List Instr) (p : Nat) :
    (startsAux l p).length = l.length := by
  induction l generalizing p with
  | nil => rfl
  | cons i rest ih => simp [startsAux, ih]

theorem startsAux_append (l d : List Instr) (p : Nat) :
    startsAux (l ++ d) p =
      startsAux l p ++ startsAux d (p + (instrsBytes l).length) := by
  induction l generalizing p with
  | nil => simp [startsAux, instrsBytes_nil]
  | cons i rest ih =>
    simp [startsAux, ih, instrsBytes_cons, Nat.add_assoc]

theorem startsOf_append (l d : List Instr) :
    startsOf (l ++ d) = startsOf l ++ startsAux d (instrsBytes l).length := by
  unfold startsOf
  rw [startsAux_append]
  simp

theorem withPos_append (l d : List Instr) :
    withPos (l ++ d) =
      withPos l ++ (startsAux d (instrsBytes l).length).zip d := by
  unfold withPos
  rw [startsOf_append]
  unfold startsOf
  rw [List.zip_append (startsAux_length l 0)]

theorem mem_startsOf_append (l d : List Instr) {x : Nat} (h : x ∈ startsOf l) :
    x ∈ startsOf (l ++ d) := by
  rw [startsOf_append]
  exact List.mem_append_left _ h

theorem head_mem_startsOf_append (l : List Instr) (i : Instr) (d : List Instr) :
    (instrsBytes l).length ∈ startsOf (l ++ i :: d) := by
  rw [startsOf_append]
  refine List.mem_append_right _ ?_
  simp [startsAux]

theorem instrJumpOk_mono {S S' : List Nat} {T T' p : Nat} {i : Instr}
    (h : instrJumpOk S T p i) (hs : ∀ x ∈ S, x ∈ S')
    (ht : T = T' ∨ T ∈ S') : instrJumpOk S' T' p i := by
  obtain ⟨hf, hb⟩ := h
  constructor
  · intro hop
    obtain ⟨lo, hi, hargs, htgt⟩ := hf hop
    refine ⟨lo, hi, hargs, ?_⟩
    rcases htgt with htgt | htgt
    · exact Or.inl (hs _ htgt)
    · rcases ht with ht | ht
      · exact Or.inr (ht ▸ htgt)
      · exact Or.inl (htgt ▸ ht)
  · intro hop
    obtain ⟨lo, hi, hargs, hle, htgt⟩ := hb hop
    exact ⟨lo, hi, hargs, hle, hs _ htgt⟩

theorem set_append_add {α : Type} (A B : List α) (k : Nat) (x : α) :
    (A ++ B).set (A.length + k) x = A ++ B.set k x := by
  rw [List.set_append, if_neg (by omega)]
  have hk : A.length + k - A.length = k := by omega
  rw [hk]

theorem eq_dropLast_concat {α : Type} {A : List α} {c : α} (h : A.getLast? = some c) :
    A = A.dropLast ++ [c] :=
  (List.dropLast_append_getLast? c h).symm

theorem encode16 {jc : Nat} (h : jc ≤ 65535) :
    jc % 256 + 256 * (jc / 256 % 256) = jc := by
  have h1 : jc / 256 < 256 := by omega
  rw [Nat.mod_eq_of_lt h1]
  omega

theorem Instr.bytes_length (i : Instr) : i.bytes.length = i.args.length + 1 := by
  simp [Instr.bytes]

theorem opLen_pos (op : OpCode) : 1 ≤ opLen op := by
  cases op <;> simp [opLen]

theorem bytes_length_of_wf {i : Instr} (h : i.wf) : i.bytes.length = opLen i.op := by
  have := opLen_pos i.op
  rw [Instr.bytes_length, h]
  omega

theorem mem_startsAux_bounds {l : List Instr} {q x : Nat} (h : x ∈ startsAux l q) :
    q ≤ x ∧ x < q + (instrsBytes l).length := by
  induction l generalizing q with
  | nil => cases h
  | cons i rest ih =>
    simp only [startsAux, List.mem_cons] at h
    rcases h with h | h
    · subst h
      have hpos : 0 < i.bytes.length := by simp [Instr.bytes]
      rw [instrsBytes_cons]
      simp only [List.length_append]
      omega
    · obtain ⟨h1, h2⟩ := ih h
      rw [instrsBytes_cons]
      simp only [List.length_append]
      omega

theorem mem_startsOf_lt {l : List Instr} {x : Nat} (h : x ∈ startsOf l) :
    x < (instrsBytes l).length := by
  unfold startsOf at h
  have := mem_startsAux_bounds h
  omega

theorem prefix_len_mem_startsOf (l₁ d : List Instr) (i : Instr) :
    (instrsBytes l₁).length ∈ startsOf (l₁ ++ (d ++ [i])) := by
  cases d with
  | nil => simpa using head_mem_startsOf_append l₁ i []
  | cons j d' => simpa using head_mem_startsOf_append l₁ j (d' ++ [i])

theorem zip_startsAux_split {l : List Instr} {q : Nat} {pr : Nat × Instr}
    (h : pr ∈ (startsAux l q).zip l) :
    ∃ l1 l2, l = l1 ++ pr.2 :: l2 ∧ pr.1 = q + (instrsBytes l1).length := by
  induction l generalizing q with
  | nil => cases h
  | cons i rest ih =>
    simp only [startsAux, List.zip_cons_cons, List.mem_cons] at h
    rcases h with h | h
    · exact ⟨[], rest, by simp [h], by simp [h, instrsBytes_nil]⟩
    · obtain ⟨l1, l2, h1, h2⟩ := ih h
      refine ⟨i :: l1, l2, by simp [h1], ?_⟩
      rw [h2, instrsBytes_cons]
      simp only [List.length_append]
      omega

theorem withPos_split {l : List Instr} {pr : Nat × Instr} (h : pr ∈ withPos l) :
    ∃ l1 l2, l = l1 ++ pr.2 :: l2 ∧ pr.1 = (instrsBytes l1).length := by
  unfold withPos startsOf at h
  obtain ⟨l1, l2, h1, h2⟩ := zip_startsAux_split h
  exact ⟨l1, l2, h1, by omega⟩

theorem withPos_decompose (l1 : List Instr) (i : Instr) (l2 : List Instr) :
    withPos (l1 ++ i :: l2) =
      withPos l1 ++ ((instrsBytes l1).length, i) ::
        (startsAux l2 ((instrsBytes l1).length + i.bytes.length)).zip l2 := by
  rw [withPos_append]
  simp [startsAux, List.zip_cons_cons]

theorem Good_pending_lt {c : Chunk} {l : List Instr} {P : Nat → Prop} {p : Nat}
    (hg : Good c l P) (hp : P p) : p < (instrsBytes l).length := by
  obtain ⟨-, -, -, hpend, -⟩ := hg
  obtain ⟨pr, hmem, hpos, -⟩ := hpend p hp
  unfold withPos at hmem
  have hin : pr.1 ∈ startsOf l := (List.of_mem_zip hmem).1
  rw [← hpos]
  exact mem_startsOf_lt hin

theorem Good_congr {c : Chunk} {l : List Instr} {P Q : Nat → Prop}
    (hpq : ∀ p, P p ↔ Q p) (hg : Good c l P) : Good c l Q := by
  obtain ⟨h1, h2, h3, h4, h5⟩ := hg
  refine ⟨h1, h2, ?_, ?_, h5⟩
  · intro pr hmem hnq
    exact h3 pr hmem (fun hp => hnq ((hpq pr.1).mp hp))
  · intro p hq
    exact h4 p ((hpq p).mpr hq)

theorem notJump_instrJumpOk {S : List Nat} {T p : Nat} {i : Instr}
    (h : isJump i.op = false) : instrJumpOk S T p i := by
  constructor
  · rintro (hop | hop) <;> rw [hop] at h <;> simp [isJump] at h
  · intro hop
    rw [hop] at h
    simp [isJump] at h

theorem notJump_instrJumpOkStrict {S : List Nat} {p : Nat} {i : Instr}
    (h : isJump i.op = false) : instrJumpOkStrict S p i := by
  constructor
  · rintro (hop | hop) <;> rw [hop] at h <;> simp [isJump] at h
  · intro hop
    rw [hop] at h
    simp [isJump] at h

theorem Good_append {c c' : Chunk} {l : List Instr} {P : Nat → Prop} {i : Instr}
    (hg : Good c l P)
    (hcode : c'.code = c.code ++ i.bytes)
    (hfns : c'.functions = c.functions)
    (hwf : i.wf)
    (hok : instrJumpOk (startsOf (l ++ [i])) (instrsBytes (l ++ [i])).length
      (instrsBytes l).length i) :
    Good c' (l ++ [i]) P := by
  obtain ⟨h1, h2, h3, h4, h5⟩ := hg
  refine ⟨?_, ?_, ?_, ?_, ?_⟩
  · rw [hcode, h1, instrsBytes_append, instrsBytes_cons, instrsBytes_nil, List.append_nil]
  · intro j hj
    rcases List.mem_append.mp hj with hj | hj
    · exact h2 j hj
    · rw [List.mem_singleton] at hj
      subst hj
      exact hwf
  · intro pr hmem hnp
    rw [withPos_append] at hmem
    rcases List.mem_append.mp hmem with hmem | hmem
    · exact instrJumpOk_mono (h3 pr hmem hnp)
        (fun x hx => mem_startsOf_append l [i] hx)
        (Or.inr (head_mem_startsOf_append l i []))
    · simp only [startsAux, List.zip_cons_cons, List.zip_nil_right, List.mem_singleton] at hmem
      rw [hmem]
      exact hok
  · intro p hp
    obtain ⟨pr, hmem, hpos, hops⟩ := h4 p hp
    refine ⟨pr, ?_, hpos, hops⟩
    rw [withPos_append]
    exact List.mem_append_left _ hmem
  · rw [hfns]
    exact h5

theorem Good_append_nonjump {c c' : Chunk} {l : List Instr} {P : Nat → Prop} {i : Instr}
    (hg : Good c l P)
    (hcode : c'.code = c.code ++ i.bytes)
    (hfns : c'.functions = c.functions)
    (hwf : i.wf) (hnj : isJump i.op = false) :
    Good c' (l ++ [i]) P :=
  Good_append hg hcode hfns hwf (notJump_instrJumpOk hnj)

theorem Good_append_pending {c c' : Chunk} {l : List Instr} {P : Nat → Prop}
    {op : OpCode} {a b : Nat}
    (hg : Good c l P)
    (hcode : c'.code = c.code ++ [op.toByte, a, b])
    (hfns : c'.functions = c.functions)
    (hop : op = .Jump ∨ op = .JumpFalse)
    (holen : opLen op = 3) :
    Good c' (l ++ [⟨op, [a, b]⟩]) (fun p => P p ∨ p = (instrsBytes l).length) := by
  obtain ⟨h1, h2, h3, h4, h5⟩ := hg
  refine ⟨?_, ?_, ?_, ?_, ?_⟩
  · rw [hcode, h1, instrsBytes_append]
    simp [instrsBytes, Instr.bytes]
  · intro j hj
    rcases List.mem_append.mp hj with hj | hj
    · exact h2 j hj
    · rw [List.mem_singleton] at hj
      subst hj
      simp [Instr.wf, holen]
  · intro pr hmem hnp
    rw [withPos_append] at hmem
    rcases List.mem_append.mp hmem with hmem | hmem
    · exact instrJumpOk_mono (h3 pr hmem (fun hp => hnp (Or.inl hp)))
        (fun x hx => mem_startsOf_append _ _ hx)
        (Or.inr (head_mem_startsOf_append l _ []))
    · simp only [startsAux, List.zip_cons_cons, List.zip_nil_right, List.mem_singleton] at hmem
      exact absurd (Or.inr (by rw [hmem])) hnp
  · intro p hp
    rcases hp with hp | hp
    · obtain ⟨pr, hmem, hpos, hops⟩ := h4 p hp
      refine ⟨pr, ?_, hpos, hops⟩
      rw [withPos_append]
      exact List.mem_append_left _ hmem
    · refine ⟨((instrsBytes l).length, ⟨op, [a, b]⟩), ?_, hp.symm, hop⟩
      rw [withPos_append]
      refine List.mem_append_right _ ?_
      simp [startsAux]
  · rw [hfns]
    exact h5

theorem Good_same_code {c c' : Chunk} {l : List Instr} {P : Nat → Prop}
    (hg : Good c l P) (hcode : c'.code = c.code)
    (hfns : c'.functions = c.functions) : Good c' l P := by
  obtain ⟨h1, h2, h3, h4, h5⟩ := hg
  exact ⟨by rw [hcode, h1], h2, h3, h4, by rw [hfns]; exact h5⟩

theorem Good_add_function {c c' : Chunk} {l : List Instr} {P : Nat → Prop} {g : Function}
    (hg : Good c l P) (hcode : c'.code = c.code)
    (hfns : c'.functions = c.functions ++ [g]) (hok : FunOk g) : Good c' l P := by
  obtain ⟨h1, h2, h3, h4, h5⟩ := hg
  refine ⟨by rw [hcode, h1], h2, h3, h4, ?_⟩
  rw [hfns]
  intro f hf
  rcases List.mem_append.mp hf with hf | hf
  · exact h5 f hf
  · rw [List.mem_singleton] at hf
    subst hf
    exact hok

theorem Good_append_nonjump_addfn {c c' : Chunk} {l : List Instr} {P : Nat → Prop}
    {i : Instr} {g : Function}
    (hg : Good c l P)
    (hcode : c'.code = c.code ++ i.bytes)
    (hfns : c'.functions = c.functions ++ [g])
    (hwf : i.wf) (hnj : isJump i.op = false) (hok : FunOk g) :
    Good c' (l ++ [i]) P := by
  obtain ⟨code, nums, strs, fns, vars, lines⟩ := c
  have hg2 : Good (Chunk.mk code nums strs (fns ++ [g]) vars lines) l P :=
    Good_add_function hg rfl rfl hok
  exact Good_append_nonjump hg2 hcode hfns hwf hnj

theorem Good_empty : Good Chunk.empty [] (fun _ => False) := by
  refine ⟨rfl, ?_, ?_, ?_, ?_⟩
  · intro i hi
    exact absurd hi (List.not_mem_nil i)
  · intro pr hpr
    simp [withPos, startsOf, startsAux] at hpr
  · intro p hp
    exact hp.elim
  · intro g hg
    exact absurd hg (List.not_mem_nil g)

theorem jumpsOkStrict_append_two {l : List Instr} (i1 i2 : Instr)
    (h : jumpsOkExcept l (fun _ => False))
    (h1 : isJump i1.op = false) (h2 : isJump i2.op = false) :
    jumpsOkStrict (l ++ [i1, i2]) := by
  intro pr hmem
  rw [withPos_append] at hmem
  rcases List.mem_append.mp hmem with hmem | hmem
  · obtain ⟨hf, hb⟩ := h pr hmem (fun hf => hf)
    constructor
    · intro hop
      obtain ⟨lo, hi, hargs, htgt⟩ := hf hop
      refine ⟨lo, hi, hargs, ?_⟩
      rcases htgt with htgt | htgt
      · exact mem_startsOf_append _ _ htgt
      · rw [htgt]
        exact head_mem_startsOf_append l i1 [i2]
    · intro hop
      obtain ⟨lo, hi, hargs, hle, htgt⟩ := hb hop
      exact ⟨lo, hi, hargs, hle, mem_startsOf_append _ _ htgt⟩
  · simp only [startsAux, List.zip_cons_cons, List.zip_nil_right, List.mem_cons,
      List.mem_singleton] at hmem
    rcases hmem with hmem | hmem | hmem
    · rw [hmem]
      exact notJump_instrJumpOkStrict h1
    · rw [hmem]
      exact notJump_instrJumpOkStrict h2
    · cases hmem

theorem Boundary_append {l : List Instr} {t : Nat} (d : List Instr) (h : Boundary l t) :
    Boundary (l ++ d) t := by
  rcases h with h | h
  · exact Or.inl (mem_startsOf_append _ _ h)
  · cases d with
    | nil =>
      right
      rw [List.append_nil]
      exact h
    | cons i d' =>
      left
      rw [h]
      exact head_mem_startsOf_append l i d'

theorem Boundary_of_eq {l l' : List Instr} {t : Nat} (hs : startsOf l' = startsOf l)
    (hl : (instrsBytes l').length = (instrsBytes l).length) (h : Boundary l t) :
    Boundary l' t := by
  unfold Boundary
  rw [hs, hl]
  exact h

theorem Boundary_mem_concat {l : List Instr} {t : Nat} (i : Instr) (h : Boundary l t) :
    t ∈ startsOf (l ++ [i]) := by
  rcases h with h | h
  · exact mem_startsOf_append _ _ h
  · rw [h]
    exact head_mem_startsOf_append l i []

theorem Good_patch {c c' : Chunk} {l : List Instr} {P : Nat → Prop} {off : Nat}
    (hg : Good c l P) (hP : P off)
    (hjc : c.code.length - off - 3 ≤ 65535)
    (hcode : c'.code =
      (c.code.set (off + 1) ((c.code.length - off - 3) % 256)).set (off + 2)
        ((c.code.length - off - 3) / 256 % 256))
    (hfns : c'.functions = c.functions) :
    ∃ l', Good c' l' (fun p => P p ∧ p ≠ off)
      ∧ (instrsBytes l').length = (instrsBytes l).length
      ∧ startsOf l' = startsOf l := by
  obtain ⟨h1, h2, h3, h4, h5⟩ := hg
  obtain ⟨pr, hmem, hpos, hops⟩ := h4 off hP
  obtain ⟨l1, l2, hl, hoff⟩ := withPos_split hmem
  rw [hpos] at hoff
  have hj0wf : pr.2.wf :=
    h2 pr.2 (by rw [hl]; exact List.mem_append_right _ (List.mem_cons_self _ _))
  have holen : opLen pr.2.op = 3 := by
    rcases hops with hop | hop <;> rw [hop] <;> rfl
  have hargs2 : pr.2.args.length = 2 := by
    rw [Instr.wf] at hj0wf
    omega
  obtain ⟨a, b, hab⟩ := List.length_eq_two.mp hargs2
  have hbytes : pr.2.bytes = [pr.2.op.toByte, a, b] := by
    rw [Instr.bytes, hab]
  have hb3 : pr.2.bytes.length = 3 := by rw [hbytes]; rfl
  set x := (c.code.length - off - 3) % 256 with hx
  set y := (c.code.length - off - 3) / 256 % 256 with hy
  have hb3' : (Instr.mk pr.2.op [x, y]).bytes.length = 3 := rfl
  have hcodeeq : c.code = instrsBytes l1 ++ pr.2.op.toByte :: a :: b :: instrsBytes l2 := by
    rw [h1, hl, instrsBytes_append, instrsBytes_cons, hbytes]
    simp
  have hclen : c.code.length = (instrsBytes l1).length + 3 + (instrsBytes l2).length := by
    rw [hcodeeq]
    simp only [List.length_append, List.length_cons]
    omega
  have hset : c'.code = instrsBytes l1 ++ pr.2.op.toByte :: x :: y :: instrsBytes l2 := by
    rw [hcode, hcodeeq,
      show off + 1 = (instrsBytes l1).length + 1 from by omega,
      show off + 2 = (instrsBytes l1).length + 2 from by omega,
      set_append_add, set_append_add]
    simp [List.set]
  have hib : instrsBytes (l1 ++ ⟨pr.2.op, [x, y]⟩ :: l2) =
      instrsBytes l1 ++ pr.2.op.toByte :: x :: y :: instrsBytes l2 := by
    rw [instrsBytes_append, instrsBytes_cons]
    simp [Instr.bytes]
  have hlen : (instrsBytes (l1 ++ ⟨pr.2.op, [x, y]⟩ :: l2)).length =
      (instrsBytes l).length := by
    rw [hib, hl, instrsBytes_append, instrsBytes_cons, hbytes]
    simp only [List.length_append, List.length_cons, List.length_nil]
    omega
  have hstarts : startsOf (l1 ++ ⟨pr.2.op, [x, y]⟩ :: l2) = startsOf l := by
    rw [hl]
    unfold startsOf
    rw [startsAux_append, startsAux_append]
    simp only [startsAux, hb3, hb3']
  have hwl : withPos l =
      withPos l1 ++ (off, pr.2) :: (startsAux l2 (off + 3)).zip l2 := by
    rw [hl, withPos_decompose, ← hoff, hb3]
  have hwl' : withPos (l1 ++ ⟨pr.2.op, [x, y]⟩ :: l2) =
      withPos l1 ++ (off, (⟨pr.2.op, [x, y]⟩ : Instr)) ::
        (startsAux l2 (off + 3)).zip l2 := by
    rw [withPos_decompose, ← hoff, hb3']
  have hmem1 : ∀ q ∈ withPos l1, q.1 < off := by
    intro q hq
    unfold withPos at hq
    have := mem_startsOf_lt (List.of_mem_zip hq).1
    omega
  have hmem2 : ∀ q ∈ (startsAux l2 (off + 3)).zip l2, off + 3 ≤ q.1 := by
    intro q hq
    have := mem_startsAux_bounds (List.of_mem_zip hq).1
    omega
  refine ⟨l1 ++ ⟨pr.2.op, [x, y]⟩ :: l2, ⟨?_, ?_, ?_, ?_, ?_⟩, hlen, hstarts⟩
  · rw [hib]
    exact hset
  · intro i hi
    rcases List.mem_append.mp hi with hi | hi
    · exact h2 i (by rw [hl]; exact List.mem_append_left _ hi)
    · rcases List.mem_cons.mp hi with hi | hi
      · subst hi
        show ([x, y] : List Nat).length = opLen pr.2.op - 1
        rw [holen]
        rfl
      · exact h2 i (by rw [hl]; exact List.mem_append_right _ (List.mem_cons_of_mem _ hi))
  · intro q hq hnq
    rw [hwl'] at hq
    rcases List.mem_append.mp hq with hq | hq
    · have hne : q.1 ≠ off := by have := hmem1 q hq; omega
      have hnp : ¬ P q.1 := fun hp => hnq ⟨hp, hne⟩
      have hold := h3 q (by rw [hwl]; exact List.mem_append_left _ hq) hnp
      rw [hstarts, hlen]
      exact hold
    · rcases List.mem_cons.mp hq with hq | hq
      · rw [hq]
        constructor
        · intro hop'
          refine ⟨x, y, rfl, Or.inr ?_⟩
          have hxy : x + 256 * y = c.code.length - off - 3 := by
            rw [hx, hy]
            exact encode16 hjc
          have hL : (instrsBytes l).length = c.code.length := by rw [h1]
          show off + 3 + (x + 256 * y) = _
          rw [hlen]
          omega
        · intro hop'
          rcases hops with h' | h' <;> rw [h'] at hop' <;> exact OpCode.noConfusion hop'
      · have hge := hmem2 q hq
        have hne : q.1 ≠ off := by omega
        have hnp : ¬ P q.1 := fun hp => hnq ⟨hp, hne⟩
        have hold := h3 q
          (by rw [hwl]; exact List.mem_append_right _ (List.mem_cons_of_mem _ hq)) hnp
        rw [hstarts, hlen]
        exact hold
  · intro p hp
    obtain ⟨hpP, hpne⟩ := hp
    obtain ⟨q, hqmem, hq1, hqops⟩ := h4 p hpP
    rw [hwl] at hqmem
    rcases List.mem_append.mp hqmem with hqmem | hqmem
    · exact ⟨q, by rw [hwl']; exact List.mem_append_left _ hqmem, hq1, hqops⟩
    · rcases List.mem_cons.mp hqmem with hqmem | hqmem
      · exact absurd (by rw [← hq1, hqmem]) (Ne.symm hpne)
      · exact ⟨q, by rw [hwl']; exact List.mem_append_right _ (List.mem_cons_of_mem _ hqmem),
          hq1, hqops⟩
  · rw [hfns]
    exact h5

theorem write_code_code (c : Chunk) (b ln : Nat) :
    (c.write_code b ln).code = c.code ++ [b] := by
  cases c
  rfl

theorem write_code_functions (c : Chunk) (b ln : Nat) :
    (c.write_code b ln).functions = c.functions := by
  cases c
  rfl

theorem write_code_length (c : Chunk) (b ln : Nat) :
    (c.write_code b ln).code.length = c.code.length + 1 := by
  rw [write_code_code]
  simp

theorem add_number_spec {c : Chunk} {q : ℚ} {idx : Nat} {c' : Chunk}
    (h : c.add_number q = .ok (idx, c')) :
    c'.code = c.code ∧ c'.functions = c.functions := by
  obtain ⟨code, nums, strs, fns, vars, lines⟩ := c
  simp only [Chunk.add_number] at h
  split at h
  · cases h
    exact ⟨rfl, rfl⟩
  · cases h

theorem add_string_spec {c : Chunk} {s : String} {idx : Nat} {c' : Chunk}
    (h : c.add_string s = .ok (idx, c')) :
    c'.code = c.code ∧ c'.functions = c.functions := by
  obtain ⟨code, nums, strs, fns, vars, lines⟩ := c
  simp only [Chunk.add_string] at h
  split at h
  · cases h
    exact ⟨rfl, rfl⟩
  · cases h

theorem add_variable_spec {c : Chunk} {v : Nat} {idx : Nat} {c' : Chunk}
    (h : c.add_variable v = .ok (idx, c')) :
    c'.code = c.code ∧ c'.functions = c.functions := by
  obtain ⟨code, nums, strs, fns, vars, lines⟩ := c
  simp only [Chunk.add_variable] at h
  split at h
  · cases h
    exact ⟨rfl, rfl⟩
  · cases h

theorem add_function_spec {c : Chunk} {f : Function} {idx : Nat} {c' : Chunk}
    (h : c.add_function f = .ok (idx, c')) :
    c'.code = c.code ∧ c'.functions = c.functions ++ [f] := by
  obtain ⟨code, nums, strs, fns, vars, lines⟩ := c
  simp only [Chunk.add_function] at h
  split at h
  · cases h
    exact ⟨rfl, rfl⟩
  · cases h

theorem update_code_spec {c : Chunk} {off b : Nat} {c' : Chunk}
    (h : c.update_code off b = some c') :
    c'.code = c.code.set off b ∧ c'.functions = c.functions := by
  obtain ⟨code, nums, strs, fns, vars, lines⟩ := c
  simp only [Chunk.update_code] at h
  split at h
  · cases h
    exact ⟨rfl, rfl⟩
  · cases h

theorem update_code_none {c : Chunk} {off b : Nat}
    (h : c.update_code off b = none) : c.code.length ≤ off := by
  obtain ⟨code, nums, strs, fns, vars, lines⟩ := c
  simp only [Chunk.update_code] at h
  split at h
  · cases h
  · next h' => exact Nat.le_of_not_lt h'

theorem bind_ok {α β : Type} {x : Except CompPanic α} {f : α → Except CompPanic β} {b : β}
    (h : x >>= f = .ok b) : ∃ a, x = .ok a ∧ f a = .ok b := by
  cases x with
  | error e => exact Except.noConfusion h
  | ok a => exact ⟨a, rfl, h⟩

theorem ok_bind {α β : Type} (a : α) (f : α → Except CompPanic β) :
    (Except.ok a >>= f) = f a := rfl

theorem setCurr_contexts (st : CompSt) (c : Ctx) :
    (setCurr st c).contexts = st.contexts.dropLast ++ [c] := rfl

theorem setCurr_had_error (st : CompSt) (c : Ctx) :
    (setCurr st c).had_error = st.had_error := rfl

theorem setCurr_is_panic (st : CompSt) (c : Ctx) :
    (setCurr st c).is_panic = st.is_panic := rfl

theorem throw_error_scan (st : CompSt) (t : Token) (m : String) :
    ScanSpec st (throw_error st t m) := by
  unfold ScanSpec throw_error PanicInv
  split
  · exact ⟨rfl, fun h => h, fun h => h⟩
  · exact ⟨rfl, fun _ => rfl, fun _ _ => rfl⟩

theorem throw_error_had {st : CompSt} (t : Token) (m : String) (hpi : PanicInv st) :
    (throw_error st t m).had_error = true := by
  unfold throw_error
  split
  · next h => exact hpi h
  · rfl

theorem ScanSpec.srefl (st : CompSt) : ScanSpec st st := ⟨rfl, fun h => h, fun h => h⟩

theorem ScanSpec.strans {a b c : CompSt} (h1 : ScanSpec a b) (h2 : ScanSpec b c) :
    ScanSpec a c :=
  ⟨h2.1.trans h1.1, fun h => h2.2.1 (h1.2.1 h), fun h => h2.2.2 (h1.2.2 h)⟩

theorem advanceLoop_scan : ∀ (fuel : Nat) {st st' : CompSt},
    advanceLoop fuel st = .ok st' → ScanSpec st st'
  | 0, _, _, h => by cases h
  | fuel + 1, st, st', h => by
    unfold advanceLoop at h
    dsimp only at h
    split at h
    · cases h
    · next tok sc' heq =>
      split at h
      · exact ScanSpec.strans (ScanSpec.strans
          (show ScanSpec st { st with scanner := sc', current := tok } from
            ⟨rfl, fun h => h, fun h => h⟩)
          (throw_error_scan _ _ _)) (advanceLoop_scan fuel h)
      · cases h
        exact ⟨rfl, fun h => h, fun h => h⟩

theorem advanceTok_scan {fuel : Nat} {st st' : CompSt}
    (h : advanceTok fuel st = .ok st') : ScanSpec st st' := by
  unfold advanceTok at h
  exact ScanSpec.strans
    (show ScanSpec st { st with previous := st.current } from ⟨rfl, fun h => h, fun h => h⟩)
    (advanceLoop_scan fuel h)

theorem matchTok_scan {fuel : Nat} {tt : TokenType} {st : CompSt} {b : Bool} {st' : CompSt}
    (h : matchTok fuel tt st = .ok (b, st')) : ScanSpec st st' := by
  unfold matchTok at h
  split at h
  · obtain ⟨st1, h1, h2⟩ := bind_ok h
    cases h2
    exact advanceTok_scan h1
  · cases h
    exact ScanSpec.srefl st

theorem consume_scan {fuel : Nat} {tt : TokenType} {msg : String} {st st' : CompSt}
    (h : consume fuel tt msg st = .ok st') : ScanSpec st st' := by
  unfold consume at h
  obtain ⟨⟨m, st1⟩, h1, h2⟩ := bind_ok h
  have hs1 := matchTok_scan h1
  dsimp only at h2
  split at h2
  · cases h2
    exact hs1
  · cases h2
    exact ScanSpec.strans hs1 (throw_error_scan _ _ _)

theorem errorSyncLoop_scan : ∀ (fuel : Nat) {st st' : CompSt},
    errorSyncLoop fuel st = .ok st' → ScanSpec st st'
  | 0, _, _, h => by cases h
  | fuel + 1, st, st', h => by
    unfold errorSyncLoop at h
    split at h
    · cases h
      exact ScanSpec.srefl _
    · exact advanceTok_scan h
    · obtain ⟨st1, h1, h2⟩ := bind_ok h
      exact ScanSpec.strans (advanceTok_scan h1) (errorSyncLoop_scan fuel h2)

theorem error_synchronize_scan {fuel : Nat} {st st' : CompSt}
    (h : error_synchronize fuel st = .ok st') : ScanSpec st st' := by
  unfold error_synchronize at h
  split at h
  · have hs := errorSyncLoop_scan fuel h
    exact ScanSpec.strans
      (show ScanSpec st { st with is_panic := false } from
        ⟨rfl, fun h => h, fun _ hh => Bool.noConfusion hh⟩) hs
  · cases h
    exact ScanSpec.srefl _

theorem NeutralSpec.refl (st : CompSt) : NeutralSpec st st :=
  ⟨fun h => h, fun h => h, fun _ _ c l P hc hg =>
    ⟨c, l, eq_dropLast_concat hc, Nat.le.refl, hg, fun _ ht => ht⟩⟩

theorem had_false_back {a b : CompSt} (mono : a.had_error = true → b.had_error = true)
    (h : b.had_error = false) : a.had_error = false := by
  cases he : a.had_error
  · rfl
  · have hb := mono he
    rw [h] at hb
    cases hb

theorem NeutralSpec.trans {a b c : CompSt} (h1 : NeutralSpec a b) (h2 : NeutralSpec b c) :
    NeutralSpec a c := by
  refine ⟨fun h => h2.1 (h1.1 h), fun h => h2.2.1 (h1.2.1 h), fun hpi hc cx l P hcx hg => ?_⟩
  have hpb : PanicInv b := h1.2.1 hpi
  have hb : b.had_error = false := had_false_back h2.1 hc
  obtain ⟨c1, l1, hb1, hl1, hg1, hbd1⟩ := h1.2.2 hpi hb cx l P hcx hg
  have hc1last : b.contexts.getLast? = some c1 := by
    rw [hb1]
    exact List.getLast?_concat _
  obtain ⟨c2, l2, hb2, hl2, hg2, hbd2⟩ := h2.2.2 hpb hc c1 l1 P hc1last hg1
  refine ⟨c2, l2, ?_, hl1.trans hl2, hg2, fun t ht => hbd2 t (hbd1 t ht)⟩
  rw [hb2, hb1, List.dropLast_concat]

theorem neutral_of_scan {st st' : CompSt} (h : ScanSpec st st') : NeutralSpec st st' :=
  ⟨h.2.1, h.2.2, fun _ _ c l P hc hg =>
    ⟨c, l, by rw [h.1]; exact eq_dropLast_concat hc, Nat.le.refl, hg, fun _ ht => ht⟩⟩

theorem emitByte_ok {st : CompSt} {b ln : Nat} {st' : CompSt}
    (h : emitByte st b ln = .ok st') :
    ∃ c, st.contexts.getLast? = some c
      ∧ st' = setCurr st { c with chunk := c.chunk.write_code b ln } := by
  unfold emitByte currCtxE at h
  cases hg : st.contexts.getLast? with
  | none =>
    rw [hg] at h
    exact Except.noConfusion h
  | some c =>
    rw [hg] at h
    have h2 : (Except.ok (setCurr st { c with chunk := c.chunk.write_code b ln }) :
        Except CompPanic CompSt) = .ok st' := h
    exact ⟨c, rfl, (Except.ok.inj h2).symm⟩

theorem getLast?_setCurr (st : CompSt) (c : Ctx) :
    (setCurr st c).contexts.getLast? = some c := by
  rw [setCurr_contexts]
  exact List.getLast?_concat _

theorem dropLast_setCurr (st : CompSt) (c : Ctx) :
    (setCurr st c).contexts.dropLast = st.contexts.dropLast := by
  rw [setCurr_contexts]
  exact List.dropLast_concat

theorem setCurr2_contexts (st : CompSt) (c1 c2 : Ctx) :
    (setCurr (setCurr st c1) c2).contexts = st.contexts.dropLast ++ [c2] := by
  rw [setCurr_contexts, dropLast_setCurr]

theorem currCtxE_inv {st : CompSt} {c : Ctx} (h : currCtxE st = .ok c) :
    st.contexts.getLast? = some c := by
  unfold currCtxE at h
  cases hg : st.contexts.getLast? with
  | none =>
    rw [hg] at h
    exact Except.noConfusion h
  | some c0 =>
    rw [hg] at h
    have h2 : (Except.ok c0 : Except CompPanic Ctx) = .ok c := h
    rw [← Except.ok.inj h2]

theorem CtxExt.same_chunk {a b : Ctx} (h : b.chunk = a.chunk) : CtxExt a b := by
  refine ⟨by rw [h], fun l P hg => ⟨[], ?_⟩⟩
  rw [List.append_nil, h]
  exact hg

theorem neutral_of_err {st st' : CompSt}
    (hmono : st.had_error = true → st'.had_error = true)
    (hpi : PanicInv st → PanicInv st')
    (herr : PanicInv st → st'.had_error = true) : NeutralSpec st st' :=
  ⟨hmono, hpi, fun hp hf => absurd (herr hp) (by rw [hf]; simp)⟩

theorem neutral_of_append2 {st st' : CompSt} {c c1 : Ctx} (op : OpCode) (arg : Nat)
    (hop : opLen op = 2) (hnj : isJump op = false)
    (hlast : st.contexts.getLast? = some c)
    (hctx : st'.contexts = st.contexts.dropLast ++ [c1])
    (hhe : st'.had_error = st.had_error) (hip : st'.is_panic = st.is_panic)
    (hcode : c1.chunk.code = c.chunk.code ++ [OpCode.toByte op, arg])
    (hfns : c1.chunk.functions = c.chunk.functions) :
    NeutralSpec st st' := by
  refine ⟨fun h => by rw [hhe]; exact h, ?_, fun _ _ c0 l P hc0 hg => ?_⟩
  · intro hp h
    rw [hip] at h
    rw [hhe]
    exact hp h
  · have hcc : c0 = c := Option.some.inj (hc0.symm.trans hlast)
    subst hcc
    refine ⟨c1, l ++ [⟨op, [arg]⟩], hctx, ?_, ?_, fun _ ht => Boundary_append _ ht⟩
    · rw [hcode]
      simp
    · refine Good_append_nonjump hg ?_ hfns ?_ hnj
      · rw [hcode]
        rfl
      · show ([arg] : List Nat).length = opLen op - 1
        rw [hop]
        rfl

theorem emit1_neutral {st st' : CompSt} {op : OpCode} {ln : Nat}
    (h : emitByte st (OpCode.toByte op) ln = .ok st')
    (hop : opLen op = 1) (hnj : isJump op = false) : NeutralSpec st st' := by
  obtain ⟨c, hc, hst⟩ := emitByte_ok h
  subst hst
  refine ⟨fun h => h, fun h => h, fun _ _ c0 l P hc0 hg => ?_⟩
  have hcc : c0 = c := Option.some.inj (hc0.symm.trans hc)
  subst hcc
  refine ⟨{ c0 with chunk := c0.chunk.write_code (OpCode.toByte op) ln }, l ++ [⟨op, []⟩],
    setCurr_contexts _ _, ?_, ?_, fun _ ht => Boundary_append _ ht⟩
  · rw [write_code_length]
    omega
  · refine Good_append_nonjump hg ?_ (write_code_functions _ _ _) ?_ hnj
    · rw [write_code_code]
      rfl
    · show ([] : List Nat).length = opLen op - 1
      rw [hop]
      rfl

theorem parse_literal_neutral {st st' : CompSt}
    (h : parse_literal st = .ok st') : NeutralSpec st st' := by
  unfold parse_literal at h
  split at h
  · exact emit1_neutral h rfl rfl
  · exact emit1_neutral h rfl rfl
  · exact emit1_neutral h rfl rfl
  · cases h
    exact neutral_of_scan (throw_error_scan _ _ _)

theorem parse_number_neutral {st st' : CompSt}
    (h : parse_number st = .ok st') : NeutralSpec st st' := by
  unfold parse_number at h
  obtain ⟨st1, h1, h⟩ := bind_ok h
  obtain ⟨c, hc, hst1⟩ := emitByte_ok h1
  subst hst1
  try dsimp only at h
  split at h
  · obtain ⟨ctx, hctx, h⟩ := bind_ok h
    have hcc : ctx = { c with chunk := c.chunk.write_code (OpCode.toByte .Number) st.previous.line } :=
      Option.some.inj ((currCtxE_inv hctx).symm.trans (getLast?_setCurr _ _))
    subst hcc
    try dsimp only at h
    split at h
    · next idx chunk' hadd =>
      cases h
      refine neutral_of_append2 .Number (idx % 256) rfl rfl hc (setCurr2_contexts _ _ _)
        rfl rfl ?_ ?_
      · rw [write_code_code, (add_number_spec hadd).1, write_code_code, List.append_assoc]
        rfl
      · rw [write_code_functions, (add_number_spec hadd).2, write_code_functions]
    · next e hadd =>
      cases h
      exact neutral_of_err (fun hh => (throw_error_scan _ _ _).2.1 hh)
        (fun hp => (throw_error_scan _ _ _).2.2 hp) (fun hp => throw_error_had _ _ hp)
  · cases h
    exact neutral_of_err (fun hh => (throw_error_scan _ _ _).2.1 hh)
      (fun hp => (throw_error_scan _ _ _).2.2 hp) (fun hp => throw_error_had _ _ hp)

theorem parse_string_neutral {st st' : CompSt}
    (h : parse_string st = .ok st') : NeutralSpec st st' := by
  unfold parse_string at h
  obtain ⟨st1, h1, h⟩ := bind_ok h
  obtain ⟨c, hc, hst1⟩ := emitByte_ok h1
  subst hst1
  try dsimp only at h
  split at h
  · obtain ⟨ctx, hctx, h⟩ := bind_ok h
    have hcc : ctx = { c with chunk := c.chunk.write_code (OpCode.toByte .String) st.previous.line } :=
      Option.some.inj ((currCtxE_inv hctx).symm.trans (getLast?_setCurr _ _))
    subst hcc
    try dsimp only at h
    split at h
    · next idx chunk' hadd =>
      cases h
      refine neutral_of_append2 .String (idx % 256) rfl rfl hc (setCurr2_contexts _ _ _)
        rfl rfl ?_ ?_
      · rw [write_code_code, (add_string_spec hadd).1, write_code_code, List.append_assoc]
        rfl
      · rw [write_code_functions, (add_string_spec hadd).2, write_code_functions]
    · next e hadd =>
      cases h
      exact neutral_of_err (fun hh => (throw_error_scan _ _ _).2.1 hh)
        (fun hp => (throw_error_scan _ _ _).2.2 hp) (fun hp => throw_error_had _ _ hp)
  · cases h
    exact neutral_of_err (fun hh => (throw_error_scan _ _ _).2.1 hh)
      (fun hp => (throw_error_scan _ _ _).2.2 hp) (fun hp => throw_error_had _ _ hp)

theorem emitVarAccess_neutral {st : CompSt} {slot : Nat} {vt : Token} {st' : CompSt}
    {op : OpCode} (h : emitVarAccess st (OpCode.toByte op) slot vt = .ok st')
    (hop : opLen op = 2) (hnj : isJump op = false) : NeutralSpec st st' := by
  unfold emitVarAccess at h
  obtain ⟨st1, h1, h⟩ := bind_ok h
  obtain ⟨c, hc, hst1⟩ := emitByte_ok h1
  subst hst1
  obtain ⟨ctx, hctx, h⟩ := bind_ok h
  have hcc : ctx = { c with chunk := c.chunk.write_code (OpCode.toByte op) vt.line } :=
    Option.some.inj ((currCtxE_inv hctx).symm.trans (getLast?_setCurr _ _))
  subst hcc
  try dsimp only at h
  split at h
  · next idx chunk' hadd =>
    cases h
    refine neutral_of_append2 op (idx % 256) hop hnj hc (setCurr2_contexts _ _ _)
      rfl rfl ?_ ?_
    · rw [write_code_code, (add_variable_spec hadd).1, write_code_code, List.append_assoc]
      rfl
    · rw [write_code_functions, (add_variable_spec hadd).2, write_code_functions]
  · next e hadd =>
    cases h
    exact neutral_of_err (fun hh => (throw_error_scan _ _ _).2.1 hh)
      (fun hp => (throw_error_scan _ _ _).2.2 hp) (fun hp => throw_error_had _ _ hp)

theorem finishCall_neutral {fuel argCount : Nat} {st st' : CompSt}
    (h : finishCall fuel argCount st = .ok st') : NeutralSpec st st' := by
  unfold finishCall at h
  obtain ⟨st1, h1, h⟩ := bind_ok h
  obtain ⟨st2, h2, h⟩ := bind_ok h
  have hs1 := consume_scan h1
  obtain ⟨c, hc, hst2⟩ := emitByte_ok h2
  subst hst2
  obtain ⟨c2, hc2, hst'⟩ := emitByte_ok h
  subst hst'
  have hcc : c2 = { c with chunk := c.chunk.write_code (OpCode.toByte .Call) st1.previous.line } :=
    Option.some.inj (hc2.symm.trans (getLast?_setCurr _ _))
  subst hcc
  refine NeutralSpec.trans (neutral_of_scan hs1)
    (neutral_of_append2 .Call (argCount % 256) rfl rfl hc (setCurr2_contexts _ _ _)
      rfl rfl ?_ ?_)
  · rw [write_code_code, write_code_code, List.append_assoc]
    rfl
  · rw [write_code_functions, write_code_functions]

theorem scoop_begin_neutral {st st' : CompSt} (h : scoop_begin st = .ok st') :
    NeutralSpec st st' := by
  unfold scoop_begin currCtxE at h
  cases hg : st.contexts.getLast? with
  | none =>
    rw [hg] at h
    exact Except.noConfusion h
  | some c =>
    rw [hg] at h
    have h2 : (Except.ok (setCurr st { c with depth := c.depth + 1, vars := dmInsert c.vars (c.depth + 1) [] }) : Except CompPanic CompSt) = .ok st' := h
    rw [← Except.ok.inj h2]
    refine ⟨fun hh => hh, fun hp => hp, fun _ _ c0 l P hc0 hgood => ?_⟩
    have hcc : c0 = c := Option.some.inj (hc0.symm.trans hg)
    subst hcc
    refine ⟨_, l, setCurr_contexts _ _, Nat.le.refl, hgood, fun _ ht => ht⟩

theorem emitPops_code (c : Chunk) (n ln : Nat) :
    (emitPops c n ln).code.length = c.code.length + n := by
  induction n with
  | zero => rfl
  | succ n ih =>
    show ((emitPops c n ln).write_code (OpCode.toByte .Pop) ln).code.length = _
    rw [write_code_length, ih]
    omega

theorem Good_emitPops {c : Chunk} {l : List Instr} {P : Nat → Prop} (n ln : Nat)
    (hg : Good c l P) :
    Good (emitPops c n ln) (l ++ List.replicate n ⟨.Pop, []⟩) P := by
  induction n with
  | zero => simpa using hg
  | succ n ih =>
    rw [List.replicate_succ', ← List.append_assoc]
    show Good ((emitPops c n ln).write_code (OpCode.toByte .Pop) ln) _ _
    exact Good_append_nonjump ih (write_code_code _ _ _) (write_code_functions _ _ _) rfl rfl

theorem scoop_end_neutral {st st' : CompSt} (h : scoop_end st = .ok st') :
    NeutralSpec st st' := by
  unfold scoop_end at h
  obtain ⟨c, hctx, h⟩ := bind_ok h
  have hc := currCtxE_inv hctx
  try dsimp only at h
  split at h
  · exact Except.noConfusion h
  · next m hm =>
    split at h
    · exact Except.noConfusion h
    · split at h
      · exact Except.noConfusion h
      · have h2 : (Except.ok (setCurr st { c with chunk := emitPops c.chunk m.length st.previous.line, localCount := c.localCount - m.length, vars := dmRemove c.vars c.depth, depth := c.depth - 1 }) : Except CompPanic CompSt) = .ok st' := h
        rw [← Except.ok.inj h2]
        refine ⟨fun hh => hh, fun hp => hp, fun _ _ c0 l P hc0 hgood => ?_⟩
        have hcc : c0 = c := Option.some.inj (hc0.symm.trans hc)
        subst hcc
        refine ⟨_, l ++ List.replicate m.length ⟨.Pop, []⟩, setCurr_contexts _ _, ?_,
          Good_emitPops _ _ hgood, fun _ ht => Boundary_append _ ht⟩
        show (emitPops c0.chunk m.length st.previous.line).code.length ≥ _
        rw [emitPops_code]
        omega

theorem currCtxE_ok {st : CompSt} {c : Ctx} (h : st.contexts.getLast? = some c) :
    currCtxE st = .ok c := by
  unfold currCtxE
  rw [h]

theorem last_of_concat {st : CompSt} {A : List Ctx} {c : Ctx}
    (h : st.contexts = A ++ [c]) : st.contexts.getLast? = some c := by
  rw [h]
  exact List.getLast?_concat _

theorem drop_of_concat {st : CompSt} {A : List Ctx} {c : Ctx}
    (h : st.contexts = A ++ [c]) : st.contexts.dropLast = A := by
  rw [h]
  exact List.dropLast_concat

theorem neutral_of_setCurr {st : CompSt} {c c1 : Ctx}
    (hlast : st.contexts.getLast? = some c) (hchunk : c1.chunk = c.chunk) :
    NeutralSpec st (setCurr st c1) := by
  refine ⟨fun h => h, fun h => h, fun _ _ c0 l P hc0 hg => ?_⟩
  have hcc : c0 = c := Option.some.inj (hc0.symm.trans hlast)
  subst hcc
  refine ⟨c1, l, setCurr_contexts _ _, by rw [hchunk], ?_, fun _ ht => ht⟩
  rw [hchunk]
  exact hg

theorem patch_forward_begin_flags {st : CompSt} {op : OpCode} {off : Nat} {st' : CompSt}
    (h : patch_forward_begin st op = .ok (off, st')) :
    st'.had_error = st.had_error ∧ st'.is_panic = st.is_panic := by
  unfold patch_forward_begin at h
  obtain ⟨ctx, hctx, h⟩ := bind_ok h
  try dsimp only at h
  have h3 := Except.ok.inj h
  have hst' : st' = setCurr st { ctx with chunk := ((ctx.chunk.write_code op.toByte st.previous.line).write_code 255 st.previous.line).write_code 255 st.previous.line } := (congrArg Prod.snd h3).symm
  rw [hst']
  exact ⟨setCurr_had_error _ _, setCurr_is_panic _ _⟩

theorem patch_forward_end_flags {st : CompSt} {off : Nat} {st' : CompSt}
    (h : patch_forward_end st off = .ok st') :
    (st.had_error = true → st'.had_error = true) ∧ (PanicInv st → PanicInv st') := by
  unfold patch_forward_end at h
  obtain ⟨ctx, hctx, h⟩ := bind_ok h
  try dsimp only at h
  split at h
  · exact Except.noConfusion h
  · split at h
    · obtain ⟨ctx1, hctx1, h⟩ := bind_ok h
      try dsimp only at h
      split at h
      · exact Except.noConfusion h
      · next c1 hu1 =>
        split at h
        · exact Except.noConfusion h
        · next c2 hu2 =>
          have h2 : (Except.ok (setCurr (throw_error st st.previous "Too much code to jump over") { ctx1 with chunk := c2 }) : Except CompPanic CompSt) = .ok st' := h
          have hst' := (Except.ok.inj h2).symm
          rw [hst']
          constructor
          · intro hh
            rw [setCurr_had_error]
            exact (throw_error_scan st _ _).2.1 hh
          · intro hp hh
            rw [setCurr_had_error]
            rw [setCurr_is_panic] at hh
            exact (throw_error_scan st _ _).2.2 hp hh
    · obtain ⟨ctx1, hctx1, h⟩ := bind_ok h
      try dsimp only at h
      split at h
      · exact Except.noConfusion h
      · next c1 hu1 =>
        split at h
        · exact Except.noConfusion h
        · next c2 hu2 =>
          have h2 : (Except.ok (setCurr st { ctx1 with chunk := c2 }) :
              Except CompPanic CompSt) = .ok st' := h
          have hst' := (Except.ok.inj h2).symm
          rw [hst']
          constructor
          · intro hh
            rw [setCurr_had_error]
            exact hh
          · intro hp hh
            rw [setCurr_had_error]
            rw [setCurr_is_panic] at hh
            exact hp hh

theorem patch_back_flags {st : CompSt} {op : OpCode} {startOff : Nat} {st' : CompSt}
    (h : patch_back st op startOff = .ok st') :
    (st.had_error = true → st'.had_error = true) ∧ (PanicInv st → PanicInv st') := by
  unfold patch_back at h
  obtain ⟨ctx, hctx, h⟩ := bind_ok h
  try dsimp only at h
  split at h
  · exact Except.noConfusion h
  · split at h
    · obtain ⟨ctx1, hctx1, h⟩ := bind_ok h
      try dsimp only at h
      have h2 : (Except.ok (setCurr (throw_error st st.previous "Too much code to jump over") { ctx1 with chunk := ((ctx1.chunk.write_code op.toByte (throw_error st st.previous "Too much code to jump over").previous.line).write_code ((ctx.chunk.code_size - startOff + 2) % 256) (throw_error st st.previous "Too much code to jump over").previous.line).write_code ((ctx.chunk.code_size - startOff + 2) / 256 % 256) (throw_error st st.previous "Too much code to jump over").previous.line }) : Except CompPanic CompSt) = .ok st' := h
      have hst' := (Except.ok.inj h2).symm
      rw [hst']
      constructor
      · intro hh
        rw [setCurr_had_error]
        exact (throw_error_scan st _ _).2.1 hh
      · intro hp hh
        rw [setCurr_had_error]
        rw [setCurr_is_panic] at hh
        exact (throw_error_scan st _ _).2.2 hp hh
    · obtain ⟨ctx1, hctx1, h⟩ := bind_ok h
      try dsimp only at h
      have h2 : (Except.ok (setCurr st { ctx1 with chunk := ((ctx1.chunk.write_code op.toByte st.previous.line).write_code ((ctx.chunk.code_size - startOff + 2) % 256) st.previous.line).write_code ((ctx.chunk.code_size - startOff + 2) / 256 % 256) st.previous.line }) : Except CompPanic CompSt) = .ok st' := h
      have hst' := (Except.ok.inj h2).symm
      rw [hst']
      constructor
      · intro hh
        rw [setCurr_had_error]
        exact hh
      · intro hp hh
        rw [setCurr_had_error]
        rw [setCurr_is_panic] at hh
        exact hp hh

theorem patch_forward_begin_good {st : CompSt} {op : OpCode} {off : Nat} {st' : CompSt}
    {c : Ctx} {l : List Instr} {P : Nat → Prop}
    (hlast : st.contexts.getLast? = some c) (hg : Good c.chunk l P)
    (hop : op = .Jump ∨ op = .JumpFalse)
    (h : patch_forward_begin st op = .ok (off, st')) :
    ∃ c', st'.contexts = st.contexts.dropLast ++ [c']
      ∧ st'.scanner = st.scanner ∧ st'.current = st.current
      ∧ st'.previous = st.previous
      ∧ st'.is_panic = st.is_panic ∧ st'.had_error = st.had_error
      ∧ off = (instrsBytes l).length
      ∧ c'.chunk.code.length = c.chunk.code.length + 3
      ∧ Good c'.chunk (l ++ [⟨op, [255, 255]⟩]) (fun p => P p ∨ p = off) := by
  unfold patch_forward_begin at h
  rw [currCtxE_ok hlast] at h
  try dsimp only at h
  have h2 : (Except.ok (c.chunk.code_size, setCurr st { c with chunk := ((c.chunk.write_code op.toByte st.previous.line).write_code 255 st.previous.line).write_code 255 st.previous.line }) : Except CompPanic (Nat × CompSt)) = .ok (off, st') := h
  have h3 := Except.ok.inj h2
  have hoff : off = c.chunk.code_size := (congrArg Prod.fst h3).symm
  have hst' : st' = setCurr st { c with chunk := ((c.chunk.write_code op.toByte st.previous.line).write_code 255 st.previous.line).write_code 255 st.previous.line } := (congrArg Prod.snd h3).symm
  subst hst'
  have hoff2 : off = (instrsBytes l).length := by
    rw [hoff]
    show c.chunk.code.length = _
    rw [hg.1]
  refine ⟨_, setCurr_contexts _ _, rfl, rfl, rfl, rfl, rfl, hoff2, ?_, ?_⟩
  · rw [write_code_length, write_code_length, write_code_length]
  · rw [hoff2]
    refine Good_append_pending hg ?_ ?_ hop ?_
    · rw [write_code_code, write_code_code, write_code_code,
        List.append_assoc, List.append_assoc]
      rfl
    · rw [write_code_functions, write_code_functions, write_code_functions]
    · rcases hop with hh | hh <;> rw [hh] <;> rfl

theorem patch_forward_end_good {st : CompSt} {off : Nat} {st' : CompSt}
    {c : Ctx} {l : List Instr} {P : Nat → Prop}
    (hlast : st.contexts.getLast? = some c) (hg : Good c.chunk l P) (hP : P off)
    (hpi : PanicInv st) (hhe : st'.had_error = false)
    (h : patch_forward_end st off = .ok st') :
    ∃ c' l', st'.contexts = st.contexts.dropLast ++ [c']
      ∧ st'.scanner = st.scanner ∧ st'.current = st.current
      ∧ st'.previous = st.previous
      ∧ st'.is_panic = st.is_panic ∧ st'.had_error = st.had_error
      ∧ c'.chunk.code.length = c.chunk.code.length
      ∧ Good c'.chunk l' (fun p => P p ∧ p ≠ off)
      ∧ (instrsBytes l').length = (instrsBytes l).length
      ∧ startsOf l' = startsOf l := by
  unfold patch_forward_end at h
  rw [currCtxE_ok hlast, ok_bind] at h
  try dsimp only at h
  split at h
  · exact Except.noConfusion h
  · next hsize =>
    split at h
    · next hjc =>
      exfalso
      rw [currCtxE_ok (show (throw_error st st.previous "Too much code to jump over").contexts.getLast? = some c from by rw [(throw_error_scan st _ _).1]; exact hlast), ok_bind] at h
      try dsimp only at h
      split at h
      · exact Except.noConfusion h
      · next c1 hu1 =>
        split at h
        · exact Except.noConfusion h
        · next c2 hu2 =>
          have h2 : (Except.ok (setCurr (throw_error st st.previous "Too much code to jump over") { c with chunk := c2 }) : Except CompPanic CompSt) = .ok st' := h
          have hst' := (Except.ok.inj h2).symm
          have hhe2 : st'.had_error = (throw_error st st.previous "Too much code to jump over").had_error := by rw [hst', setCurr_had_error]
          rw [throw_error_had st.previous "Too much code to jump over" hpi] at hhe2
          rw [hhe2] at hhe
          exact Bool.noConfusion hhe
    · next hjc =>
      rw [currCtxE_ok hlast, ok_bind] at h
      try dsimp only at h
      split at h
      · exact Except.noConfusion h
      · next c1 hu1 =>
        split at h
        · exact Except.noConfusion h
        · next c2 hu2 =>
          have h2 : (Except.ok (setCurr st { c with chunk := c2 }) :
              Except CompPanic CompSt) = .ok st' := h
          have hst' := (Except.ok.inj h2).symm
          have hjcle : c.chunk.code.length - off - 3 ≤ 65535 := Nat.le_of_not_lt hjc
          have hcode2 : c2.code = (c.chunk.code.set (off + 1)
              ((c.chunk.code.length - off - 3) % 256)).set (off + 2)
              ((c.chunk.code.length - off - 3) / 256 % 256) := by
            rw [(update_code_spec hu2).1, (update_code_spec hu1).1]
            rfl
          have hfns2 : c2.functions = c.chunk.functions := by
            rw [(update_code_spec hu2).2, (update_code_spec hu1).2]
          obtain ⟨l', hgood, hlen, hstarts⟩ := Good_patch hg hP hjcle hcode2 hfns2
          subst hst'
          refine ⟨{ c with chunk := c2 }, l', setCurr_contexts _ _,
            rfl, rfl, rfl, rfl, rfl, ?_, hgood, hlen, hstarts⟩
          show c2.code.length = _
          rw [hcode2]
          simp [List.length_set]

theorem patch_back_good {st : CompSt} {startOff : Nat} {st' : CompSt}
    {c : Ctx} {l : List Instr} {P : Nat → Prop}
    (hlast : st.contexts.getLast? = some c) (hg : Good c.chunk l P)
    (hb : Boundary l (startOff + 1))
    (hpi : PanicInv st) (hhe : st'.had_error = false)
    (h : patch_back st .JumpBack startOff = .ok st') :
    ∃ c' i, st'.contexts = st.contexts.dropLast ++ [c']
      ∧ st'.scanner = st.scanner ∧ st'.current = st.current
      ∧ st'.previous = st.previous
      ∧ st'.is_panic = st.is_panic ∧ st'.had_error = st.had_error
      ∧ c'.chunk.code.length = c.chunk.code.length + 3
      ∧ Good c'.chunk (l ++ [i]) P := by
  unfold patch_back at h
  rw [currCtxE_ok hlast, ok_bind] at h
  try dsimp only at h
  split at h
  · exact Except.noConfusion h
  · next hsz =>
    split at h
    · next hjc =>
      exfalso
      rw [currCtxE_ok (show (throw_error st st.previous "Too much code to jump over").contexts.getLast? = some c from by rw [(throw_error_scan st _ _).1]; exact hlast), ok_bind] at h
      try dsimp only at h
      have h2 : (Except.ok (setCurr (throw_error st st.previous "Too much code to jump over") { c with chunk := ((c.chunk.write_code OpCode.JumpBack.toByte (throw_error st st.previous "Too much code to jump over").previous.line).write_code ((c.chunk.code_size - startOff + 2) % 256) (throw_error st st.previous "Too much code to jump over").previous.line).write_code ((c.chunk.code_size - startOff + 2) / 256 % 256) (throw_error st st.previous "Too much code to jump over").previous.line }) : Except CompPanic CompSt) = .ok st' := h
      have hst' := (Except.ok.inj h2).symm
      have hhe2 : st'.had_error = (throw_error st st.previous "Too much code to jump over").had_error := by rw [hst', setCurr_had_error]
      rw [throw_error_had st.previous "Too much code to jump over" hpi] at hhe2
      rw [hhe2] at hhe
      exact Bool.noConfusion hhe
    · next hjc =>
      rw [currCtxE_ok hlast, ok_bind] at h
      try dsimp only at h
      have h2 : (Except.ok (setCurr st { c with chunk := ((c.chunk.write_code OpCode.JumpBack.toByte st.previous.line).write_code ((c.chunk.code_size - startOff + 2) % 256) st.previous.line).write_code ((c.chunk.code_size - startOff + 2) / 256 % 256) st.previous.line }) : Except CompPanic CompSt) = .ok st' := h
      have hst' := (Except.ok.inj h2).symm
      subst hst'
      have hjcle : c.chunk.code_size - startOff + 2 ≤ 65535 := Nat.le_of_not_lt hjc
      have hszle : startOff ≤ c.chunk.code.length := Nat.le_of_not_lt hsz
      have hp : (instrsBytes l).length = c.chunk.code.length := by rw [hg.1]
      refine ⟨_, ⟨.JumpBack, [(c.chunk.code_size - startOff + 2) % 256,
        (c.chunk.code_size - startOff + 2) / 256 % 256]⟩, setCurr_contexts _ _,
        rfl, rfl, rfl, rfl, rfl, ?_, ?_⟩
      · rw [write_code_length, write_code_length, write_code_length]
      · refine Good_append hg ?_ ?_ rfl ?_
        · rw [write_code_code, write_code_code, write_code_code,
            List.append_assoc, List.append_assoc]
          rfl
        · rw [write_code_functions, write_code_functions, write_code_functions]
        · constructor
          · rintro (h' | h') <;> exact OpCode.noConfusion h'
          · intro _
            refine ⟨(c.chunk.code_size - startOff + 2) % 256,
              (c.chunk.code_size - startOff + 2) / 256 % 256, rfl, ?_, ?_⟩
            · rw [encode16 hjcle]
              show c.chunk.code.length - startOff + 2 ≤ (instrsBytes l).length + 3
              omega
            · have hidx : (instrsBytes l).length + 3 -
                  ((c.chunk.code_size - startOff + 2) % 256 +
                    256 * ((c.chunk.code_size - startOff + 2) / 256 % 256)) =
                  startOff + 1 := by
                rw [encode16 hjcle]
                show (instrsBytes l).length + 3 - (c.chunk.code.length - startOff + 2) = _
                omega
              rw [hidx]
              exact Boundary_mem_concat _ hb

theorem compile_end_spec {st : CompSt} {fn : Function} {st' : CompSt}
    (h : compile_end st = .ok (fn, st')) :
    st'.contexts = st.contexts.dropLast
    ∧ st'.scanner = st.scanner ∧ st'.current = st.current ∧ st'.previous = st.previous
    ∧ st'.is_panic = st.is_panic ∧ st'.had_error = st.had_error
    ∧ ∀ c, st.contexts.getLast? = some c →
        (∃ l, Good c.chunk l (fun _ => False)) → FunOk fn := by
  unfold compile_end at h
  obtain ⟨st1, h1, h⟩ := bind_ok h
  obtain ⟨c, hc, hst1⟩ := emitByte_ok h1
  subst hst1
  obtain ⟨st2, h2, h⟩ := bind_ok h
  obtain ⟨c1, hc1, hst2⟩ := emitByte_ok h2
  subst hst2
  have hcc : c1 = { c with chunk := c.chunk.write_code (OpCode.toByte .Nil) st.previous.line } :=
    Option.some.inj (hc1.symm.trans (getLast?_setCurr _ _))
  subst hcc
  rw [show (setCurr (setCurr st { c with chunk := c.chunk.write_code (OpCode.toByte .Nil) st.previous.line }) { c with chunk := (c.chunk.write_code (OpCode.toByte .Nil) st.previous.line).write_code (OpCode.toByte .Return) (setCurr st { c with chunk := c.chunk.write_code (OpCode.toByte .Nil) st.previous.line }).previous.line }).contexts.getLast? = some { c with chunk := (c.chunk.write_code (OpCode.toByte .Nil) st.previous.line).write_code (OpCode.toByte .Return) (setCurr st { c with chunk := c.chunk.write_code (OpCode.toByte .Nil) st.previous.line }).previous.line } from getLast?_setCurr _ _] at h
  try dsimp only at h
  have h3 := Except.ok.inj h
  have hfn : fn = Function.mk c.functionName c.paramsNum
      ((c.chunk.write_code (OpCode.toByte .Nil) st.previous.line).write_code
        (OpCode.toByte .Return) st.previous.line) := (congrArg Prod.fst h3).symm
  have hst' := (congrArg Prod.snd h3).symm
  subst hst'
  refine ⟨?_, rfl, rfl, rfl, rfl, rfl, ?_⟩
  · show (setCurr (setCurr st _) _).contexts.dropLast = _
    rw [dropLast_setCurr, dropLast_setCurr]
  · intro c0 hc0 hex
    obtain ⟨l, hgood⟩ := hex
    have hcc0 : c0 = c := Option.some.inj (hc0.symm.trans hc)
    subst hcc0
    have g1 : Good (c0.chunk.write_code (OpCode.toByte .Nil) st.previous.line)
        (l ++ [⟨.Nil, []⟩]) (fun _ => False) :=
      Good_append_nonjump hgood (write_code_code _ _ _) (write_code_functions _ _ _) rfl rfl
    have g2 : Good ((c0.chunk.write_code (OpCode.toByte .Nil) st.previous.line).write_code
        (OpCode.toByte .Return) st.previous.line)
        ((l ++ [⟨.Nil, []⟩]) ++ [⟨.Return, []⟩]) (fun _ => False) :=
      Good_append_nonjump g1 (write_code_code _ _ _) (write_code_functions _ _ _) rfl rfl
    have hassoc : (l ++ [(⟨.Nil, []⟩ : Instr)]) ++ [(⟨.Return, []⟩ : Instr)] =
        l ++ [⟨.Nil, []⟩, ⟨.Return, []⟩] := by
      rw [List.append_assoc]
      rfl
    rw [hfn]
    refine FunOk.intro _ (l ++ [⟨.Nil, []⟩, ⟨.Return, []⟩]) ?_ ?_ ?_ ?_
    · show ((c0.chunk.write_code (OpCode.toByte .Nil) st.previous.line).write_code
        (OpCode.toByte .Return) st.previous.line).code = _
      rw [← hassoc]
      exact g2.1
    · rw [← hassoc]
      exact g2.2.1
    · exact jumpsOkStrict_append_two _ _ hgood.2.2.1 rfl rfl
    · show ∀ g ∈ ((c0.chunk.write_code (OpCode.toByte .Nil) st.previous.line).write_code
        (OpCode.toByte .Return) st.previous.line).functions, FunOk g
      exact g2.2.2.2.2

set_option maxHeartbeats 1000000 in
theorem comp_spec : ∀ (fuel : Nat) (cmd : Cmd) (st st' : CompSt),
    comp fuel cmd st = .ok st' → cmdSpec cmd st st'
  | 0, _, _, _, h => by cases h
  | fuel + 1, cmd, st, st', h => by
    have IH : ∀ (c2 : Cmd) (s1 s2 : CompSt), comp fuel c2 s1 = .ok s2 → cmdSpec c2 s1 s2 :=
      comp_spec fuel
    cases cmd with
    | declaration =>
      show NeutralSpec st st'
      unfold comp at h
      try dsimp only at h
      obtain ⟨st1, h1, h2⟩ := bind_ok h
      have hn1 : NeutralSpec st st1 := IH _ _ _ h1
      exact hn1.trans (neutral_of_scan (error_synchronize_scan h2))
    | statement =>
      show NeutralSpec st st'
      unfold comp at h
      try dsimp only at h
      split at h
      all_goals try (
        obtain ⟨st1, h1, h2⟩ := bind_ok h
        have hn2 : NeutralSpec st1 st' := IH _ _ _ h2
        exact (neutral_of_scan (advanceTok_scan h1)).trans hn2)
      exact IH _ _ _ h
    | printStatement =>
      show NeutralSpec st st'
      unfold comp at h
      try dsimp only at h
      obtain ⟨st1, h1, h⟩ := bind_ok h
      obtain ⟨st2, h2, h⟩ := bind_ok h
      have hn1 : NeutralSpec st st1 := IH _ _ _ h1
      exact hn1.trans ((neutral_of_scan (consume_scan h2)).trans (emit1_neutral h rfl rfl))
    | expressionStatement =>
      show NeutralSpec st st'
      unfold comp at h
      try dsimp only at h
      obtain ⟨st1, h1, h⟩ := bind_ok h
      obtain ⟨st2, h2, h⟩ := bind_ok h
      have hn1 : NeutralSpec st st1 := IH _ _ _ h1
      exact hn1.trans ((neutral_of_scan (consume_scan h2)).trans (emit1_neutral h rfl rfl))
    | variableStatement =>
      show NeutralSpec st st'
      unfold comp at h
      try dsimp only at h
      obtain ⟨⟨m, st1⟩, h1, h⟩ := bind_ok h
      try dsimp only at h
      have hnm : NeutralSpec st st1 := neutral_of_scan (matchTok_scan h1)
      split at h
      · cases h
        exact hnm.trans (neutral_of_scan (throw_error_scan _ _ _))
      · obtain ⟨ctx, hctx, h⟩ := bind_ok h
        try dsimp only at h
        split at h
        · exact Except.noConfusion h
        · split at h
          · cases h
            exact hnm.trans (neutral_of_scan (throw_error_scan _ _ _))
          · obtain ⟨⟨eqM, st2⟩, h2, h⟩ := bind_ok h
            try dsimp only at h
            split at h
            · obtain ⟨st3, h3, h⟩ := bind_ok h
              have hstep : NeutralSpec st2 st3 := IH _ _ _ h3
              obtain ⟨st4, h4, h⟩ := bind_ok h
              obtain ⟨ctx2, hctx2, h⟩ := bind_ok h
              try dsimp only at h
              have hlast4 := currCtxE_inv hctx2
              have hpre : NeutralSpec st st4 :=
                ((hnm.trans (neutral_of_scan (matchTok_scan h2))).trans hstep).trans
                  (neutral_of_scan (consume_scan h4))
              split at h
              · exact Except.noConfusion h
              · split at h
                · split at h
                  · next idx chunk' hadd =>
                    cases h
                    refine hpre.trans (neutral_of_append2 .DefineGlobal (idx % 256) rfl rfl
                      hlast4 (setCurr_contexts _ _) rfl rfl ?_ ?_)
                    · rw [write_code_code, write_code_code, (add_variable_spec hadd).1,
                        List.append_assoc]
                      rfl
                    · rw [write_code_functions, write_code_functions,
                        (add_variable_spec hadd).2]
                  · cases h
                    exact hpre.trans (neutral_of_scan (throw_error_scan _ _ _))
                · cases h
                  exact hpre.trans (neutral_of_setCurr hlast4 rfl)
            · obtain ⟨st3, h3, h⟩ := bind_ok h
              have hstep : NeutralSpec st2 st3 := emit1_neutral h3 rfl rfl
              obtain ⟨st4, h4, h⟩ := bind_ok h
              obtain ⟨ctx2, hctx2, h⟩ := bind_ok h
              try dsimp only at h
              have hlast4 := currCtxE_inv hctx2
              have hpre : NeutralSpec st st4 :=
                ((hnm.trans (neutral_of_scan (matchTok_scan h2))).trans hstep).trans
                  (neutral_of_scan (consume_scan h4))
              split at h
              · exact Except.noConfusion h
              · split at h
                · split at h
                  · next idx chunk' hadd =>
                    cases h
                    refine hpre.trans (neutral_of_append2 .DefineGlobal (idx % 256) rfl rfl
                      hlast4 (setCurr_contexts _ _) rfl rfl ?_ ?_)
                    · rw [write_code_code, write_code_code, (add_variable_spec hadd).1,
                        List.append_assoc]
                      rfl
                    · rw [write_code_functions, write_code_functions,
                        (add_variable_spec hadd).2]
                  · cases h
                    exact hpre.trans (neutral_of_scan (throw_error_scan _ _ _))
                · cases h
                  exact hpre.trans (neutral_of_setCurr hlast4 rfl)
    | blockStatement =>
      show NeutralSpec st st'
      unfold comp at h
      try dsimp only at h
      obtain ⟨st1, h1, h⟩ := bind_ok h
      obtain ⟨st2, h2, h⟩ := bind_ok h
      obtain ⟨st3, h3, h⟩ := bind_ok h
      have hn2 : NeutralSpec st1 st2 := IH _ _ _ h2
      exact (scoop_begin_neutral h1).trans (hn2.trans
        ((neutral_of_scan (consume_scan h3)).trans (scoop_end_neutral h)))
    | blockLoop =>
      show NeutralSpec st st'
      unfold comp at h
      try dsimp only at h
      split at h
      · obtain ⟨st1, h1, h2⟩ := bind_ok h
        have hn1 : NeutralSpec st st1 := IH _ _ _ h1
        have hn2 : NeutralSpec st1 st' := IH _ _ _ h2
        exact hn1.trans hn2
      · cases h
        exact NeutralSpec.refl _
    | ifStatement =>
      show NeutralSpec st st'
      unfold comp at h
      try dsimp only at h
      obtain ⟨st1, h1, h⟩ := bind_ok h
      obtain ⟨st2, h2, h⟩ := bind_ok h
      obtain ⟨st3, h3, h⟩ := bind_ok h
      obtain ⟨⟨jf, st4⟩, h4, h⟩ := bind_ok h
      try dsimp only at h
      obtain ⟨st5, h5, h⟩ := bind_ok h
      obtain ⟨st6, h6, h⟩ := bind_ok h
      obtain ⟨⟨j, st7⟩, h7, h⟩ := bind_ok h
      try dsimp only at h
      obtain ⟨st8, h8, h⟩ := bind_ok h
      obtain ⟨st9, h9, h⟩ := bind_ok h
      obtain ⟨⟨em, st10⟩, h10, h⟩ := bind_ok h
      try dsimp only at h
      obtain ⟨st11, hn11, h⟩ : ∃ st11, NeutralSpec st10 st11
          ∧ patch_forward_end st11 j = .ok st' := by
        split at h
        · obtain ⟨st11, h11, h⟩ := bind_ok h
          exact ⟨st11, IH _ _ _ h11, h⟩
        · rw [ok_bind] at h
          exact ⟨st10, NeutralSpec.refl st10, h⟩
      have hs1 := consume_scan h1
      have hn2 : NeutralSpec st1 st2 := IH _ _ _ h2
      have hs3 := consume_scan h3
      have hf4 := patch_forward_begin_flags h4
      obtain ⟨ce5, hce5, hst5⟩ := emitByte_ok h5
      have hn6 : NeutralSpec st5 st6 := IH _ _ _ h6
      have hf7 := patch_forward_begin_flags h7
      have hf8 := patch_forward_end_flags h8
      obtain ⟨ce9, hce9, hst9⟩ := emitByte_ok h9
      have hs10 := matchTok_scan h10
      have hf12 := patch_forward_end_flags h
      have hmono : st.had_error = true → st'.had_error = true := by
        intro hh
        refine hf12.1 (hn11.1 (hs10.2.1 ?_))
        rw [hst9, setCurr_had_error]
        refine hf8.1 ?_
        rw [hf7.1]
        refine hn6.1 ?_
        rw [hst5, setCurr_had_error, hf4.1]
        exact hs3.2.1 (hn2.1 (hs1.2.1 hh))
      have hpanic5 : PanicInv st4 → PanicInv st5 := by
        intro hp hh
        rw [hst5, setCurr_had_error]
        rw [hst5, setCurr_is_panic] at hh
        exact hp hh
      have hpanic4 : PanicInv st3 → PanicInv st4 := by
        intro hp hh
        rw [hf4.1]
        apply hp
        rw [← hf4.2]
        exact hh
      have hpanic7 : PanicInv st6 → PanicInv st7 := by
        intro hp hh
        rw [hf7.1]
        apply hp
        rw [← hf7.2]
        exact hh
      have hpanic9 : PanicInv st8 → PanicInv st9 := by
        intro hp hh
        rw [hst9, setCurr_had_error]
        rw [hst9, setCurr_is_panic] at hh
        exact hp hh
      have hpanic : PanicInv st → PanicInv st' := fun hp =>
        hf12.2 (hn11.2.1 (hs10.2.2 (hpanic9 (hf8.2 (hpanic7 (hn6.2.1 (hpanic5 (hpanic4
          (hs3.2.2 (hn2.2.1 (hs1.2.2 hp)))))))))))
      refine ⟨hmono, hpanic, ?_⟩
      intro hpi hhe c l P hc hg
      have hpi1 := hs1.2.2 hpi
      have hpi2 := hn2.2.1 hpi1
      have hpi3 := hs3.2.2 hpi2
      have hpi4 := hpanic4 hpi3
      have hpi5 := hpanic5 hpi4
      have hpi6 := hn6.2.1 hpi5
      have hpi7 := hpanic7 hpi6
      have hpi8 := hf8.2 hpi7
      have hpi9 := hpanic9 hpi8
      have hpi10 := hs10.2.2 hpi9
      have hpi11 := hn11.2.1 hpi10
      have hh11 : st11.had_error = false := had_false_back hf12.1 hhe
      have hh10 : st10.had_error = false := had_false_back hn11.1 hh11
      have hh9 : st9.had_error = false := had_false_back hs10.2.1 hh10
      have hh8 : st8.had_error = false := by
        rw [hst9, setCurr_had_error] at hh9
        exact hh9
      have hh7 : st7.had_error = false := had_false_back hf8.1 hh8
      have hh6 : st6.had_error = false := by
        rw [← hf7.1]
        exact hh7
      have hh5 : st5.had_error = false := had_false_back hn6.1 hh6
      have hh2 : st2.had_error = false := by
        have hh4 : st4.had_error = false := by
          rw [hst5, setCurr_had_error] at hh5
          exact hh5
        have hh3 : st3.had_error = false := by
          rw [← hf4.1]
          exact hh4
        exact had_false_back hs3.2.1 hh3
      -- walk
      have hlast1 : st1.contexts.getLast? = some c := by
        rw [hs1.1]
        exact hc
      obtain ⟨c2, l2, hctx2, hlen2, hg2, hbd2⟩ := hn2.2.2 hpi1 hh2 _ _ _ hlast1 hg
      have hlast3 : st3.contexts.getLast? = some c2 := by
        rw [hs3.1]
        exact last_of_concat hctx2
      obtain ⟨c4, hctx4, hs4a, hs4b, hs4c, hip4, hhe4, hjf, hlen4, hg4⟩ :=
        patch_forward_begin_good hlast3 hg2 (Or.inr rfl) h4
      have hlast4 : st4.contexts.getLast? = some c4 := last_of_concat hctx4
      rw [show ce5 = c4 from Option.some.inj (hce5.symm.trans hlast4)] at hst5
      have hg5 : Good ({ c4 with chunk := c4.chunk.write_code (OpCode.toByte .Pop) st4.previous.line } : Ctx).chunk
          ((l2 ++ [⟨.JumpFalse, [255, 255]⟩]) ++ [⟨.Pop, []⟩]) (fun p => P p ∨ p = jf) :=
        Good_append_nonjump hg4 (write_code_code _ _ _) (write_code_functions _ _ _) rfl rfl
      have hctx5 : st5.contexts = st4.contexts.dropLast ++ [{ c4 with chunk := c4.chunk.write_code (OpCode.toByte .Pop) st4.previous.line }] := by
        rw [hst5, setCurr_contexts]
      have hlast5 := last_of_concat hctx5
      obtain ⟨c6, l6, hctx6, hlen6, hg6, hbd6⟩ := hn6.2.2 hpi5 hh6 _ _ _ hlast5 hg5
      have hlast6 := last_of_concat hctx6
      obtain ⟨c7, hctx7, hs7a, hs7b, hs7c, hip7, hhe7, hj, hlen7, hg7⟩ :=
        patch_forward_begin_good hlast6 hg6 (Or.inl rfl) h7
      have hlast7 := last_of_concat hctx7
      -- length facts
      have hLl : (instrsBytes l).length = c.chunk.code.length := by rw [hg.1]
      have hL2 : (instrsBytes l2).length = c2.chunk.code.length := by rw [hg2.1]
      have hL6 : (instrsBytes l6).length = c6.chunk.code.length := by rw [hg6.1]
      have hPopLen5 : ({ c4 with chunk := c4.chunk.write_code (OpCode.toByte .Pop) st4.previous.line } : Ctx).chunk.code.length = c4.chunk.code.length + 1 :=
        write_code_length _ _ _
      have hPlt : ∀ p, P p → p < jf := fun p hp => by
        have := Good_pending_lt hg hp
        omega
      have hjlt : jf < j := by omega
      obtain ⟨c8, l8, hctx8, hs8a, hs8b, hs8c, hip8, hhe8, hlen8, hg8, hl8len, hl8st⟩ :=
        patch_forward_end_good hlast7 hg7 (Or.inl (Or.inr rfl)) hpi7 hh8 h8
      have hlast8 := last_of_concat hctx8
      have hg8x : Good c8.chunk l8 (fun p => P p ∨ p = j) := by
        refine Good_congr (fun p => ⟨?_, ?_⟩) hg8
        · rintro ⟨(hp | hpe) | hpe, hne⟩
          · exact Or.inl hp
          · exact absurd hpe hne
          · exact Or.inr hpe
        · rintro (hp | hpe)
          · exact ⟨Or.inl (Or.inl hp), by have := hPlt p hp; omega⟩
          · exact ⟨Or.inr hpe, by omega⟩
      rw [show ce9 = c8 from Option.some.inj (hce9.symm.trans hlast8)] at hst9
      have hg9 : Good ({ c8 with chunk := c8.chunk.write_code (OpCode.toByte .Pop) st8.previous.line } : Ctx).chunk
          (l8 ++ [⟨.Pop, []⟩]) (fun p => P p ∨ p = j) :=
        Good_append_nonjump hg8x (write_code_code _ _ _) (write_code_functions _ _ _) rfl rfl
      have hctx9 : st9.contexts = st8.contexts.dropLast ++ [{ c8 with chunk := c8.chunk.write_code (OpCode.toByte .Pop) st8.previous.line }] := by
        rw [hst9, setCurr_contexts]
      have hlast10 : st10.contexts.getLast? = some { c8 with chunk := c8.chunk.write_code (OpCode.toByte .Pop) st8.previous.line } := by
        rw [hs10.1]
        exact last_of_concat hctx9
      obtain ⟨c11, l11, hctx11, hlen11, hg11, hbd11⟩ :=
        hn11.2.2 hpi10 hh11 _ _ _ hlast10 hg9
      have hlast11 := last_of_concat hctx11
      obtain ⟨c12, l12, hctx12, hs12a, hs12b, hs12c, hip12, hhe12, hlen12, hg12, hl12len, hl12st⟩ :=
        patch_forward_end_good hlast11 hg11 (Or.inr rfl) hpi11 hhe h
      have hPopLen9 : ({ c8 with chunk := c8.chunk.write_code (OpCode.toByte .Pop) st8.previous.line } : Ctx).chunk.code.length = c8.chunk.code.length + 1 :=
        write_code_length _ _ _
      refine ⟨c12, l12, ?_, ?_, ?_, ?_⟩
      · rw [hctx12, drop_of_concat hctx11, drop_of_concat (hs10.1 ▸ hctx9),
          drop_of_concat hctx8, drop_of_concat hctx7, drop_of_concat hctx6,
          drop_of_concat hctx5, drop_of_concat hctx4, drop_of_concat (hs3.1 ▸ hctx2),
          drop_of_concat (hs1.1.trans (eq_dropLast_concat hc))]
      · omega
      · refine Good_congr (fun p => ⟨?_, ?_⟩) hg12
        · rintro ⟨hp | hpe, hne⟩
          · exact hp
          · exact absurd hpe hne
        · intro hp
          exact ⟨Or.inl hp, by have := hPlt p hp; omega⟩
      · intro t ht
        refine Boundary_of_eq hl12st hl12len (hbd11 t (Boundary_append _ ?_))
        refine Boundary_of_eq hl8st hl8len (Boundary_append _ ?_)
        exact hbd6 t (Boundary_append _ (Boundary_append _ (hbd2 t ht)))
    | whileStatement =>
      show NeutralSpec st st'
      unfold comp at h
      try dsimp only at h
      obtain ⟨ctx0, hctx0, h⟩ := bind_ok h
      try dsimp only at h
      split at h
      · exact Except.noConfusion h
      · next hsz =>
        obtain ⟨st1, h1, h⟩ := bind_ok h
        obtain ⟨st2, h2, h⟩ := bind_ok h
        obtain ⟨st3, h3, h⟩ := bind_ok h
        obtain ⟨⟨jf, st4⟩, h4, h⟩ := bind_ok h
        try dsimp only at h
        obtain ⟨st5, h5, h⟩ := bind_ok h
        obtain ⟨st6, h6, h⟩ := bind_ok h
        obtain ⟨st7, h7, h⟩ := bind_ok h
        obtain ⟨st8, h8, h⟩ := bind_ok h
        have hs1 := consume_scan h1
        have hn2 : NeutralSpec st1 st2 := IH _ _ _ h2
        have hs3 := consume_scan h3
        have hf4 := patch_forward_begin_flags h4
        obtain ⟨ce5, hce5, hst5⟩ := emitByte_ok h5
        have hn6 : NeutralSpec st5 st6 := IH _ _ _ h6
        have hb7 := patch_back_flags h7
        have hf8 := patch_forward_end_flags h8
        obtain ⟨ce9, hce9, hst9⟩ := emitByte_ok h
        have hmono : st.had_error = true → st'.had_error = true := by
          intro hh
          rw [hst9, setCurr_had_error]
          refine hf8.1 (hb7.1 (hn6.1 ?_))
          rw [hst5, setCurr_had_error, hf4.1]
          exact hs3.2.1 (hn2.1 (hs1.2.1 hh))
        have hpanic5 : PanicInv st4 → PanicInv st5 := by
          intro hp hh
          rw [hst5, setCurr_had_error]
          rw [hst5, setCurr_is_panic] at hh
          exact hp hh
        have hpanic4 : PanicInv st3 → PanicInv st4 := by
          intro hp hh
          rw [hf4.1]
          apply hp
          rw [← hf4.2]
          exact hh
        have hpanic9 : PanicInv st8 → PanicInv st' := by
          intro hp hh
          rw [hst9, setCurr_had_error]
          rw [hst9, setCurr_is_panic] at hh
          exact hp hh
        have hpanic : PanicInv st → PanicInv st' := fun hp =>
          hpanic9 (hf8.2 (hb7.2 (hn6.2.1 (hpanic5 (hpanic4
            (hs3.2.2 (hn2.2.1 (hs1.2.2 hp))))))))
        refine ⟨hmono, hpanic, ?_⟩
        intro hpi hhe c l P hc hg
        have hpi1 := hs1.2.2 hpi
        have hpi2 := hn2.2.1 hpi1
        have hpi3 := hs3.2.2 hpi2
        have hpi4 := hpanic4 hpi3
        have hpi5 := hpanic5 hpi4
        have hpi6 := hn6.2.1 hpi5
        have hpi7 := hb7.2 hpi6
        have hh8 : st8.had_error = false := by
          have hx := hhe
          rw [hst9, setCurr_had_error] at hx
          exact hx
        have hh7 : st7.had_error = false := had_false_back hf8.1 hh8
        have hh6 : st6.had_error = false := had_false_back hb7.1 hh7
        have hh5 : st5.had_error = false := had_false_back hn6.1 hh6
        have hh2 : st2.had_error = false := by
          have hh4 : st4.had_error = false := by
            rw [hst5, setCurr_had_error] at hh5
            exact hh5
          have hh3 : st3.had_error = false := by
            rw [← hf4.1]
            exact hh4
          exact had_false_back hs3.2.1 hh3
        -- the recorded loop start is the current end of code, a boundary
        have hceq : ctx0 = c := Except.ok.inj (hctx0.symm.trans (currCtxE_ok hc))
        have hsize0 : ctx0.chunk.code_size = (instrsBytes l).length := by
          rw [hceq]
          show c.chunk.code.length = _
          rw [hg.1]
        have hbS : Boundary l (ctx0.chunk.code_size - 1 + 1) := Or.inr (by omega)
        -- walk
        have hlast1 : st1.contexts.getLast? = some c := by
          rw [hs1.1]
          exact hc
        obtain ⟨c2, l2, hctx2, hlen2, hg2, hbd2⟩ := hn2.2.2 hpi1 hh2 _ _ _ hlast1 hg
        have hlast3 : st3.contexts.getLast? = some c2 := by
          rw [hs3.1]
          exact last_of_concat hctx2
        obtain ⟨c4, hctx4, hs4a, hs4b, hs4c, hip4, hhe4, hjf, hlen4, hg4⟩ :=
          patch_forward_begin_good hlast3 hg2 (Or.inr rfl) h4
        have hlast4 : st4.contexts.getLast? = some c4 := last_of_concat hctx4
        rw [show ce5 = c4 from Option.some.inj (hce5.symm.trans hlast4)] at hst5
        have hg5 : Good ({ c4 with chunk := c4.chunk.write_code (OpCode.toByte .Pop) st4.previous.line } : Ctx).chunk
            ((l2 ++ [⟨.JumpFalse, [255, 255]⟩]) ++ [⟨.Pop, []⟩]) (fun p => P p ∨ p = jf) :=
          Good_append_nonjump hg4 (write_code_code _ _ _) (write_code_functions _ _ _) rfl rfl
        have hctx5 : st5.contexts = st4.contexts.dropLast ++ [{ c4 with chunk := c4.chunk.write_code (OpCode.toByte .Pop) st4.previous.line }] := by
          rw [hst5, setCurr_contexts]
        have hlast5 := last_of_concat hctx5
        obtain ⟨c6, l6, hctx6, hlen6, hg6, hbd6⟩ := hn6.2.2 hpi5 hh6 _ _ _ hlast5 hg5
        have hlast6 := last_of_concat hctx6
        have hbB : Boundary l6 (ctx0.chunk.code_size - 1 + 1) :=
          hbd6 _ (Boundary_append _ (Boundary_append _ (hbd2 _ hbS)))
        obtain ⟨c7, i7, hctx7, hs7a, hs7b, hs7c, hip7, hhe7, hlen7, hg7⟩ :=
          patch_back_good hlast6 hg6 hbB hpi6 hh7 h7
        have hlast7 := last_of_concat hctx7
        obtain ⟨c8, l8, hctx8, hs8a, hs8b, hs8c, hip8, hhe8, hlen8, hg8, hl8len, hl8st⟩ :=
          patch_forward_end_good hlast7 hg7 (Or.inr rfl) hpi7 hh8 h8
        have hlast8 := last_of_concat hctx8
        rw [show ce9 = c8 from Option.some.inj (hce9.symm.trans hlast8)] at hst9
        -- length facts
        have hLl : (instrsBytes l).length = c.chunk.code.length := by rw [hg.1]
        have hL2 : (instrsBytes l2).length = c2.chunk.code.length := by rw [hg2.1]
        have hPlt : ∀ p, P p → p < jf := fun p hp => by
          have := Good_pending_lt hg hp
          omega
        have hg8x : Good c8.chunk l8 P := by
          refine Good_congr (fun p => ⟨?_, ?_⟩) hg8
          · rintro ⟨hp | hpe, hne⟩
            · exact hp
            · exact absurd hpe hne
          · intro hp
            exact ⟨Or.inl hp, by have := hPlt p hp; omega⟩
        have hg9 : Good ({ c8 with chunk := c8.chunk.write_code (OpCode.toByte .Pop) st8.previous.line } : Ctx).chunk
            (l8 ++ [⟨.Pop, []⟩]) P :=
          Good_append_nonjump hg8x (write_code_code _ _ _) (write_code_functions _ _ _) rfl rfl
        have hPopLen5 : ({ c4 with chunk := c4.chunk.write_code (OpCode.toByte .Pop) st4.previous.line } : Ctx).chunk.code.length = c4.chunk.code.length + 1 :=
          write_code_length _ _ _
        have hPopLen9 : ({ c8 with chunk := c8.chunk.write_code (OpCode.toByte .Pop) st8.previous.line } : Ctx).chunk.code.length = c8.chunk.code.length + 1 :=
          write_code_length _ _ _
        refine ⟨_, l8 ++ [⟨.Pop, []⟩], ?_, ?_, hg9, ?_⟩
        · rw [hst9, setCurr_contexts, drop_of_concat hctx8, drop_of_concat hctx7,
            drop_of_concat hctx6, drop_of_concat hctx5, drop_of_concat hctx4,
            drop_of_concat (hs3.1 ▸ hctx2),
            drop_of_concat (hs1.1.trans (eq_dropLast_concat hc))]
        · omega
        · intro t ht
          refine Boundary_append _ ?_
          refine Boundary_of_eq hl8st hl8len ?_
          refine Boundary_append _ ?_
          exact hbd6 t (Boundary_append _ (Boundary_append _ (hbd2 t ht)))
    | forStatement =>
      show NeutralSpec st st'
      unfold comp at h
      try dsimp only at h
      obtain ⟨st1, h1, h⟩ := bind_ok h
      obtain ⟨st2, h2, h⟩ := bind_ok h
      obtain ⟨st3, h3, h⟩ := bind_ok h
      obtain ⟨ctx0, hctx0, h⟩ := bind_ok h
      try dsimp only at h
      split at h
      · exact Except.noConfusion h
      · next hsz =>
        obtain ⟨⟨semiM, st4⟩, h4, h⟩ := bind_ok h
        try dsimp only at h
        obtain ⟨⟨jfOpt, st5⟩, h5, h⟩ := bind_ok h
        try dsimp only at h
        obtain ⟨⟨rpM, st6⟩, h6, h⟩ := bind_ok h
        try dsimp only at h
        obtain ⟨⟨startOff2, st7⟩, h7, h⟩ := bind_ok h
        try dsimp only at h
        obtain ⟨st8, h8, h⟩ := bind_ok h
        obtain ⟨st9, h9, h⟩ := bind_ok h
        obtain ⟨st10, h10, h⟩ := bind_ok h
        have hn1 : NeutralSpec st st1 := scoop_begin_neutral h1
        have hs2 := consume_scan h2
        have hn3 : NeutralSpec st2 st3 := by
          split at h3
          · exact neutral_of_scan (advanceTok_scan h3)
          · obtain ⟨sa, ha, hb⟩ := bind_ok h3
            exact (neutral_of_scan (advanceTok_scan ha)).trans (IH _ _ _ hb)
          · exact IH _ _ _ h3
        have hs4 := matchTok_scan h4
        have hfl5 : (st4.had_error = true → st5.had_error = true)
            ∧ (PanicInv st4 → PanicInv st5) := by
          split at h5
          · have hst : st4 = st5 := congrArg Prod.snd (Except.ok.inj h5)
            rw [← hst]
            exact ⟨fun hh => hh, fun hp => hp⟩
          · obtain ⟨sa, ha, h5'⟩ := bind_ok h5
            obtain ⟨sb, hb, h5'⟩ := bind_ok h5'
            obtain ⟨⟨jf0, sc⟩, hcp, h5'⟩ := bind_ok h5'
            try dsimp only at h5'
            obtain ⟨sd, hd, h5'⟩ := bind_ok h5'
            have hst : sd = st5 := congrArg Prod.snd (Except.ok.inj h5')
            have hna := IH _ _ _ ha
            have hsb := consume_scan hb
            have hfc := patch_forward_begin_flags hcp
            obtain ⟨ced, hced, hstd⟩ := emitByte_ok hd
            rw [← hst]
            constructor
            · intro hh
              rw [hstd, setCurr_had_error, hfc.1]
              exact hsb.2.1 (hna.1 hh)
            · intro hp
              intro hh
              rw [hstd, setCurr_had_error]
              rw [hstd, setCurr_is_panic] at hh
              rw [hfc.1]
              refine hsb.2.2 (hna.2.1 hp) ?_
              rw [← hfc.2]
              exact hh
        have hs6 := matchTok_scan h6
        have hfl7 : (st6.had_error = true → st7.had_error = true)
            ∧ (PanicInv st6 → PanicInv st7) := by
          split at h7
          · have hst : st6 = st7 := congrArg Prod.snd (Except.ok.inj h7)
            rw [← hst]
            exact ⟨fun hh => hh, fun hp => hp⟩
          · obtain ⟨⟨j0, sa⟩, hjp, h7'⟩ := bind_ok h7
            try dsimp only at h7'
            obtain ⟨ctxI, hctxI, h7'⟩ := bind_ok h7'
            try dsimp only at h7'
            split at h7'
            · exact Except.noConfusion h7'
            · obtain ⟨sb, hb, h7'⟩ := bind_ok h7'
              obtain ⟨sc, hc2, h7'⟩ := bind_ok h7'
              obtain ⟨sd, hd, h7'⟩ := bind_ok h7'
              obtain ⟨se, he, h7'⟩ := bind_ok h7'
              obtain ⟨sf, hf, h7'⟩ := bind_ok h7'
              have hst : sf = st7 := congrArg Prod.snd (Except.ok.inj h7')
              have hffj := patch_forward_begin_flags hjp
              have hnb := IH _ _ _ hb
              obtain ⟨cec, hcec, hstc⟩ := emitByte_ok hc2
              have hsd := consume_scan hd
              have hbe := patch_back_flags he
              have hff := patch_forward_end_flags hf
              rw [← hst]
              constructor
              · intro hh
                refine hff.1 (hbe.1 (hsd.2.1 ?_))
                rw [hstc, setCurr_had_error]
                refine hnb.1 ?_
                rw [hffj.1]
                exact hh
              · intro hp
                refine hff.2 (hbe.2 (hsd.2.2 ?_))
                intro hh
                rw [hstc, setCurr_had_error]
                rw [hstc, setCurr_is_panic] at hh
                refine hnb.2.1 ?_ hh
                intro hh2
                rw [hffj.1]
                apply hp
                rw [← hffj.2]
                exact hh2
        have hn8 : NeutralSpec st7 st8 := IH _ _ _ h8
        have hb9 := patch_back_flags h9
        have hfl10 : (st9.had_error = true → st10.had_error = true)
            ∧ (PanicInv st9 → PanicInv st10) := by
          split at h10
          · obtain ⟨sa, ha, hb⟩ := bind_ok h10
            have hfa := patch_forward_end_flags ha
            obtain ⟨ceb, hceb, hstb⟩ := emitByte_ok hb
            constructor
            · intro hh
              rw [hstb, setCurr_had_error]
              exact hfa.1 hh
            · intro hp hh
              rw [hstb, setCurr_had_error]
              rw [hstb, setCurr_is_panic] at hh
              exact hfa.2 hp hh
          · have hst : st9 = st10 := Except.ok.inj h10
            rw [← hst]
            exact ⟨fun hh => hh, fun hp => hp⟩
        have hse : NeutralSpec st10 st' := scoop_end_neutral h
        have hmono : st.had_error = true → st'.had_error = true := fun hh =>
          hse.1 (hfl10.1 (hb9.1 (hn8.1 (hfl7.1 (hs6.2.1 (hfl5.1 (hs4.2.1
            (hn3.1 (hs2.2.1 (hn1.1 hh))))))))))
        have hpanic : PanicInv st → PanicInv st' := fun hp =>
          hse.2.1 (hfl10.2 (hb9.2 (hn8.2.1 (hfl7.2 (hs6.2.2 (hfl5.2 (hs4.2.2
            (hn3.2.1 (hs2.2.2 (hn1.2.1 hp))))))))))
        refine ⟨hmono, hpanic, ?_⟩
        intro hpi hhe c l P hc hg
        have hpi1 := hn1.2.1 hpi
        have hpi2 := hs2.2.2 hpi1
        have hpi3 := hn3.2.1 hpi2
        have hpi4 := hs4.2.2 hpi3
        have hpi5 := hfl5.2 hpi4
        have hpi6 := hs6.2.2 hpi5
        have hpi7 := hfl7.2 hpi6
        have hpi8 := hn8.2.1 hpi7
        have hpi9 := hb9.2 hpi8
        have hpi10 := hfl10.2 hpi9
        have hh10 : st10.had_error = false := had_false_back hse.1 hhe
        have hh9 : st9.had_error = false := had_false_back hfl10.1 hh10
        have hh8 : st8.had_error = false := had_false_back hb9.1 hh9
        have hh7 : st7.had_error = false := had_false_back hn8.1 hh8
        have hh6 : st6.had_error = false := had_false_back hfl7.1 hh7
        have hh5 : st5.had_error = false := had_false_back hs6.2.1 hh6
        have hh4 : st4.had_error = false := had_false_back hfl5.1 hh5
        have hh3 : st3.had_error = false := had_false_back hs4.2.1 hh4
        have hh2 : st2.had_error = false := had_false_back hn3.1 hh3
        have hh1 : st1.had_error = false := had_false_back hs2.2.1 hh2
        -- walk
        obtain ⟨c1, l1, hctx1, hlen1, hg1, hbd1⟩ := hn1.2.2 hpi hh1 _ _ _ hc hg
        have hlast1 := last_of_concat hctx1
        have hlast2 : st2.contexts.getLast? = some c1 := by
          rw [hs2.1]
          exact hlast1
        obtain ⟨c3, l3, hctx3, hlen3, hg3, hbd3⟩ := hn3.2.2 hpi2 hh3 _ _ _ hlast2 hg1
        have hlast3 := last_of_concat hctx3
        have hceq : ctx0 = c3 := Except.ok.inj (hctx0.symm.trans (currCtxE_ok hlast3))
        have hsize0 : ctx0.chunk.code_size = (instrsBytes l3).length := by
          rw [hceq]
          show c3.chunk.code.length = _
          rw [hg3.1]
        have hbS : Boundary l3 (ctx0.chunk.code_size - 1 + 1) := Or.inr (by omega)
        have hlast4 : st4.contexts.getLast? = some c3 := by
          rw [hs4.1]
          exact hlast3
        have hstep5 : ∃ c5 l5, st5.contexts = st4.contexts.dropLast ++ [c5]
            ∧ c3.chunk.code.length ≤ c5.chunk.code.length
            ∧ Good c5.chunk l5 (fun p => P p ∨ jfOpt = some p)
            ∧ (∀ t, Boundary l3 t → Boundary l5 t)
            ∧ (∀ jf, jfOpt = some jf → ∀ p, P p → p < jf) := by
          split at h5
          · have hpr := Except.ok.inj h5
            have hj : (none : Option Nat) = jfOpt := congrArg Prod.fst hpr
            have hst : st4 = st5 := congrArg Prod.snd hpr
            refine ⟨c3, l3, ?_, Nat.le.refl, ?_, fun _ ht => ht, ?_⟩
            · rw [← hst]
              exact eq_dropLast_concat hlast4
            · refine Good_congr (fun p => ⟨fun hp => Or.inl hp, ?_⟩) hg3
              rintro (hp | hps)
              · exact hp
              · rw [← hj] at hps
                exact Option.noConfusion hps
            · intro jf hjf
              rw [← hj] at hjf
              exact Option.noConfusion hjf
          · obtain ⟨sa, ha, h5'⟩ := bind_ok h5
            obtain ⟨sb, hb, h5'⟩ := bind_ok h5'
            obtain ⟨⟨jf0, sc⟩, hcp, h5'⟩ := bind_ok h5'
            try dsimp only at h5'
            obtain ⟨sd, hd, h5'⟩ := bind_ok h5'
            have hpr := Except.ok.inj h5'
            have hj : (some jf0 : Option Nat) = jfOpt := congrArg Prod.fst hpr
            have hst : sd = st5 := congrArg Prod.snd hpr
            have hna := IH _ _ _ ha
            have hsb := consume_scan hb
            have hfc := patch_forward_begin_flags hcp
            obtain ⟨ced, hced, hstd⟩ := emitByte_ok hd
            have hhd2 : sd.had_error = false := by
              rw [hst]
              exact hh5
            have hhc2 : sc.had_error = false := by
              have hx := hhd2
              rw [hstd, setCurr_had_error] at hx
              exact hx
            have hhb2 : sb.had_error = false := by
              rw [← hfc.1]
              exact hhc2
            have hha2 : sa.had_error = false := had_false_back hsb.2.1 hhb2
            obtain ⟨ca, la, hctxa, hlena, hga, hbda⟩ := hna.2.2 hpi4 hha2 _ _ _ hlast4 hg3
            have hlasta := last_of_concat hctxa
            have hlastb : sb.contexts.getLast? = some ca := by
              rw [hsb.1]
              exact hlasta
            obtain ⟨cc, hctxc, hxa, hxb, hxc, hxd, hxe, hjf0, hlenc, hgc⟩ :=
              patch_forward_begin_good hlastb hga (Or.inr rfl) hcp
            have hlastc := last_of_concat hctxc
            rw [show ced = cc from Option.some.inj (hced.symm.trans hlastc)] at hstd
            have hgd : Good ({ cc with chunk := cc.chunk.write_code (OpCode.toByte .Pop) sc.previous.line } : Ctx).chunk
                ((la ++ [⟨.JumpFalse, [255, 255]⟩]) ++ [⟨.Pop, []⟩]) (fun p => P p ∨ p = jf0) :=
              Good_append_nonjump hgc (write_code_code _ _ _) (write_code_functions _ _ _) rfl rfl
            have hPopLenD : ({ cc with chunk := cc.chunk.write_code (OpCode.toByte .Pop) sc.previous.line } : Ctx).chunk.code.length = cc.chunk.code.length + 1 :=
              write_code_length _ _ _
            refine ⟨{ cc with chunk := cc.chunk.write_code (OpCode.toByte .Pop) sc.previous.line }, (la ++ [⟨.JumpFalse, [255, 255]⟩]) ++ [⟨.Pop, []⟩], ?_, ?_, ?_, ?_, ?_⟩
            · rw [← hst, hstd, setCurr_contexts, drop_of_concat hctxc,
                drop_of_concat (hsb.1 ▸ hctxa)]
            · omega
            · refine Good_congr (fun p => ⟨?_, ?_⟩) hgd
              · rintro (hp | hpe)
                · exact Or.inl hp
                · refine Or.inr ?_
                  rw [← hj, hpe]
              · rintro (hp | hps)
                · exact Or.inl hp
                · rw [← hj] at hps
                  exact Or.inr (Option.some.inj hps).symm
            · intro t ht
              exact Boundary_append _ (Boundary_append _ (hbda t ht))
            · intro jf hjf p hp
              have hjj : jf0 = jf := Option.some.inj (hj.trans hjf)
              have hx1 := Good_pending_lt hg3 hp
              have hx2 : (instrsBytes l3).length = c3.chunk.code.length := by rw [hg3.1]
              have hx3 : (instrsBytes la).length = ca.chunk.code.length := by rw [hga.1]
              omega
        obtain ⟨c5, l5, hctx5, hlen5, hg5, hbd5, hjfb⟩ := hstep5
        have hlast5 := last_of_concat hctx5
        have hlast6 : st6.contexts.getLast? = some c5 := by
          rw [hs6.1]
          exact hlast5
        have hstep7 : ∃ c7 l7, st7.contexts = st6.contexts.dropLast ++ [c7]
            ∧ c5.chunk.code.length ≤ c7.chunk.code.length
            ∧ Good c7.chunk l7 (fun p => P p ∨ jfOpt = some p)
            ∧ (∀ t, Boundary l5 t → Boundary l7 t)
            ∧ Boundary l7 (startOff2 + 1) := by
          split at h7
          · have hpr := Except.ok.inj h7
            have hso : ctx0.chunk.code_size - 1 = startOff2 := congrArg Prod.fst hpr
            have hst : st6 = st7 := congrArg Prod.snd hpr
            refine ⟨c5, l5, ?_, Nat.le.refl, hg5, fun _ ht => ht, ?_⟩
            · rw [← hst]
              exact eq_dropLast_concat hlast6
            · rw [← hso]
              exact hbd5 _ hbS
          · obtain ⟨⟨j0, sa⟩, hjp, h7'⟩ := bind_ok h7
            try dsimp only at h7'
            obtain ⟨ctxI, hctxI, h7'⟩ := bind_ok h7'
            try dsimp only at h7'
            split at h7'
            · exact Except.noConfusion h7'
            · next hszI =>
              obtain ⟨sb, hb, h7'⟩ := bind_ok h7'
              obtain ⟨sc, hc2, h7'⟩ := bind_ok h7'
              obtain ⟨sd, hd, h7'⟩ := bind_ok h7'
              obtain ⟨se, he, h7'⟩ := bind_ok h7'
              obtain ⟨sf, hf, h7'⟩ := bind_ok h7'
              have hpr := Except.ok.inj h7'
              have hio : ctxI.chunk.code_size - 1 = startOff2 := congrArg Prod.fst hpr
              have hst : sf = st7 := congrArg Prod.snd hpr
              have hffj := patch_forward_begin_flags hjp
              have hnb := IH _ _ _ hb
              obtain ⟨cec, hcec, hstc⟩ := emitByte_ok hc2
              have hsd := consume_scan hd
              have hbe := patch_back_flags he
              have hff := patch_forward_end_flags hf
              have hhf2 : sf.had_error = false := by
                rw [hst]
                exact hh7
              have hhe2 : se.had_error = false := had_false_back hff.1 hhf2
              have hhd2 : sd.had_error = false := had_false_back hbe.1 hhe2
              have hhc2 : sc.had_error = false := had_false_back hsd.2.1 hhd2
              have hhb2 : sb.had_error = false := by
                have hx := hhc2
                rw [hstc, setCurr_had_error] at hx
                exact hx
              have hpia : PanicInv sa := by
                intro hh
                rw [hffj.1]
                apply hpi6
                rw [← hffj.2]
                exact hh
              have hpib := hnb.2.1 hpia
              have hpic : PanicInv sc := by
                intro hh
                rw [hstc, setCurr_had_error]
                rw [hstc, setCurr_is_panic] at hh
                exact hpib hh
              have hpid := hsd.2.2 hpic
              have hpie := hbe.2 hpid
              obtain ⟨ca, hctxa, hya, hyb, hyc, hyd, hye, hj0, hlena, hga⟩ :=
                patch_forward_begin_good hlast6 hg5 (Or.inl rfl) hjp
              have hlasta := last_of_concat hctxa
              have hceqI : ctxI = ca := Except.ok.inj (hctxI.symm.trans (currCtxE_ok hlasta))
              have hsizeI : ctxI.chunk.code_size = (instrsBytes (l5 ++ [⟨.Jump, [255, 255]⟩])).length := by
                rw [hceqI]
                show ca.chunk.code.length = _
                rw [hga.1]
              have hbI : Boundary (l5 ++ [⟨.Jump, [255, 255]⟩]) (ctxI.chunk.code_size - 1 + 1) :=
                Or.inr (by omega)
              obtain ⟨cb, lb, hctxb, hlenb, hgb, hbdb⟩ := hnb.2.2 hpia hhb2 _ _ _ hlasta hga
              have hlastb := last_of_concat hctxb
              rw [show cec = cb from Option.some.inj (hcec.symm.trans hlastb)] at hstc
              have hgc : Good ({ cb with chunk := cb.chunk.write_code (OpCode.toByte .Pop) sb.previous.line } : Ctx).chunk
                  (lb ++ [⟨.Pop, []⟩]) (fun p => (P p ∨ jfOpt = some p) ∨ p = j0) :=
                Good_append_nonjump hgb (write_code_code _ _ _) (write_code_functions _ _ _) rfl rfl
              have hctxc : sc.contexts = sb.contexts.dropLast ++ [{ cb with chunk := cb.chunk.write_code (OpCode.toByte .Pop) sb.previous.line }] := by
                rw [hstc, setCurr_contexts]
              have hlastc := last_of_concat hctxc
              have hlastd : sd.contexts.getLast? = some { cb with chunk := cb.chunk.write_code (OpCode.toByte .Pop) sb.previous.line } := by
                rw [hsd.1]
                exact hlastc
              have hbB : Boundary (lb ++ [⟨.Pop, []⟩]) (ctx0.chunk.code_size - 1 + 1) :=
                Boundary_append _ (hbdb _ (Boundary_append _ (hbd5 _ hbS)))
              obtain ⟨ce', ie, hctxe, hza, hzb, hzc, hzd, hze, hlene, hge⟩ :=
                patch_back_good hlastd hgc hbB hpid hhe2 he
              have hlaste := last_of_concat hctxe
              obtain ⟨cf, lf, hctxf, hwa, hwb, hwc, hwd, hwe, hlenf, hgf, hlflen, hlfst⟩ :=
                patch_forward_end_good hlaste hge (Or.inr rfl) hpie hhf2 hf
              have hQlt : ∀ p, (P p ∨ jfOpt = some p) → p < j0 := fun p hq => by
                have := Good_pending_lt hg5 hq
                omega
              have hgfQ : Good cf.chunk lf (fun p => P p ∨ jfOpt = some p) := by
                refine Good_congr (fun p => ⟨?_, ?_⟩) hgf
                · rintro ⟨hq | hpe, hne⟩
                  · exact hq
                  · exact absurd hpe hne
                · intro hq
                  exact ⟨Or.inl hq, by have := hQlt p hq; omega⟩
              have hPopLenC : ({ cb with chunk := cb.chunk.write_code (OpCode.toByte .Pop) sb.previous.line } : Ctx).chunk.code.length = cb.chunk.code.length + 1 :=
                write_code_length _ _ _
              refine ⟨cf, lf, ?_, ?_, hgfQ, ?_, ?_⟩
              · rw [← hst, hctxf, drop_of_concat hctxe, drop_of_concat (hsd.1 ▸ hctxc),
                  drop_of_concat hctxb, drop_of_concat hctxa]
              · omega
              · intro t ht
                refine Boundary_of_eq hlfst hlflen ?_
                refine Boundary_append _ ?_
                refine Boundary_append _ ?_
                exact hbdb t (Boundary_append _ ht)
              · rw [← hio]
                refine Boundary_of_eq hlfst hlflen ?_
                refine Boundary_append _ ?_
                refine Boundary_append _ ?_
                exact hbdb _ hbI
        obtain ⟨c7, l7, hctx7, hlen7, hg7, hbd7, hb7S⟩ := hstep7
        have hlast7 := last_of_concat hctx7
        obtain ⟨c8, l8, hctx8, hlen8, hg8, hbd8⟩ := hn8.2.2 hpi7 hh8 _ _ _ hlast7 hg7
        have hlast8 := last_of_concat hctx8
        have hbB8 : Boundary l8 (startOff2 + 1) := hbd8 _ hb7S
        obtain ⟨c9, i9, hctx9, h9a, h9b, h9c, h9d, h9e, hlen9, hg9⟩ :=
          patch_back_good hlast8 hg8 hbB8 hpi8 hh9 h9
        have hlast9 := last_of_concat hctx9
        have hcases : jfOpt = none ∨ ∃ off, jfOpt = some off := by
          cases jfOpt
          · exact Or.inl rfl
          · exact Or.inr ⟨_, rfl⟩
        have hstep10 : ∃ c10 l10, st10.contexts = st9.contexts.dropLast ++ [c10]
            ∧ c9.chunk.code.length ≤ c10.chunk.code.length
            ∧ Good c10.chunk l10 P
            ∧ (∀ t, Boundary (l8 ++ [i9]) t → Boundary l10 t) := by
          rcases hcases with hjn | ⟨off, hjs⟩
          · rw [hjn] at h10
            try dsimp only at h10
            have hst : st9 = st10 := Except.ok.inj h10
            refine ⟨c9, l8 ++ [i9], ?_, Nat.le.refl, ?_, fun _ ht => ht⟩
            · rw [← hst]
              exact eq_dropLast_concat hlast9
            · refine Good_congr (fun p => ⟨?_, fun hp => Or.inl hp⟩) hg9
              rintro (hp | hps)
              · exact hp
              · rw [hjn] at hps
                exact Option.noConfusion hps
          · rw [hjs] at h10
            try dsimp only at h10
            obtain ⟨sa, ha, hb⟩ := bind_ok h10
            obtain ⟨ceb, hceb, hstb⟩ := emitByte_ok hb
            have hha2 : sa.had_error = false := by
              have hx := hh10
              rw [hstb, setCurr_had_error] at hx
              exact hx
            obtain ⟨ca, la, hctxa, hwa, hwb, hwc, hwd, hwe, hlena, hga, hlalen, hlast'⟩ :=
              patch_forward_end_good hlast9 hg9 (Or.inr hjs) hpi9 hha2 ha
            have hlasta := last_of_concat hctxa
            rw [show ceb = ca from Option.some.inj (hceb.symm.trans hlasta)] at hstb
            have hPoff : ∀ p, P p → p < off := hjfb off hjs
            have hgaP : Good ca.chunk la P := by
              refine Good_congr (fun p => ⟨?_, ?_⟩) hga
              · rintro ⟨hp | hps, hne⟩
                · exact hp
                · exact absurd (Option.some.inj (hjs.symm.trans hps)).symm hne
              · intro hp
                exact ⟨Or.inl hp, by have := hPoff p hp; omega⟩
            have hgb : Good ({ ca with chunk := ca.chunk.write_code (OpCode.toByte .Pop) sa.previous.line } : Ctx).chunk
                (la ++ [⟨.Pop, []⟩]) P :=
              Good_append_nonjump hgaP (write_code_code _ _ _) (write_code_functions _ _ _) rfl rfl
            have hPopLenB : ({ ca with chunk := ca.chunk.write_code (OpCode.toByte .Pop) sa.previous.line } : Ctx).chunk.code.length = ca.chunk.code.length + 1 :=
              write_code_length _ _ _
            refine ⟨{ ca with chunk := ca.chunk.write_code (OpCode.toByte .Pop) sa.previous.line }, la ++ [⟨.Pop, []⟩], ?_, ?_, hgb, ?_⟩
            · rw [hstb, setCurr_contexts, drop_of_concat hctxa]
            · omega
            · intro t ht
              exact Boundary_append _ (Boundary_of_eq hlast' hlalen ht)
        obtain ⟨c10, l10, hctx10, hlen10, hg10, hbd10⟩ := hstep10
        have hlast10 := last_of_concat hctx10
        obtain ⟨c', l', hctx', hlen', hg', hbd'⟩ := hse.2.2 hpi10 hhe _ _ _ hlast10 hg10
        refine ⟨c', l', ?_, ?_, hg', ?_⟩
        · rw [hctx', drop_of_concat hctx10, drop_of_concat hctx9, drop_of_concat hctx8,
            drop_of_concat hctx7, drop_of_concat (hs6.1 ▸ hctx5),
            drop_of_concat (hs4.1 ▸ hctx3), drop_of_concat (hs2.1 ▸ hctx1)]
        · omega
        · intro t ht
          exact hbd' t (hbd10 t (Boundary_append _ (hbd8 t (hbd7 t (hbd5 t
            (hbd3 t (hbd1 t ht)))))))
    | functionStatement =>
      show NeutralSpec st st'
      unfold comp at h
      try dsimp only at h
      obtain ⟨ctx0, hctx0, h⟩ := bind_ok h
      try dsimp only at h
      obtain ⟨⟨m, st1⟩, h1, h⟩ := bind_ok h
      try dsimp only at h
      have hs1 : ScanSpec st st1 := by
        refine ScanSpec.strans ?_ (matchTok_scan h1)
        split
        · exact throw_error_scan _ _ _
        · exact ScanSpec.srefl _
      split at h
      · have hst' := (Except.ok.inj h).symm
        rw [hst']
        exact (neutral_of_scan hs1).trans (neutral_of_scan (throw_error_scan _ _ _))
      · obtain ⟨ctx1, hctx1, h⟩ := bind_ok h
        try dsimp only at h
        split at h
        · exact Except.noConfusion h
        · next m0 hm0 =>
          split at h
          · have hst' := (Except.ok.inj h).symm
            rw [hst']
            exact (neutral_of_scan hs1).trans (neutral_of_scan (throw_error_scan _ _ _))
          · obtain ⟨st2, h2, h⟩ := bind_ok h
            obtain ⟨ctx2, hctx2, h⟩ := bind_ok h
            try dsimp only at h
            obtain ⟨st3, h3, h⟩ := bind_ok h
            try dsimp only at h
            obtain ⟨cM, h2', hchM⟩ : ∃ cM : Ctx,
                scoop_begin { setCurr st1 cM with contexts := (setCurr st1 cM).contexts ++ [Ctx.new] } = .ok st2
                ∧ cM.chunk = ctx1.chunk := by
              refine ⟨_, h2, ?_⟩
              split
              · rfl
              · rfl
            have hn2 := scoop_begin_neutral h2'
            have hs3 := consume_scan h3
            have hPop : PopSpec st3 st' := by
              split at h
              · exact IH _ _ _ h
              · exact IH _ _ _ h
            have hmono : st.had_error = true → st'.had_error = true := by
              intro hh
              refine hPop.1 (hs3.2.1 ?_)
              show st2.had_error = true
              refine hn2.1 ?_
              show st1.had_error = true
              exact hs1.2.1 hh
            have hpanic : PanicInv st → PanicInv st' := by
              intro hp
              refine hPop.2.1 (hs3.2.2 ?_)
              intro hh
              show st2.had_error = true
              refine hn2.2.1 ?_ (show st2.is_panic = true from hh)
              intro hh2
              show st1.had_error = true
              exact hs1.2.2 hp (show st1.is_panic = true from hh2)
            refine ⟨hmono, hpanic, ?_⟩
            intro hpi hhe c l P hc hg
            have hpi1 := hs1.2.2 hpi
            have hpi2 : PanicInv st2 := hn2.2.1 (fun hh => hpi1 hh)
            have hpi3 : PanicInv st3 := hs3.2.2 (fun hh => hpi2 hh)
            have hh3 : st3.had_error = false := had_false_back hPop.1 hhe
            have hh2 : st2.had_error = false := had_false_back hs3.2.1 hh3
            have hlast1 : st1.contexts.getLast? = some c := by
              rw [hs1.1]
              exact hc
            have hceq1 : ctx1 = c := Except.ok.inj (hctx1.symm.trans (currCtxE_ok hlast1))
            have hchc : cM.chunk = c.chunk := by
              rw [hchM, hceq1]
            have hctxB : ({ setCurr st1 cM with contexts := (setCurr st1 cM).contexts ++ [Ctx.new] } : CompSt).contexts
                = (st.contexts.dropLast ++ [cM]) ++ [Ctx.new] := by
              show (setCurr st1 cM).contexts ++ [Ctx.new] = _
              rw [setCurr_contexts, hs1.1]
            obtain ⟨cN2, l2, hctx2w, hlen2, hg2, hbd2⟩ :=
              hn2.2.2 (fun hh => hpi1 hh) hh2 _ _ _ (last_of_concat hctxB) Good_empty
            have hctx2b : st2.contexts = (st.contexts.dropLast ++ [cM]) ++ [cN2] := by
              rw [hctx2w, drop_of_concat hctxB]
            have hceq2 : ctx2 = cN2 :=
              Except.ok.inj (hctx2.symm.trans (currCtxE_ok (last_of_concat hctx2b)))
            have hctx3a : st3.contexts = (st.contexts.dropLast ++ [cM]) ++ [({ ctx2 with functionName := st1.previous.lexeme } : Ctx)] := by
              rw [hs3.1, setCurr_contexts, drop_of_concat hctx2b]
            have hctx3b : st3.contexts = st.contexts.dropLast ++ [cM, ({ ctx2 with functionName := st1.previous.lexeme } : Ctx)] := by
              rw [hctx3a, List.append_assoc]
              rfl
            have hclg : Good ({ ctx2 with functionName := st1.previous.lexeme } : Ctx).chunk l2 (fun _ => False) := by
              rw [hceq2]
              exact hg2
            have hgM : Good cM.chunk l P := by
              rw [hchc]
              exact hg
            obtain ⟨parent', l', hctxR, hlenR, hgR, hbdR⟩ :=
              hPop.2.2 hpi3 hhe _ _ _ hctx3b ⟨l2, hclg⟩ l P hgM
            refine ⟨parent', l', hctxR, ?_, hgR, hbdR⟩
            rw [← hchc]
            exact hlenR
    | paramsLoop identTok =>
      show PopSpec st st'
      unfold comp at h
      try dsimp only at h
      obtain ⟨ctx0, hctx0, h⟩ := bind_ok h
      try dsimp only at h
      obtain ⟨⟨m, st1⟩, h1, h⟩ := bind_ok h
      try dsimp only at h
      have hs1 := matchTok_scan h1
      split at h
      · obtain ⟨ctx1, hctx1, h⟩ := bind_ok h
        try dsimp only at h
        split at h
        · exact Except.noConfusion h
        · next pm hpm =>
          split at h
          · -- duplicate parameter: recurse into the body from the panicked state
            have hPop : PopSpec (throw_error st1 identTok "Redefined param in curr function") st' :=
              IH _ _ _ h
            refine ⟨?_, ?_, ?_⟩
            · intro hh
              refine hPop.1 ((throw_error_scan _ _ _).2.1 (hs1.2.1 ?_))
              rw [setCurr_had_error]
              exact hh
            · intro hp
              refine hPop.2.1 ((throw_error_scan _ _ _).2.2 (hs1.2.2 ?_))
              intro hh
              rw [setCurr_had_error]
              rw [setCurr_is_panic] at hh
              exact hp hh
            · intro hpi hhe pre parent cl hctxeq hclex l P hgP
              obtain ⟨l0, hcl0⟩ := hclex
              have hassoc : pre ++ [parent, cl] = (pre ++ [parent]) ++ [cl] :=
                (List.append_assoc pre [parent] [cl]).symm
              have hlast : st.contexts.getLast? = some cl :=
                last_of_concat (hctxeq.trans hassoc)
              have hceq0 : ctx0 = cl := Except.ok.inj (hctx0.symm.trans (currCtxE_ok hlast))
              have hpiP : PanicInv (setCurr st { ctx0 with paramsNum := ctx0.paramsNum + 1 }) := by
                intro hh
                rw [setCurr_had_error]
                rw [setCurr_is_panic] at hh
                exact hpi hh
              have hpiT : PanicInv (throw_error st1 identTok "Redefined param in curr function") :=
                (throw_error_scan _ _ _).2.2 (hs1.2.2 hpiP)
              have hctxT : (throw_error st1 identTok "Redefined param in curr function").contexts
                  = pre ++ [parent, ({ ctx0 with paramsNum := ctx0.paramsNum + 1 } : Ctx)] := by
                rw [show pre ++ [parent, ({ ctx0 with paramsNum := ctx0.paramsNum + 1 } : Ctx)] = (pre ++ [parent]) ++ [({ ctx0 with paramsNum := ctx0.paramsNum + 1 } : Ctx)] from (List.append_assoc pre [parent] _).symm,
                  (throw_error_scan _ _ _).1, hs1.1, setCurr_contexts,
                  drop_of_concat (hctxeq.trans hassoc)]
              have hclg : Good ({ ctx0 with paramsNum := ctx0.paramsNum + 1 } : Ctx).chunk l0 (fun _ => False) := by
                rw [hceq0]
                exact hcl0
              exact hPop.2.2 hpiT hhe pre parent _ hctxT ⟨l0, hclg⟩ l P hgP
          · -- fresh parameter: define it and continue
            obtain ⟨⟨cm, st2⟩, h2, h⟩ := bind_ok h
            try dsimp only at h
            have hs2 := matchTok_scan h2
            have hPop : PopSpec st2 st' := by
              split at h
              · exact IH _ _ _ h
              · exact IH _ _ _ h
            refine ⟨?_, ?_, ?_⟩
            · intro hh
              refine hPop.1 (hs2.2.1 ?_)
              rw [setCurr_had_error]
              refine hs1.2.1 ?_
              rw [setCurr_had_error]
              exact hh
            · intro hp
              have hpP : PanicInv (setCurr st { ctx0 with paramsNum := ctx0.paramsNum + 1 }) := by
                intro hh
                rw [setCurr_had_error]
                rw [setCurr_is_panic] at hh
                exact hp hh
              have hp1 := hs1.2.2 hpP
              have hpQ : PanicInv (setCurr st1 { ctx1 with vars := dmInsert ctx1.vars ctx1.depth (imInsert pm st1.previous.lexeme ctx1.localCount), localCount := ctx1.localCount + 1 }) := by
                intro hh
                rw [setCurr_had_error]
                rw [setCurr_is_panic] at hh
                exact hp1 hh
              exact hPop.2.1 (hs2.2.2 hpQ)
            · intro hpi hhe pre parent cl hctxeq hclex l P hgP
              obtain ⟨l0, hcl0⟩ := hclex
              have hassoc : pre ++ [parent, cl] = (pre ++ [parent]) ++ [cl] :=
                (List.append_assoc pre [parent] [cl]).symm
              have hlast : st.contexts.getLast? = some cl :=
                last_of_concat (hctxeq.trans hassoc)
              have hceq0 : ctx0 = cl := Except.ok.inj (hctx0.symm.trans (currCtxE_ok hlast))
              have hctx1a : st1.contexts = (pre ++ [parent]) ++ [({ ctx0 with paramsNum := ctx0.paramsNum + 1 } : Ctx)] := by
                rw [hs1.1, setCurr_contexts, drop_of_concat (hctxeq.trans hassoc)]
              have hceq1 : ctx1 = { ctx0 with paramsNum := ctx0.paramsNum + 1 } :=
                Except.ok.inj (hctx1.symm.trans (currCtxE_ok (last_of_concat hctx1a)))
              have hpiP : PanicInv (setCurr st { ctx0 with paramsNum := ctx0.paramsNum + 1 }) := by
                intro hh
                rw [setCurr_had_error]
                rw [setCurr_is_panic] at hh
                exact hpi hh
              have hpi1 := hs1.2.2 hpiP
              have hpiQ : PanicInv (setCurr st1 { ctx1 with vars := dmInsert ctx1.vars ctx1.depth (imInsert pm st1.previous.lexeme ctx1.localCount), localCount := ctx1.localCount + 1 }) := by
                intro hh
                rw [setCurr_had_error]
                rw [setCurr_is_panic] at hh
                exact hpi1 hh
              have hpi2 := hs2.2.2 hpiQ
              have hctx2a : st2.contexts = pre ++ [parent, ({ ctx1 with vars := dmInsert ctx1.vars ctx1.depth (imInsert pm st1.previous.lexeme ctx1.localCount), localCount := ctx1.localCount + 1 } : Ctx)] := by
                rw [show pre ++ [parent, ({ ctx1 with vars := dmInsert ctx1.vars ctx1.depth (imInsert pm st1.previous.lexeme ctx1.localCount), localCount := ctx1.localCount + 1 } : Ctx)] = (pre ++ [parent]) ++ [({ ctx1 with vars := dmInsert ctx1.vars ctx1.depth (imInsert pm st1.previous.lexeme ctx1.localCount), localCount := ctx1.localCount + 1 } : Ctx)] from (List.append_assoc pre [parent] _).symm,
                  hs2.1, setCurr_contexts, drop_of_concat hctx1a]
              have hclg : Good ({ ctx1 with vars := dmInsert ctx1.vars ctx1.depth (imInsert pm st1.previous.lexeme ctx1.localCount), localCount := ctx1.localCount + 1 } : Ctx).chunk l0 (fun _ => False) := by
                rw [hceq1, hceq0]
                exact hcl0
              exact hPop.2.2 hpi2 hhe pre parent _ hctx2a ⟨l0, hclg⟩ l P hgP
      · -- no identifier: recurse into the body from the panicked state
        have hPop : PopSpec (throw_error st1 st1.current "Expect function param error") st' :=
          IH _ _ _ h
        refine ⟨?_, ?_, ?_⟩
        · intro hh
          refine hPop.1 ((throw_error_scan _ _ _).2.1 (hs1.2.1 ?_))
          rw [setCurr_had_error]
          exact hh
        · intro hp
          refine hPop.2.1 ((throw_error_scan _ _ _).2.2 (hs1.2.2 ?_))
          intro hh
          rw [setCurr_had_error]
          rw [setCurr_is_panic] at hh
          exact hp hh
        · intro hpi hhe pre parent cl hctxeq hclex l P hgP
          obtain ⟨l0, hcl0⟩ := hclex
          have hassoc : pre ++ [parent, cl] = (pre ++ [parent]) ++ [cl] :=
            (List.append_assoc pre [parent] [cl]).symm
          have hlast : st.contexts.getLast? = some cl :=
            last_of_concat (hctxeq.trans hassoc)
          have hceq0 : ctx0 = cl := Except.ok.inj (hctx0.symm.trans (currCtxE_ok hlast))
          have hpiP : PanicInv (setCurr st { ctx0 with paramsNum := ctx0.paramsNum + 1 }) := by
            intro hh
            rw [setCurr_had_error]
            rw [setCurr_is_panic] at hh
            exact hpi hh
          have hpiT : PanicInv (throw_error st1 st1.current "Expect function param error") :=
            (throw_error_scan _ _ _).2.2 (hs1.2.2 hpiP)
          have hctxT : (throw_error st1 st1.current "Expect function param error").contexts
              = pre ++ [parent, ({ ctx0 with paramsNum := ctx0.paramsNum + 1 } : Ctx)] := by
            rw [show pre ++ [parent, ({ ctx0 with paramsNum := ctx0.paramsNum + 1 } : Ctx)] = (pre ++ [parent]) ++ [({ ctx0 with paramsNum := ctx0.paramsNum + 1 } : Ctx)] from (List.append_assoc pre [parent] _).symm,
              (throw_error_scan _ _ _).1, hs1.1, setCurr_contexts,
              drop_of_concat (hctxeq.trans hassoc)]
          have hclg : Good ({ ctx0 with paramsNum := ctx0.paramsNum + 1 } : Ctx).chunk l0 (fun _ => False) := by
            rw [hceq0]
            exact hcl0
          exact hPop.2.2 hpiT hhe pre parent _ hctxT ⟨l0, hclg⟩ l P hgP
    | functionBody identTok =>
      show PopSpec st st'
      unfold comp at h
      try dsimp only at h
      obtain ⟨st1, h1, h⟩ := bind_ok h
      obtain ⟨st2, h2, h⟩ := bind_ok h
      obtain ⟨st3, h3, h⟩ := bind_ok h
      obtain ⟨⟨fn, st4⟩, h4, h⟩ := bind_ok h
      try dsimp only at h
      obtain ⟨ctx4, hctx4, h⟩ := bind_ok h
      try dsimp only at h
      obtain ⟨st5, h5, h⟩ := bind_ok h
      obtain ⟨ctx5, hctx5, h⟩ := bind_ok h
      try dsimp only at h
      obtain ⟨st6, h6, h⟩ := bind_ok h
      try dsimp only at h
      have hs1 := consume_scan h1
      have hs2 := consume_scan h2
      have hn3 : NeutralSpec st2 st3 := IH _ _ _ h3
      have hce := compile_end_spec h4
      obtain ⟨ce5, hce5p, hst5⟩ := emitByte_ok h5
      have hfl6 : (st5.had_error = true → st6.had_error = true)
          ∧ (PanicInv st5 → PanicInv st6) := by
        split at h6
        · have hst6 := (Except.ok.inj h6).symm
          rw [hst6]
          constructor
          · intro hh
            rw [setCurr_had_error]
            exact hh
          · intro hp hh
            rw [setCurr_had_error]
            rw [setCurr_is_panic] at hh
            exact hp hh
        · have hst6 := (Except.ok.inj h6).symm
          rw [hst6]
          exact ⟨fun hh => (throw_error_scan _ _ _).2.1 hh,
            fun hp => (throw_error_scan _ _ _).2.2 hp⟩
      have hflF : (st6.had_error = true → st'.had_error = true)
          ∧ (PanicInv st6 → PanicInv st') := by
        split at h
        · split at h
          · exact Except.noConfusion h
          · split at h
            · exact Except.noConfusion h
            · split at h
              · exact Except.noConfusion h
              · obtain ⟨ctx6, hctx6, h⟩ := bind_ok h
                try dsimp only at h
                split at h
                · have hst' := (Except.ok.inj h).symm
                  rw [hst']
                  constructor
                  · intro hh
                    rw [setCurr_had_error]
                    exact hh
                  · intro hp hh
                    rw [setCurr_had_error]
                    rw [setCurr_is_panic] at hh
                    exact hp hh
                · have hst' := (Except.ok.inj h).symm
                  rw [hst']
                  exact ⟨fun hh => (throw_error_scan _ _ _).2.1 hh,
                    fun hp => (throw_error_scan _ _ _).2.2 hp⟩
        · have hst' := Except.ok.inj h
          rw [← hst']
          exact ⟨fun hh => hh, fun hp => hp⟩
      have hpanic4 : PanicInv st3 → PanicInv st4 := by
        intro hp hh
        rw [hce.2.2.2.2.2.1]
        apply hp
        rw [← hce.2.2.2.2.1]
        exact hh
      have hpanic5 : PanicInv st4 → PanicInv st5 := by
        intro hp hh
        rw [hst5, setCurr_had_error]
        rw [hst5, setCurr_is_panic] at hh
        exact hp hh
      have hmono : st.had_error = true → st'.had_error = true := by
        intro hh
        refine hflF.1 (hfl6.1 ?_)
        rw [hst5, setCurr_had_error, hce.2.2.2.2.2.1]
        exact hn3.1 (hs2.2.1 (hs1.2.1 hh))
      have hpanic : PanicInv st → PanicInv st' := fun hp =>
        hflF.2 (hfl6.2 (hpanic5 (hpanic4 (hn3.2.1 (hs2.2.2 (hs1.2.2 hp))))))
      refine ⟨hmono, hpanic, ?_⟩
      intro hpi hhe pre parent cl hctxeq hclex l P hgP
      obtain ⟨l0, hcl0⟩ := hclex
      have hpi1 := hs1.2.2 hpi
      have hpi2 := hs2.2.2 hpi1
      have hpi3 := hn3.2.1 hpi2
      have hpi4 := hpanic4 hpi3
      have hpi5 := hpanic5 hpi4
      have hpi6 := hfl6.2 hpi5
      have hh6 : st6.had_error = false := had_false_back hflF.1 hhe
      have hh5 : st5.had_error = false := had_false_back hfl6.1 hh6
      have hh4 : st4.had_error = false := by
        have hx := hh5
        rw [hst5, setCurr_had_error] at hx
        exact hx
      have hh3 : st3.had_error = false := by
        rw [← hce.2.2.2.2.2.1]
        exact hh4
      -- the inner context is compiled, popped and swallowed into `fn`
      have hassoc : pre ++ [parent, cl] = (pre ++ [parent]) ++ [cl] :=
        (List.append_assoc pre [parent] [cl]).symm
      have hctx2a : st2.contexts = (pre ++ [parent]) ++ [cl] := by
        rw [hs2.1, hs1.1, hctxeq, hassoc]
      have hlast2 : st2.contexts.getLast? = some cl := last_of_concat hctx2a
      obtain ⟨cl3, l3, hctx3, hlen3, hg3, hbd3⟩ := hn3.2.2 hpi2 hh3 _ _ _ hlast2 hcl0
      have hctx3a : st3.contexts = (pre ++ [parent]) ++ [cl3] := by
        rw [hctx3, drop_of_concat hctx2a]
      have hfn : FunOk fn :=
        hce.2.2.2.2.2.2 cl3 (last_of_concat hctx3a) ⟨l3, hg3⟩
      have hctx4a : st4.contexts = pre ++ [parent] := by
        rw [hce.1, drop_of_concat hctx3a]
      have hlast4 : st4.contexts.getLast? = some parent := last_of_concat hctx4a
      have hceq4 : ctx4 = parent := Except.ok.inj (hctx4.symm.trans (currCtxE_ok hlast4))
      rw [show ce5 = parent from Option.some.inj (hce5p.symm.trans hlast4)] at hst5
      have hctx5a : st5.contexts = pre ++ [{ parent with chunk := parent.chunk.write_code (OpCode.toByte .Function) identTok.line }] := by
        rw [hst5, setCurr_contexts, drop_of_concat hctx4a]
      have hlast5 := last_of_concat hctx5a
      have hceq5 : ctx5 = { parent with chunk := parent.chunk.write_code (OpCode.toByte .Function) identTok.line } :=
        Except.ok.inj (hctx5.symm.trans (currCtxE_ok hlast5))
      obtain ⟨idx, chunk', hadd, hsh6⟩ : ∃ idx chunk',
          ctx5.chunk.add_function fn = .ok (idx, chunk')
          ∧ st6 = setCurr st5 { ctx5 with chunk := chunk'.write_code (idx % 256) identTok.line } := by
        split at h6
        · next idx chunk' hadd =>
          exact ⟨idx, chunk', hadd, (Except.ok.inj h6).symm⟩
        · next e hadd =>
          exfalso
          have hst6 := (Except.ok.inj h6).symm
          have hx : st6.had_error = true := by
            rw [hst6]
            exact throw_error_had _ _ hpi5
          rw [hx] at hh6
          exact Bool.noConfusion hh6
      have hctx6a : st6.contexts = pre ++ [{ ctx5 with chunk := chunk'.write_code (idx % 256) identTok.line }] := by
        rw [hsh6, setCurr_contexts, drop_of_concat hctx5a]
      have hcode6 : ({ ctx5 with chunk := chunk'.write_code (idx % 256) identTok.line } : Ctx).chunk.code
          = parent.chunk.code ++ [OpCode.toByte .Function, idx % 256] := by
        show (chunk'.write_code (idx % 256) identTok.line).code = _
        rw [write_code_code, (add_function_spec hadd).1, hceq5]
        show (parent.chunk.write_code (OpCode.toByte .Function) identTok.line).code ++ [idx % 256] = _
        rw [write_code_code, List.append_assoc]
        rfl
      have hfns6 : ({ ctx5 with chunk := chunk'.write_code (idx % 256) identTok.line } : Ctx).chunk.functions
          = parent.chunk.functions ++ [fn] := by
        show (chunk'.write_code (idx % 256) identTok.line).functions = _
        rw [write_code_functions, (add_function_spec hadd).2, hceq5]
        show (parent.chunk.write_code (OpCode.toByte .Function) identTok.line).functions ++ [fn] = _
        rw [write_code_functions]
      have hg6 : Good ({ ctx5 with chunk := chunk'.write_code (idx % 256) identTok.line } : Ctx).chunk
          (l ++ [⟨.Function, [idx % 256]⟩]) P :=
        Good_append_nonjump_addfn hgP hcode6 hfns6 rfl rfl hfn
      have hlen6 : ({ ctx5 with chunk := chunk'.write_code (idx % 256) identTok.line } : Ctx).chunk.code.length
          = parent.chunk.code.length + 2 := by
        rw [hcode6]
        simp
      have hlast6 := last_of_concat hctx6a
      -- the optional DefineGlobal pair at top level
      split at h
      · split at h
        · exact Except.noConfusion h
        · split at h
          · exact Except.noConfusion h
          · split at h
            · exact Except.noConfusion h
            · next gslot hgs =>
              obtain ⟨ctx6, hctx6, h⟩ := bind_ok h
              try dsimp only at h
              have hceq6 : ctx6 = { ctx5 with chunk := chunk'.write_code (idx % 256) identTok.line } :=
                Except.ok.inj (hctx6.symm.trans (currCtxE_ok hlast6))
              split at h
              · next idx2 chunk2 hadd2 =>
                have hst' := (Except.ok.inj h).symm
                have hctxF : st'.contexts = pre ++ [{ ctx6 with chunk := (chunk2.write_code (OpCode.toByte .DefineGlobal) identTok.line).write_code (idx2 % 256) identTok.line }] := by
                  rw [hst', setCurr_contexts, drop_of_concat hctx6a]
                have hcodeF : ({ ctx6 with chunk := (chunk2.write_code (OpCode.toByte .DefineGlobal) identTok.line).write_code (idx2 % 256) identTok.line } : Ctx).chunk.code
                    = ({ ctx5 with chunk := chunk'.write_code (idx % 256) identTok.line } : Ctx).chunk.code ++ [OpCode.toByte .DefineGlobal, idx2 % 256] := by
                  show ((chunk2.write_code (OpCode.toByte .DefineGlobal) identTok.line).write_code (idx2 % 256) identTok.line).code = _
                  rw [write_code_code, write_code_code, (add_variable_spec hadd2).1, hceq6,
                    List.append_assoc]
                  rfl
                have hfnsF : ({ ctx6 with chunk := (chunk2.write_code (OpCode.toByte .DefineGlobal) identTok.line).write_code (idx2 % 256) identTok.line } : Ctx).chunk.functions
                    = ({ ctx5 with chunk := chunk'.write_code (idx % 256) identTok.line } : Ctx).chunk.functions := by
                  show ((chunk2.write_code (OpCode.toByte .DefineGlobal) identTok.line).write_code (idx2 % 256) identTok.line).functions = _
                  rw [write_code_functions, write_code_functions, (add_variable_spec hadd2).2, hceq6]
                have hgF : Good ({ ctx6 with chunk := (chunk2.write_code (OpCode.toByte .DefineGlobal) identTok.line).write_code (idx2 % 256) identTok.line } : Ctx).chunk
                    ((l ++ [⟨.Function, [idx % 256]⟩]) ++ [⟨.DefineGlobal, [idx2 % 256]⟩]) P :=
                  Good_append_nonjump hg6 hcodeF hfnsF rfl rfl
                have hlenF : ({ ctx6 with chunk := (chunk2.write_code (OpCode.toByte .DefineGlobal) identTok.line).write_code (idx2 % 256) identTok.line } : Ctx).chunk.code.length
                    = ({ ctx5 with chunk := chunk'.write_code (idx % 256) identTok.line } : Ctx).chunk.code.length + 2 := by
                  rw [hcodeF]
                  simp
                refine ⟨_, (l ++ [⟨.Function, [idx % 256]⟩]) ++ [⟨.DefineGlobal, [idx2 % 256]⟩],
                  hctxF, ?_, hgF, ?_⟩
                · omega
                · intro t ht
                  exact Boundary_append _ (Boundary_append _ ht)
              · next e hadd2 =>
                exfalso
                have hst' := (Except.ok.inj h).symm
                have hx : st'.had_error = true := by
                  rw [hst']
                  exact throw_error_had _ _ hpi6
                rw [hx] at hhe
                exact Bool.noConfusion hhe
      · have hst' := Except.ok.inj h
        refine ⟨{ ctx5 with chunk := chunk'.write_code (idx % 256) identTok.line },
          l ++ [⟨.Function, [idx % 256]⟩], ?_, ?_, hg6, ?_⟩
        · rw [← hst']
          exact hctx6a
        · omega
        · intro t ht
          exact Boundary_append _ ht
    | returnStatement =>
      show NeutralSpec st st'
      unfold comp at h
      try dsimp only at h
      obtain ⟨ctx, hctx, h⟩ := bind_ok h
      try dsimp only at h
      obtain ⟨⟨m, st2⟩, h2, h⟩ := bind_ok h
      try dsimp only at h
      have hn1 : NeutralSpec st st2 := by
        refine NeutralSpec.trans ?_ (neutral_of_scan (matchTok_scan h2))
        split
        · exact neutral_of_scan (throw_error_scan _ _ _)
        · exact NeutralSpec.refl _
      split at h
      · obtain ⟨st3, h3, h⟩ := bind_ok h
        exact hn1.trans ((emit1_neutral h3 rfl rfl).trans (emit1_neutral h rfl rfl))
      · obtain ⟨st3, h3, h⟩ := bind_ok h
        obtain ⟨st4, h4, h⟩ := bind_ok h
        exact hn1.trans ((show NeutralSpec st2 st3 from IH _ _ _ h3).trans
          ((neutral_of_scan (consume_scan h4)).trans (emit1_neutral h rfl rfl)))
    | topLoop =>
      show NeutralSpec st st'
      unfold comp at h
      try dsimp only at h
      obtain ⟨⟨m, st1⟩, h1, h⟩ := bind_ok h
      try dsimp only at h
      split at h
      · cases h
        exact neutral_of_scan (matchTok_scan h1)
      · obtain ⟨st2, h2, h3⟩ := bind_ok h
        have hn2 : NeutralSpec st1 st2 := IH _ _ _ h2
        have hn3 : NeutralSpec st2 st' := IH _ _ _ h3
        exact (neutral_of_scan (matchTok_scan h1)).trans (hn2.trans hn3)
    | parseExpression =>
      show NeutralSpec st st'
      unfold comp at h
      try dsimp only at h
      split at h
      · exact IH _ _ _ h
      · cases h
        exact NeutralSpec.refl _
    | parsePrecedence prec =>
      show NeutralSpec st st'
      unfold comp at h
      try dsimp only at h
      obtain ⟨st1, h1, h⟩ := bind_ok h
      refine (neutral_of_scan (advanceTok_scan h1)).trans ?_
      split at h
      · split at h
        all_goals (
          obtain ⟨st2, h2, h⟩ := bind_ok h
          refine NeutralSpec.trans ?_ (show NeutralSpec st2 st' from IH _ _ _ h))
        · exact IH _ _ _ h2
        · exact IH _ _ _ h2
        · exact parse_number_neutral h2
        · exact parse_literal_neutral h2
        · exact parse_string_neutral h2
        · exact IH _ _ _ h2
      · obtain ⟨st2, h2, h⟩ := bind_ok h
        have hst2 : st2 = throw_error st1 st1.previous "Expect prefix error" :=
          (Except.ok.inj (show (Except.ok (throw_error st1 st1.previous "Expect prefix error") : Except CompPanic CompSt) = .ok st2 from h2)).symm
        subst hst2
        exact (neutral_of_scan (throw_error_scan _ _ _)).trans (IH _ _ _ h)
    | ifxLoop prec =>
      show NeutralSpec st st'
      unfold comp at h
      try dsimp only at h
      split at h
      · obtain ⟨st1, h1, h⟩ := bind_ok h
        refine (neutral_of_scan (advanceTok_scan h1)).trans ?_
        split at h
        · split at h
          all_goals (
            obtain ⟨st2, h2, h⟩ := bind_ok h
            refine NeutralSpec.trans (show NeutralSpec st1 st2 from IH _ _ _ h2)
              (show NeutralSpec st2 st' from IH _ _ _ h))
        · obtain ⟨st2, h2, h⟩ := bind_ok h
          have hst2 : st2 = st1 :=
            (Except.ok.inj (show (Except.ok st1 : Except CompPanic CompSt) = .ok st2 from h2)).symm
          subst hst2
          exact IH _ _ _ h
      · cases h
        exact NeutralSpec.refl _
    | parseGrouping =>
      show NeutralSpec st st'
      unfold comp at h
      try dsimp only at h
      obtain ⟨st1, h1, h⟩ := bind_ok h
      have hn1 : NeutralSpec st st1 := IH _ _ _ h1
      exact hn1.trans (neutral_of_scan (consume_scan h))
    | parseUnary =>
      show NeutralSpec st st'
      unfold comp at h
      try dsimp only at h
      obtain ⟨st1, h1, h⟩ := bind_ok h
      have hn1 : NeutralSpec st st1 := IH _ _ _ h1
      refine hn1.trans ?_
      split at h
      · exact emit1_neutral h rfl rfl
      · exact emit1_neutral h rfl rfl
      · cases h
        exact neutral_of_scan (throw_error_scan _ _ _)
    | parseBinary =>
      show NeutralSpec st st'
      unfold comp at h
      try dsimp only at h
      obtain ⟨st1, h1, h⟩ := bind_ok h
      have hn1 : NeutralSpec st st1 := IH _ _ _ h1
      refine hn1.trans ?_
      split at h
      · exact emit1_neutral h rfl rfl
      · exact emit1_neutral h rfl rfl
      · exact emit1_neutral h rfl rfl
      · exact emit1_neutral h rfl rfl
      · obtain ⟨st2, h2, h⟩ := bind_ok h
        exact (emit1_neutral h2 rfl rfl).trans (emit1_neutral h rfl rfl)
      · exact emit1_neutral h rfl rfl
      · exact emit1_neutral h rfl rfl
      · obtain ⟨st2, h2, h⟩ := bind_ok h
        exact (emit1_neutral h2 rfl rfl).trans (emit1_neutral h rfl rfl)
      · exact emit1_neutral h rfl rfl
      · obtain ⟨st2, h2, h⟩ := bind_ok h
        exact (emit1_neutral h2 rfl rfl).trans (emit1_neutral h rfl rfl)
      · cases h
        exact neutral_of_scan (throw_error_scan _ _ _)
    | parseAnd =>
      show NeutralSpec st st'
      unfold comp at h
      try dsimp only at h
      obtain ⟨⟨jf, st1⟩, h1, h⟩ := bind_ok h
      try dsimp only at h
      obtain ⟨st2, h2, h⟩ := bind_ok h
      obtain ⟨st3, h3, h⟩ := bind_ok h
      have hn3 : NeutralSpec st2 st3 := IH _ _ _ h3
      have hf1 := patch_forward_begin_flags h1
      obtain ⟨ce, hce, hst2⟩ := emitByte_ok h2
      have hf4 := patch_forward_end_flags h
      have hmono : st.had_error = true → st'.had_error = true := by
        intro hh
        refine hf4.1 (hn3.1 ?_)
        rw [hst2, setCurr_had_error, hf1.1]
        exact hh
      have hpanic1 : PanicInv st → PanicInv st1 := by
        intro hp hh
        rw [hf1.1]
        apply hp
        rw [← hf1.2]
        exact hh
      have hpanic2 : PanicInv st1 → PanicInv st2 := by
        intro hp hh
        rw [hst2, setCurr_had_error]
        rw [hst2, setCurr_is_panic] at hh
        exact hp hh
      refine ⟨hmono, fun hp => hf4.2 (hn3.2.1 (hpanic2 (hpanic1 hp))), ?_⟩
      intro hpi hhe c l P hc hg
      have hh3 : st3.had_error = false := had_false_back hf4.1 hhe
      have hh2 : st2.had_error = false := had_false_back hn3.1 hh3
      have hpi1 := hpanic1 hpi
      have hpi2 := hpanic2 hpi1
      have hpi3 := hn3.2.1 hpi2
      obtain ⟨c1, hctx1, hs1, hcu1, hpr1, hip1, hhe1, hjf, hlen1, hg1⟩ :=
        patch_forward_begin_good hc hg (Or.inr rfl) h1
      have hlast1 : st1.contexts.getLast? = some c1 := last_of_concat hctx1
      rw [show ce = c1 from Option.some.inj (hce.symm.trans hlast1)] at hst2
      have hg2 : Good ({ c1 with chunk := c1.chunk.write_code (OpCode.toByte .Pop) st1.previous.line } : Ctx).chunk
          ((l ++ [⟨.JumpFalse, [255, 255]⟩]) ++ [⟨.Pop, []⟩]) (fun p => P p ∨ p = jf) :=
        Good_append_nonjump hg1 (write_code_code _ _ _) (write_code_functions _ _ _) rfl rfl
      have hctx2 : st2.contexts = st.contexts.dropLast ++ [{ c1 with chunk := c1.chunk.write_code (OpCode.toByte .Pop) st1.previous.line }] := by
        rw [hst2, setCurr_contexts, drop_of_concat hctx1]
      have hlast2 := last_of_concat hctx2
      obtain ⟨c3, l3, hctx3, hlen3, hg3, hbd3⟩ := hn3.2.2 hpi2 hh3 _ _ _ hlast2 hg2
      have hlast3 := last_of_concat hctx3
      obtain ⟨c4, l4, hctx4, hs4, hcu4, hpr4, hip4, hhe4, hlen4, hg4, hl4len, hl4st⟩ :=
        patch_forward_end_good hlast3 hg3 (Or.inr rfl) hpi3 hhe h
      have hPlt : ∀ p, P p → p < jf := by
        intro p hp
        have hlt := Good_pending_lt hg hp
        omega
      refine ⟨c4, l4, ?_, ?_, ?_, ?_⟩
      · rw [hctx4, drop_of_concat hctx3, drop_of_concat hctx2]
      · have hwl : ({ c1 with chunk := c1.chunk.write_code (OpCode.toByte .Pop) st1.previous.line } : Ctx).chunk.code.length = c1.chunk.code.length + 1 :=
          write_code_length _ _ _
        omega
      · refine Good_congr (fun p => ⟨?_, ?_⟩) hg4
        · rintro ⟨hp | hpe, hne⟩
          · exact hp
          · exact absurd hpe hne
        · intro hp
          exact ⟨Or.inl hp, by have := hPlt p hp; omega⟩
      · intro t ht
        exact Boundary_of_eq hl4st hl4len (hbd3 t (Boundary_append _ (Boundary_append _ ht)))
    | parseOr =>
      show NeutralSpec st st'
      unfold comp at h
      try dsimp only at h
      obtain ⟨⟨jf, st1⟩, h1, h⟩ := bind_ok h
      try dsimp only at h
      obtain ⟨⟨je, st2⟩, h2, h⟩ := bind_ok h
      try dsimp only at h
      obtain ⟨st3, h3, h⟩ := bind_ok h
      obtain ⟨st4, h4, h⟩ := bind_ok h
      obtain ⟨st5, h5, h⟩ := bind_ok h
      have hn5 : NeutralSpec st4 st5 := IH _ _ _ h5
      have hf1 := patch_forward_begin_flags h1
      have hf2 := patch_forward_begin_flags h2
      have hf3 := patch_forward_end_flags h3
      obtain ⟨ce, hce, hst4⟩ := emitByte_ok h4
      have hf6 := patch_forward_end_flags h
      have hpanic1 : PanicInv st → PanicInv st1 := by
        intro hp hh
        rw [hf1.1]
        apply hp
        rw [← hf1.2]
        exact hh
      have hpanic2 : PanicInv st1 → PanicInv st2 := by
        intro hp hh
        rw [hf2.1]
        apply hp
        rw [← hf2.2]
        exact hh
      have hpanic4 : PanicInv st3 → PanicInv st4 := by
        intro hp hh
        rw [hst4, setCurr_had_error]
        rw [hst4, setCurr_is_panic] at hh
        exact hp hh
      have hmono : st.had_error = true → st'.had_error = true := by
        intro hh
        refine hf6.1 (hn5.1 ?_)
        rw [hst4, setCurr_had_error]
        refine hf3.1 ?_
        rw [hf2.1, hf1.1]
        exact hh
      refine ⟨hmono,
        fun hp => hf6.2 (hn5.2.1 (hpanic4 (hf3.2 (hpanic2 (hpanic1 hp))))), ?_⟩
      intro hpi hhe c l P hc hg
      have hh5 : st5.had_error = false := had_false_back hf6.1 hhe
      have hh4 : st4.had_error = false := had_false_back hn5.1 hh5
      have hh3 : st3.had_error = false := by
        rw [hst4, setCurr_had_error] at hh4
        exact hh4
      have hpi1 := hpanic1 hpi
      have hpi2 := hpanic2 hpi1
      have hpi3 := hf3.2 hpi2
      have hpi4 := hpanic4 hpi3
      have hpi5 := hn5.2.1 hpi4
      obtain ⟨c1, hctx1, hs1, hcu1, hpr1, hip1, hhe1, hjf, hlen1, hg1⟩ :=
        patch_forward_begin_good hc hg (Or.inr rfl) h1
      have hlast1 : st1.contexts.getLast? = some c1 := last_of_concat hctx1
      obtain ⟨c2, hctx2, hs2, hcu2, hpr2, hip2, hhe2, hje, hlen2, hg2⟩ :=
        patch_forward_begin_good hlast1 hg1 (Or.inl rfl) h2
      have hlast2 : st2.contexts.getLast? = some c2 := last_of_concat hctx2
      have hLl : (instrsBytes l).length = c.chunk.code.length := by rw [hg.1]
      have hL1 : (instrsBytes (l ++ [(⟨.JumpFalse, [255, 255]⟩ : Instr)])).length =
          c1.chunk.code.length := by rw [hg1.1]
      obtain ⟨c3, l3, hctx3, hs3, hcu3, hpr3, hip3, hhe3c, hlen3, hg3, hl3len, hl3st⟩ :=
        patch_forward_end_good hlast2 hg2 (Or.inl (Or.inr rfl)) hpi2 hh3 h3
      have hlast3 : st3.contexts.getLast? = some c3 := last_of_concat hctx3
      have hPlt : ∀ p, P p → p < jf := fun p hp => by
        have := Good_pending_lt hg hp
        omega
      have hjelt : jf < je := by omega
      have hg3x : Good c3.chunk l3 (fun p => P p ∨ p = je) := by
        refine Good_congr (fun p => ⟨?_, ?_⟩) hg3
        · rintro ⟨(hp | hpe) | hpe, hne⟩
          · exact Or.inl hp
          · exact absurd hpe hne
          · exact Or.inr hpe
        · rintro (hp | hpe)
          · exact ⟨Or.inl (Or.inl hp), by have := hPlt p hp; omega⟩
          · exact ⟨Or.inr hpe, by omega⟩
      rw [show ce = c3 from Option.some.inj (hce.symm.trans hlast3)] at hst4
      have hg4 : Good ({ c3 with chunk := c3.chunk.write_code (OpCode.toByte .Pop) st3.previous.line } : Ctx).chunk
          (l3 ++ [⟨.Pop, []⟩]) (fun p => P p ∨ p = je) :=
        Good_append_nonjump hg3x (write_code_code _ _ _) (write_code_functions _ _ _) rfl rfl
      have hctx4 : st4.contexts = st.contexts.dropLast ++ [{ c3 with chunk := c3.chunk.write_code (OpCode.toByte .Pop) st3.previous.line }] := by
        rw [hst4, setCurr_contexts, drop_of_concat hctx3, drop_of_concat hctx2,
          drop_of_concat hctx1]
      have hlast4 := last_of_concat hctx4
      obtain ⟨c5, l5, hctx5, hlen5, hg5, hbd5⟩ := hn5.2.2 hpi4 hh5 _ _ _ hlast4 hg4
      have hlast5 := last_of_concat hctx5
      obtain ⟨c6, l6, hctx6, hs6, hcu6, hpr6, hip6, hhe6, hlen6, hg6, hl6len, hl6st⟩ :=
        patch_forward_end_good hlast5 hg5 (Or.inr rfl) hpi5 hhe h
      refine ⟨c6, l6, ?_, ?_, ?_, ?_⟩
      · rw [hctx6, drop_of_concat hctx5, drop_of_concat hctx4]
      · have hpl : ({ c3 with chunk := c3.chunk.write_code (OpCode.toByte .Pop) st3.previous.line } : Ctx).chunk.code.length = c3.chunk.code.length + 1 :=
          write_code_length _ _ _
        omega
      · refine Good_congr (fun p => ⟨?_, ?_⟩) hg6
        · rintro ⟨hp | hpe, hne⟩
          · exact hp
          · exact absurd hpe hne
        · intro hp
          exact ⟨Or.inl hp, by have := hPlt p hp; omega⟩
      · intro t ht
        refine Boundary_of_eq hl6st hl6len (hbd5 t (Boundary_append _ ?_))
        exact Boundary_of_eq hl3st hl3len (Boundary_append _ (Boundary_append _ ht))
    | parseCall =>
      show NeutralSpec st st'
      unfold comp at h
      try dsimp only at h
      split at h
      · exact IH _ _ _ h
      · exact finishCall_neutral h
    | argsLoop argCount =>
      show NeutralSpec st st'
      unfold comp at h
      try dsimp only at h
      obtain ⟨st1, h1, h⟩ := bind_ok h
      have hn1 : NeutralSpec st st1 := IH _ _ _ h1
      try dsimp only at h
      split at h
      · exact Except.noConfusion h
      · obtain ⟨⟨cm, st2⟩, h2, h⟩ := bind_ok h
        try dsimp only at h
        have hn12 : NeutralSpec st st2 := hn1.trans (neutral_of_scan (matchTok_scan h2))
        split at h
        · exact hn12.trans (IH _ _ _ h)
        · exact hn12.trans (finishCall_neutral h)
    | parseVariable =>
      show NeutralSpec st st'
      unfold comp at h
      try dsimp only at h
      obtain ⟨ctx, hctx, h⟩ := bind_ok h
      try dsimp only at h
      split at h
      · exact Except.noConfusion h
      · obtain ⟨ls, hls, h⟩ := bind_ok h
        try dsimp only at h
        split at h
        · obtain ⟨⟨eqM, st2⟩, h2, h⟩ := bind_ok h
          try dsimp only at h
          have hn1 : NeutralSpec st st2 := neutral_of_scan (matchTok_scan h2)
          split at h
          · obtain ⟨st3, h3, h⟩ := bind_ok h
            exact hn1.trans ((show NeutralSpec st2 st3 from IH _ _ _ h3).trans
              (emitVarAccess_neutral h rfl rfl))
          · exact hn1.trans (emitVarAccess_neutral h rfl rfl)
        · split at h
          · exact Except.noConfusion h
          · split at h
            · obtain ⟨⟨eqM, st2⟩, h2, h⟩ := bind_ok h
              try dsimp only at h
              have hn1 : NeutralSpec st st2 := neutral_of_scan (matchTok_scan h2)
              split at h
              · obtain ⟨st3, h3, h⟩ := bind_ok h
                exact hn1.trans ((show NeutralSpec st2 st3 from IH _ _ _ h3).trans
                  (emitVarAccess_neutral h rfl rfl))
              · exact hn1.trans (emitVarAccess_neutral h rfl rfl)
            · cases h
              exact neutral_of_scan (throw_error_scan _ _ _)

/-- C7: in the chunk produced for every accepted program (and recursively
in every function chunk of its constant pool), the code decomposes into
well-formed instructions, and each `Jump`, `JumpFalse` and `JumpBack`
instruction, when taken, leaves `ip` at the first byte of an instruction
of the same chunk (`jumpsOkStrict` inside `FunOk`). -/
theorem C7_jump_correctness (fuel : Nat) (source : String) (fn : Function)
    (h : compile fuel source = .ok (.ok fn)) : FunOk fn := by
  unfold compile at h
  try dsimp only at h
  obtain ⟨st1, h1, h⟩ := bind_ok h
  obtain ⟨st2, h2, h⟩ := bind_ok h
  obtain ⟨⟨fn0, st3⟩, h3, h⟩ := bind_ok h
  try dsimp only at h
  obtain ⟨st4, h4, h⟩ := bind_ok h
  have hres := Except.ok.inj h
  split at hres
  · exact Except.noConfusion hres
  · next hx =>
    have hhe : st4.had_error = false := by
      cases hb : st4.had_error
      · rfl
      · exact absurd hb hx
    have hfn : fn0 = fn := Except.ok.inj hres
    subst hfn
    have hs1 := advanceTok_scan h1
    have hn2 : NeutralSpec st1 st2 := comp_spec fuel .topLoop st1 st2 h2
    have hce := compile_end_spec h3
    have hs4 := consume_scan h4
    have hh3 : st3.had_error = false := had_false_back hs4.2.1 hhe
    have hh2 : st2.had_error = false := by
      rw [← hce.2.2.2.2.2.1]
      exact hh3
    have hpi0 : PanicInv { scanner := Scanner.reset source, current := Token.default, previous := Token.default, is_panic := false, had_error := false, contexts := [{ Ctx.new with vars := dmInsert [] 0 [] }] } :=
      fun hh => Bool.noConfusion hh
    have hpi1 := hs1.2.2 hpi0
    have hlast1 : st1.contexts.getLast? = some { Ctx.new with vars := dmInsert [] 0 [] } := by
      rw [hs1.1]
      rfl
    obtain ⟨c2, l2, hctx2, hlen2, hg2, hbd2⟩ :=
      hn2.2.2 hpi1 hh2 _ _ _ hlast1 Good_empty
    exact hce.2.2.2.2.2.2 c2 (last_of_concat hctx2) ⟨l2, hg2⟩

/-- C7 witness: the program `if (true) print 1;` is accepted and its
compiled top-level function satisfies the jump-correctness invariant. -/
theorem C7_witness : FunOkOpt (compiledFn 600 "if (true) print 1;") := by
  obtain ⟨fn, hfn⟩ : ∃ fn, compile 600 "if (true) print 1;" = .ok (.ok fn) := ⟨_, rfl⟩
  have hok := C7_jump_correctness 600 "if (true) print 1;" fn hfn
  unfold FunOkOpt compiledFn
  rw [hfn]
  exact hok

/-- C8 counterexample: with `Divide` as the next opcode and `Number(1)`,
`Number(0)` on the stack, the claim demands a detected error ending the run
with `RuntimeError`; the code performs the IEEE division (`1.0 / 0.0`, which
is `inf` in Rust — the success/error structure does not depend on the
numeric representation) and continues, so the step is not a `RuntimeError`
break. -/
theorem C8_divide_zero_cex :
    c8State.stack = [.VNumber 1, .VNumber 0]
    ∧ isRuntimeErrorHalt (step c8State) = false := ⟨rfl, rfl⟩

/-- C8 (amended): `Divide` on two `Number` operands always succeeds,
pushing their quotient — the value layer has no zero test, so a zero
divisor is not detected and never terminates interpretation with
`RuntimeError`. -/
theorem C8_divide_numbers_always_succeeds
    (s : VMState) (fr : CallFrame) (rest : List Value) (x y : ℚ)
    (hfr : s.frames.getLast? = some fr)
    (hop : fr.function.chunk.code.get? fr.ip = some 12)
    (hstk : s.stack = rest ++ [.VNumber x, .VNumber y]) :
    step s = .next
      { s with frames := s.frames.dropLast ++ [{ fr with ip := fr.ip + 1 }],
               stack := rest ++ [.VNumber (x / y)] } [] := by
  unfold step
  rw [hfr]
  simp only [hop, OpCode.ofByte]
  unfold binArm
  rw [hstk, getLast?_append_two, dropLast_append_two, List.getLast?_concat,
    List.dropLast_concat]
  rfl

/-- C8 witness: the amended theorem applied at a concrete state whose
divisor is zero. -/
theorem C8_witness :
    step c8State = .next
      { c8State with
          frames := c8State.frames.dropLast ++ [{ c8Frame with ip := 1 }],
          stack := [Value.VNumber (1 / 0)] } [] :=
  C8_divide_numbers_always_succeeds c8State c8Frame [] 1 0 rfl rfl rfl

/-- C1 counterexample: the claim requires a runtime error whenever the
callee's `param_count` differs from `arg_count`; here the callee is a
function of `params_num = 1` called with `arg_count = 0`, yet the VM pushes
a call frame and continues — src/vm.rs's `Call` arm never compares
`params_num` with the argument count. -/
theorem C1_arity_unchecked_cex :
    c1Callee.paramsNum = 1
    ∧ isRuntimeErrorHalt (step c1State) = false
    ∧ (match step c1State with
        | .next s' _ => s'.frames.length
        | _ => 0) = 2 := ⟨rfl, rfl, rfl⟩

/-- C1 (amended): executing `Call(arg_count)` inspects the value at
`stack[|stack| − arg_count − 1]`; if it is a `Function` — with no check of
its `param_count` against `arg_count` — a new call frame with
`stack_base = |stack| − arg_count` is pushed and the stack is left
unchanged; if it is not a `Function`, execution stops with `RuntimeError`. -/
theorem C1_call_semantics (s : VMState) (fr : CallFrame) (argc : Nat)
    (hfr : s.frames.getLast? = some fr)
    (hop : fr.function.chunk.code.get? fr.ip = some 26)
    (harg : fr.function.chunk.code.get? (fr.ip + 1) = some argc)
    (hlen : argc + 1 ≤ s.stack.length) :
    (∀ f : Function,
      s.stack.get? (s.stack.length - 1 - argc) = some (.VFunction f) →
      step s = .next
        { s with frames := s.frames.dropLast ++ [{ fr with ip := fr.ip + 2 }] ++
            [{ ip := 0, function := f, slot := s.stack.length - argc }] } [])
    ∧ (∀ v : Value,
      s.stack.get? (s.stack.length - 1 - argc) = some v →
      (∀ f : Function, v ≠ .VFunction f) →
      step s = .halt .RuntimeError
        { s with frames := s.frames.dropLast ++ [{ fr with ip := fr.ip + 2 }] } []) := by
  constructor
  · intro f hget
    unfold step
    rw [hfr]
    simp only [hop, harg, OpCode.ofByte, hlen, if_pos, hget]
  · intro v hget hnotfun
    unfold step
    rw [hfr]
    simp only [hop, harg, OpCode.ofByte, hlen, if_pos, hget]

/-- C1 witness: the amended call semantics applied at a concrete state:
a `Function` callee of `params_num = 1` invoked with `arg_count = 0`. -/
theorem C1_witness :
    step c1State = .next
      { c1State with frames := c1State.frames.dropLast ++ [{ c1Frame with ip := 2 }] ++
          [{ ip := 0, function := c1Callee, slot := 1 }] } [] :=
  (C1_call_semantics c1State c1Frame 0 rfl rfl rfl (by decide)).1 c1Callee rfl

/-- C9: `SetGlobal` on an occupied slot overwrites `globals[slot]` with a
copy of the stack top, leaving the operand stack and all other global
slots unchanged; on an empty slot it is a runtime error. -/
theorem C9_set_global (s : VMState) (fr : CallFrame) (idx slot : Nat) (top : Value)
    (hfr : s.frames.getLast? = some fr)
    (hop : fr.function.chunk.code.get? fr.ip = some 20)
    (hidx : fr.function.chunk.code.get? (fr.ip + 1) = some idx)
    (hslot : fr.function.chunk.varSlots.get? idx = some slot)
    (htop : s.stack.getLast? = some top)
    (hline : fr.ip + 1 < fr.function.chunk.lines.length) :
    (∀ w : Value, s.globals.get? slot = some (some w) →
      step s = .next
        { s with frames := s.frames.dropLast ++ [{ fr with ip := fr.ip + 2 }],
                 globals := s.globals.set slot (some top) } []
      ∧ ∀ j, j ≠ slot → (s.globals.set slot (some top)).get? j = s.globals.get? j)
    ∧ (s.globals.get? slot = some none →
      step s = .halt .RuntimeError
        { s with frames := s.frames.dropLast ++ [{ fr with ip := fr.ip + 2 }],
                 stack := [] } []) := by
  constructor
  · intro w hocc
    constructor
    · unfold step
      rw [hfr]
      simp only [hop, hidx, hslot, OpCode.ofByte, hocc, htop]
    · intro j hj
      rw [List.get?_eq_getElem?, List.get?_eq_getElem?,
        List.getElem?_set_ne (fun h => hj h.symm)]
  · intro hempty
    unfold step
    rw [hfr]
    simp only [hop, hidx, hslot, OpCode.ofByte, hempty]
    unfold runtimeErrorStep
    rw [if_pos]
    constructor
    · exact Nat.le_add_left 1 _
    · simpa using hline

/-- C9 witness: `SetGlobal` at a concrete state with an occupied slot. -/
theorem C9_witness :
    step c9State = .next
      { c9State with
          frames := c9State.frames.dropLast ++ [{ c9Frame with ip := 2 }],
          globals := c9State.globals.set 0 (some (.VNumber 7)) } [] :=
  ((C9_set_global c9State c9Frame 0 0 (.VNumber 7) rfl rfl rfl rfl rfl
    (by decide)).1 (.VNumber 3) rfl).1

/-- C3: the program `print "foo" + "bar";` runs to `Success` but writes
`"foobar"` — WITH surrounding double quotes — as its output line, because
`Value`'s `ToString` wraps string values in quotes and the VM's `Print` arm
uses it; the claim (and the spec's example E2) requires bare `foobar`. -/
theorem C3_print_quotes_string :
    obs (interpret_source 600 VM.new "print \"foo\" + \"bar\";") =
      some (.Success, ["\"foobar\""])
    ∧ ("\"foobar\"" : String) ≠ "foobar" :=
  ⟨rfl, by decide⟩

/-- C6: when the program's first statement is a `while` (or `for`) loop,
`compile` does not return normally: `while_statement` (src/compiler.rs
line 532) computes `code_size() − 1` on an empty chunk, a usize
subtraction overflow that panics in a debug build. -/
theorem C6_loop_first_statement_panics :
    compile 600 "while (true) print 1;" =
      .error (.underflowPanic "while_statement code_size - 1")
    ∧ compile 600 "for (;;) print 1;" =
      .error (.underflowPanic "for_statement code_size - 1") :=
  ⟨rfl, rfl⟩

/-- C5 counterexample: `print -nil;` ends in `RuntimeError` and leaves its
call frame in `VM.frames`; interpreting `print 1;` on that same VM then
prints `1` AND a stale `nil` (the leftover frame resumes after the new
program returns), while a fresh VM prints only `1`.  The two runs have the
same `InterpretResult` but different output, refuting the claim as
stated. -/
theorem C5_stale_frame_cex :
    resOf (interpret_source 600 VM.new "print -nil;") = some .RuntimeError
    ∧ obs (interpret_source 600 c5DirtyVM "print 1;") = some (.Success, ["1", "nil"])
    ∧ obs (interpret_source 600 VM.new "print 1;") = some (.Success, ["1"])
    ∧ (["1", "nil"] : List String) ≠ ["1"] :=
  ⟨rfl, rfl, rfl, by decide⟩

/-- Helper for C5: a `step` that breaks the run with a result other than
`RuntimeError` leaves an empty frame stack — the only such break is
`Return`'s `Success` exit, taken exactly when the popped frame was the
last. -/
theorem step_halt_frames (s s' : VMState) (r : InterpretResult) (o : List String)
    (h : step s = .halt r s' o) (hr : r ≠ .RuntimeError) : s'.frames = [] := by
  unfold step at h
  repeat' split at h
  all_goals (try simp only [runtimeErrorStep, unArm, binArm] at h)
  all_goals (repeat' split at h)
  all_goals (try (cases h))
  all_goals (try (exact absurd rfl hr))
  all_goals simp_all [List.length_eq_zero]
  all_goals (apply List.eq_nil_of_length_eq_zero; simp_all)

/-- Helper for C5: a run ending in `Success` (or any non-`RuntimeError`
result) ends with no call frames. -/
theorem runLoop_halt_frames : (fuel : Nat) → (st st' : VMState) →
    (r : InterpretResult) → (out : List String) →
    runLoop fuel st = .result r st' out → r ≠ .RuntimeError → st'.frames = []
  | 0, _, _, _, _, h, _ => by cases h
  | fuel + 1, st, st', r, out, h, hr => by
    unfold runLoop at h
    cases hs : step st with
    | next s1 o1 =>
      rw [hs] at h
      dsimp only at h
      cases hrl : runLoop fuel s1 with
      | result r2 s2 o2 =>
        rw [hrl] at h
        injection h with h1 h2 h3
        rw [← h2]
        exact runLoop_halt_frames fuel s1 s2 r2 o2 hrl (by rw [h1]; exact hr)
      | panicked m => rw [hrl] at h; cases h
      | fuelOut => rw [hrl] at h; cases h
    | halt r2 s2 o2 =>
      rw [hs] at h
      dsimp only at h
      injection h with h1 h2 h3
      rw [← h2]
      exact step_halt_frames st s2 r2 o2 hs (by rw [h1]; exact hr)
    | vmPanic m => rw [hs] at h; dsimp only at h; cases h

/-- C5 (amended): interpretation runs are independent provided the earlier
run did not end with `RuntimeError`: if `interpret_source(s1)` on a fresh
VM completes with `Success` or `CompileError`, then `interpret_source(s2)`
on the resulting VM has the same observable outcome (result and printed
output) as on a freshly constructed VM.  (After a `RuntimeError`, the
stale call frame left in `frames` can change the next run, as the
counterexample shows.) -/
theorem C5_independence (fuel1 fuel2 : Nat) (s1 s2 : String)
    (r1 : InterpretResult) (vm1 : VMState) (out1 : List String)
    (h1 : interpret_source fuel1 VM.new s1 = .done r1 vm1 out1)
    (hr : r1 ≠ .RuntimeError) :
    obs (interpret_source fuel2 vm1 s2) = obs (interpret_source fuel2 VM.new s2) := by
  have hframes : vm1.frames = [] := by
    unfold interpret_source at h1
    split at h1
    · cases h1
    · cases h1
    · injection h1 with ha hb hc
      rw [← hb]
      rfl
    · dsimp only at h1
      split at h1
      · rename_i hrl
        injection h1 with ha hb hc
        rw [← hb]
        exact runLoop_halt_frames _ _ _ _ _ hrl (by rw [ha]; exact hr)
      · cases h1
      · cases h1
  unfold interpret_source
  cases hc2 : compile fuel2 s2 with
  | error p => cases p <;> rfl
  | ok res =>
    cases res with
    | error e => rfl
    | ok fn =>
      dsimp only
      rw [hframes]
      rfl

/-- C5 witness: the amended independence applied after a successful first
run (`print 1;`), comparing a second run of `print 2;` on the reused VM
against a fresh VM. -/
theorem C5_witness :
    obs (interpret_source 600 c5CleanVM "print 2;") =
      obs (interpret_source 600 VM.new "print 2;") :=
  C5_independence 600 600 "print 1;" "print 2;" .Success c5CleanVM ["1"] rfl
    (by decide)

end RLox
